import Mathlib

/-!
# colorterm: theme / colormap subsystem and escape-code emitters

A shallow embedding of `src/colorterm.hpp` (POSIX branch of the header).

* `std::string` is a `List Char` (a C++ `char` is one `Char`).
* `std::unordered_map<K, V>` is an association list with first-match lookup;
  the order of the list is the (unspecified) iteration order of the map.
* Output streams are the byte strings written to them.
* A thrown `std::runtime_error` is the `thrown` component of a `Result`.
-/

namespace colorterm

/-- The type `std::string`. -/
abbrev Str := List Char

/-- The type `std::unordered_map<K, V>`: entries in iteration order. -/
abbrev Table (κ ν : Type) := List (κ × ν)

namespace Table

variable {κ ν : Type} [DecidableEq κ]

/-- Lookup `m.find(k)`: `none` stands for `m.end()`, `some v` for `it->second`. -/
def find : Table κ ν → κ → Option ν
  | [], _ => none
  | (k', v) :: t, k => if k' = k then some v else find t k

/-- Assignment `m[k] = v`: overwrites the entry of `k`, or adds a new entry. -/
def assign : Table κ ν → κ → ν → Table κ ν
  | [], k, v => [(k, v)]
  | (k', v') :: t, k, v => if k' = k then (k, v) :: t else (k', v') :: assign t k v

/-- Removal `m.erase(k)`. -/
def erase (t : Table κ ν) (k : κ) : Table κ ν :=
  t.filter (fun e => decide (e.1 ≠ k))

/-- Keys are unique, as in every `std::unordered_map`. -/
def WF (t : Table κ ν) : Prop := (t.map Prod.fst).Nodup

instance (t : Table κ ν) : Decidable (WF t) := by
  unfold WF
  infer_instance

end Table

/-- The literal `"\033[0m"` appended after every colored character. -/
def resetSeq : Str := "\x1b[0m".toList

/-- The class `_internal::ColorMapping`: its three private maps. -/
structure ColorMapping where
  charToColorCode : Table Char Str
  keyToColorCode : Table Str Str
  valueToColorCode : Table Str Str
deriving DecidableEq, Repr

namespace ColorMapping

/-- A default-constructed `ColorMapping()`: three empty maps. -/
def empty : ColorMapping := ⟨[], [], []⟩

/-- The loop `for (char ch : characters) charToColorCode[ch] = colorCode;`. -/
def assignChars (t : Table Char Str) (characters colorCode : Str) : Table Char Str :=
  characters.foldl (fun acc ch => Table.assign acc ch colorCode) t

/-- Method `ColorMapping::insert(name, characters, colorCode, isKey, isValue)`. -/
def insert (m : ColorMapping) (name characters colorCode : Str) (isKey isValue : Bool) :
    ColorMapping :=
  if isKey then
    { m with keyToColorCode := Table.assign m.keyToColorCode name colorCode }
  else if isValue then
    { m with valueToColorCode := Table.assign m.valueToColorCode name colorCode }
  else
    { m with charToColorCode := assignChars m.charToColorCode characters colorCode }

/-- Method `ColorMapping::apply_key_color(key)`. -/
def apply_key_color (m : ColorMapping) (key : Str) : Str :=
  match Table.find m.keyToColorCode key with
  | some code => code ++ key ++ resetSeq
  | none => key

/-- Method `ColorMapping::apply_value_color(value)`. -/
def apply_value_color (m : ColorMapping) (value : Str) : Str :=
  match Table.find m.valueToColorCode value with
  | some code => code ++ value ++ resetSeq
  | none => value

/-- The body of the `for (char ch : text)` loop of `ColorMapping::apply`, run on the
remaining characters: `isKey` is the loop's flag and `oss` what has been written so far. -/
def applyLoop (m : ColorMapping) : Bool → Str → Str → Str
  | _, oss, [] => oss
  | isKey, oss, ch :: rest =>
    let isKey := if ch = ':' then false else isKey
    match Table.find m.charToColorCode ch with
    | some code => applyLoop m isKey (oss ++ (code ++ [ch] ++ resetSeq)) rest
    | none =>
      if isKey then applyLoop m isKey (oss ++ m.apply_key_color [ch]) rest
      else applyLoop m isKey (oss ++ m.apply_value_color [ch]) rest

/-- Method `ColorMapping::apply(text)`: `isKey` starts `true`, the stream empty. -/
def apply (m : ColorMapping) (text : Str) : Str :=
  applyLoop m true [] text

/-- Method `ColorMapping::get()`. -/
def get (m : ColorMapping) : Table Char Str := m.charToColorCode

/-- Method `ColorMapping::inspect_color(character)`: `none` is `nullptr`. -/
def inspect_color (m : ColorMapping) (character : Char) : Option Str :=
  Table.find m.charToColorCode character

/-- Method `ColorMapping::inspect_key_color(key)`: `none` is `nullptr`. -/
def inspect_key_color (m : ColorMapping) (key : Str) : Option Str :=
  Table.find m.keyToColorCode key

/-- Method `ColorMapping::inspect_value_color(value)`: `none` is `nullptr`. -/
def inspect_value_color (m : ColorMapping) (value : Str) : Option Str :=
  Table.find m.valueToColorCode value

/-- Method `ColorMapping::replace(characters, colorCode)`. -/
def replace (m : ColorMapping) (characters colorCode : Str) : ColorMapping :=
  { m with charToColorCode := assignChars m.charToColorCode characters colorCode }

/-- Method `ColorMapping::erase(characters)`. -/
def erase (m : ColorMapping) (characters : Str) : ColorMapping :=
  { m with charToColorCode :=
      characters.foldl (fun acc ch => Table.erase acc ch) m.charToColorCode }

end ColorMapping

/-! ### Files -/

/-- The part of the environment `std::ofstream` and `std::ifstream` see: `readable path`
is the content of the file when `std::ifstream(path)` opens, `none` when it fails to open;
`writable path` says whether `std::ofstream(path)` opens. -/
structure FileSystem where
  readable : Str → Option Str
  writable : Str → Bool

/-- The file system after `content` has been written to `path` through an `std::ofstream`
that was then closed: the file holds exactly `content` and can be read back. -/
def FileSystem.write (fs : FileSystem) (path content : Str) : FileSystem :=
  { fs with readable := fun p => if p = path then some content else fs.readable p }

/-- The lines `while (std::getline(in, line))` yields for the unread characters of a
stream; `line` holds the characters of the current line extracted so far. A line ends at
a newline, which is dropped; at the end of the stream a non-empty rest is a last line,
and an extraction of no character fails and ends the loop. -/
def getlinesAux (line : Str) : Str → List Str
  | [] => if line = [] then [] else [line]
  | c :: cs => if c = '\n' then line :: getlinesAux [] cs else getlinesAux (line ++ [c]) cs

/-- All lines read by repeated `std::getline` from a stream holding `content`. -/
def getlines (content : Str) : List Str := getlinesAux [] content

/-- Search `line.find(c)`: the first position of `c`, `none` for `std::string::npos`. -/
def findChar : Str → Char → Option Nat
  | [], _ => none
  | x :: xs, c => if x = c then some 0 else (findChar xs c).map (fun i => i + 1)

/-- Suffix `s.substr(pos)`. -/
def substr (s : Str) (pos : Nat) : Str := s.drop pos

/-! ### ThemeManager -/

/-- The value of the pointer `currentTheme`: the address of the member `defaultTheme`, or
the address of the entry of `themes` with the given name (entries are never removed and
`std::unordered_map` never moves them, so such a pointer stays valid). -/
inductive ThemePtr where
  | defaultTheme : ThemePtr
  | entry (name : Str) : ThemePtr
deriving DecidableEq, Repr

/-- The members of `_internal::ThemeManager`. -/
structure ThemeManager where
  defaultTheme : ColorMapping
  currentTheme : ThemePtr
  themes : Table Str ColorMapping
  color_enabled : Bool
deriving DecidableEq, Repr

/-- The outcome of a call that may throw: the message of the `std::runtime_error` thrown,
if any, and the state the call leaves behind. Log lines written to `std::cerr` by `Logger`
are not part of the state. -/
structure Result (σ : Type) where
  thrown : Option Str
  state : σ

namespace ThemeManager

/-- The constructor: `currentTheme(&defaultTheme)`, `color_enabled(true)`, and the body
`themes["default"] = defaultTheme;`. -/
def init : ThemeManager :=
  { defaultTheme := ColorMapping.empty
    currentTheme := ThemePtr.defaultTheme
    themes := Table.assign [] "default".toList ColorMapping.empty
    color_enabled := true }

/-- The entry `themes[name]` (a missing entry reads as a default-constructed mapping). -/
def theme (m : ThemeManager) (name : Str) : ColorMapping :=
  (Table.find m.themes name).getD ColorMapping.empty

/-- The object `*currentTheme`. -/
def current (m : ThemeManager) : ColorMapping :=
  match m.currentTheme with
  | ThemePtr.defaultTheme => m.defaultTheme
  | ThemePtr.entry name => m.theme name

/-- A mutation `currentTheme->f(...)` of the object `currentTheme` points to. -/
def updateCurrent (m : ThemeManager) (f : ColorMapping → ColorMapping) : ThemeManager :=
  match m.currentTheme with
  | ThemePtr.defaultTheme => { m with defaultTheme := f m.defaultTheme }
  | ThemePtr.entry name => { m with themes := Table.assign m.themes name (f (m.theme name)) }

/-- The method `ThemeManager::create(themeName)`. -/
def create (m : ThemeManager) (themeName : Str) : Result ThemeManager :=
  if (Table.find m.themes themeName).isSome then
    { thrown := some ("Theme already exists: ".toList ++ themeName), state := m }
  else
    { thrown := none
      state := { m with themes := Table.assign m.themes themeName ColorMapping.empty } }

/-- The method `ThemeManager::set(themeName)`. -/
def set (m : ThemeManager) (themeName : Str) : Result ThemeManager :=
  if (Table.find m.themes themeName).isNone then
    { thrown := some ("Theme does not exist: ".toList ++ themeName), state := m }
  else
    { thrown := none, state := { m with currentTheme := ThemePtr.entry themeName } }

/-- The method `ThemeManager::insert(name, characters, colorCode, isKey, isValue)`. -/
def insert (m : ThemeManager) (name characters colorCode : Str) (isKey isValue : Bool) :
    ThemeManager :=
  m.updateCurrent (fun cm => cm.insert name characters colorCode isKey isValue)

/-- The method `ThemeManager::apply(text)`. -/
def apply (m : ThemeManager) (text : Str) : Str :=
  if m.color_enabled then m.current.apply text else text

/-- The method `ThemeManager::inspect()`. -/
def inspect (m : ThemeManager) : Table Char Str := m.current.get

/-- The method `ThemeManager::inspect_color(character)`. -/
def inspect_color (m : ThemeManager) (character : Char) : Option Str :=
  m.current.inspect_color character

/-- The method `ThemeManager::inspect_key_color(key)`. -/
def inspect_key_color (m : ThemeManager) (key : Str) : Option Str :=
  m.current.inspect_key_color key

/-- The method `ThemeManager::inspect_value_color(value)`. -/
def inspect_value_color (m : ThemeManager) (value : Str) : Option Str :=
  m.current.inspect_value_color value

/-- The method `ThemeManager::list()`. -/
def list (m : ThemeManager) : List Str := m.themes.map Prod.fst

/-- The method `ThemeManager::replace(characters, colorCode)`. -/
def replace (m : ThemeManager) (characters colorCode : Str) : ThemeManager :=
  m.updateCurrent (fun cm => cm.replace characters colorCode)

/-- The method `ThemeManager::erase(characters)`. -/
def erase (m : ThemeManager) (characters : Str) : ThemeManager :=
  m.updateCurrent (fun cm => cm.erase characters)

/-- What the loop of `save` writes for the entries of `colormap`, in iteration order:
`outFile << ch << ":" << colorCode << "\n"` for each. -/
def writeEntries : Table Char Str → Str
  | [] => []
  | (ch, colorCode) :: rest => [ch] ++ ":".toList ++ colorCode ++ "\n".toList ++ writeEntries rest

/-- The expression `themes[themeName]` used as an lvalue: `operator[]` adds a
default-constructed entry when `themeName` has none. -/
def touch (m : ThemeManager) (themeName : Str) : ThemeManager :=
  if (Table.find m.themes themeName).isSome then m
  else { m with themes := Table.assign m.themes themeName ColorMapping.empty }

/-- The method `ThemeManager::save(themeName, filePath)`. -/
def save (m : ThemeManager) (fs : FileSystem) (themeName filePath : Str) :
    Result (ThemeManager × FileSystem) :=
  if fs.writable filePath then
    let m1 := m.touch themeName
    let colormap := (m1.theme themeName).get
    { thrown := none, state := (m1, fs.write filePath (writeEntries colormap)) }
  else
    { thrown := some ("Failed to open file for saving theme: ".toList ++ filePath)
      state := (m, fs) }

/-- The body of the loops of `load` and `interactive_edit_theme` for one `line`: skipped
when `line` is empty or has no `:`, otherwise
`themes[themeName].insert(string(1, line[0]), string(1, line[0]), line.substr(pos + 1))`. -/
def loadLine (m : ThemeManager) (themeName : Str) (line : Str) : ThemeManager :=
  match line with
  | [] => m
  | ch :: _ =>
    match findChar line ':' with
    | none => m
    | some pos =>
      let m1 := m.touch themeName
      { m1 with
        themes := Table.assign m1.themes themeName
          ((m1.theme themeName).insert [ch] [ch] (substr line (pos + 1)) false false) }

/-- The method `ThemeManager::load(themeName, filePath)`. -/
def load (m : ThemeManager) (fs : FileSystem) (themeName filePath : Str) :
    Result ThemeManager :=
  match fs.readable filePath with
  | none =>
    { thrown := some ("Failed to open file for loading theme: ".toList ++ filePath), state := m }
  | some content =>
    let r := m.create themeName
    match r.thrown with
    | some e => { thrown := some e, state := r.state }
    | none =>
      { thrown := none
        state := (getlines content).foldl (fun st line => st.loadLine themeName line) r.state }

/-- The method `ThemeManager::set_default()`. -/
def set_default (m : ThemeManager) : ThemeManager :=
  { m.touch "default".toList with currentTheme := ThemePtr.entry "default".toList }

/-- The method `ThemeManager::enable_colormap()`. -/
def enable_colormap (m : ThemeManager) : ThemeManager := { m with color_enabled := true }

/-- The method `ThemeManager::disable_colormap()`. -/
def disable_colormap (m : ThemeManager) : ThemeManager := { m with color_enabled := false }

/-- The method `ThemeManager::is_enabled()`. -/
def is_enabled (m : ThemeManager) : Bool := m.color_enabled

end ThemeManager

/-! ### Interactive editing and reachable states -/

namespace ThemeManager

/-- The `while (true)` loop of `interactive_edit_theme`, where `input` lists the lines
`std::getline(std::cin, input)` delivers in order: the loop ends at the line `"done"`, a
line with a `:` is inserted as in `load` and any other line is skipped; when the lines run
out before a `"done"` the loop never ends, which is `none`. -/
def editLoop (themeName : Str) : ThemeManager → List Str → Option ThemeManager
  | _, [] => none
  | m, line :: rest =>
    if line = "done".toList then some m else editLoop themeName (m.loadLine themeName line) rest

/-- The method `ThemeManager::interactive_edit_theme(themeName)` run on the lines `input`
of `std::cin`; `none` when the call does not return. -/
def interactive_edit_theme (m : ThemeManager) (themeName : Str) (input : List Str) :
    Option (Result ThemeManager) :=
  if (Table.find m.themes themeName).isNone then
    some { thrown := some ("Theme does not exist: ".toList ++ themeName), state := m }
  else
    (editLoop themeName m input).map (fun m1 => { thrown := none, state := m1 })

/-- The states of the singleton `ThemeManager::instance()` that calls of its public
methods can produce, whether a call returns or throws. -/
inductive Reachable : ThemeManager → Prop where
  | init : Reachable init
  | create (m : ThemeManager) (name : Str) : Reachable m → Reachable (m.create name).state
  | set (m : ThemeManager) (name : Str) : Reachable m → Reachable (m.set name).state
  | insert (m : ThemeManager) (name characters colorCode : Str) (isKey isValue : Bool) :
      Reachable m → Reachable (m.insert name characters colorCode isKey isValue)
  | replace (m : ThemeManager) (characters colorCode : Str) :
      Reachable m → Reachable (m.replace characters colorCode)
  | erase (m : ThemeManager) (characters : Str) : Reachable m → Reachable (m.erase characters)
  | save (m : ThemeManager) (fs : FileSystem) (name path : Str) :
      Reachable m → Reachable (m.save fs name path).state.1
  | load (m : ThemeManager) (fs : FileSystem) (name path : Str) :
      Reachable m → Reachable (m.load fs name path).state
  | set_default (m : ThemeManager) : Reachable m → Reachable m.set_default
  | enable_colormap (m : ThemeManager) : Reachable m → Reachable m.enable_colormap
  | disable_colormap (m : ThemeManager) : Reachable m → Reachable m.disable_colormap
  | interactive_edit_theme (m : ThemeManager) (name : Str) (input : List Str)
      (r : Result ThemeManager) :
      Reachable m → m.interactive_edit_theme name input = some r → Reachable r.state

end ThemeManager

/-! ### Global flags, custom colors and the escape-code emitters -/

/-- The global variables the emitters read: the flags `is_global_colored` and
`is_global_themed`, and the map behind `_internal::custom_defined_colors()`. -/
structure Globals where
  is_global_colored : Bool
  is_global_themed : Bool
  custom_defined_colors : Table Str Str
deriving DecidableEq, Repr

/-- The globals at program start: both flags `true`, no custom color. -/
def Globals.init : Globals := ⟨true, true, []⟩

/-- The macro `CHECK_COLOR_AND_THEME(stream)`; it ignores its argument. -/
def CHECK_COLOR_AND_THEME (gl : Globals) : Bool :=
  gl.is_global_colored && gl.is_global_themed

/-- The function `enable_global_color()`. -/
def enable_global_color (gl : Globals) : Globals := { gl with is_global_colored := true }

/-- The function `disable_global_color()`. -/
def disable_global_color (gl : Globals) : Globals := { gl with is_global_colored := false }

/-- The function `enable_global_theme()`. -/
def enable_global_theme (gl : Globals) : Globals := { gl with is_global_themed := true }

/-- The function `disable_global_theme()`. -/
def disable_global_theme (gl : Globals) : Globals := { gl with is_global_themed := false }

/-- The bytes `_internal::apply_code(stream, code)` writes to a narrow `stream`. -/
def apply_code (gl : Globals) (code : Str) : Str :=
  if CHECK_COLOR_AND_THEME gl then code else []

/-- The manipulator `NAME(stream)` that `DEFINE_COLOR_FUNCTION(NAME, CODE)` defines:
`apply_code(stream, NAME_def.code)`. -/
def color_function (gl : Globals) (code : Str) : Str := apply_code gl code

/-- The manipulator `red`, from `DEFINE_COLOR_FUNCTION(red, "\033[31m", ...)`. -/
def red (gl : Globals) : Str := color_function gl "\x1b[31m".toList

/-- The manipulator `bold`, from `DEFINE_COLOR_FUNCTION(bold, "\033[1m", ...)`. -/
def bold (gl : Globals) : Str := color_function gl "\x1b[1m".toList

/-- The manipulator `reset`, from `DEFINE_COLOR_FUNCTION(reset, "\033[0m", 0)`. -/
def reset (gl : Globals) : Str := color_function gl "\x1b[0m".toList

/-- The `char` stored by `*p++ = '0' + n`. -/
def digit (n : Nat) : Char := Char.ofNat ((48 + n) % 256)

/-- The `char` an `int` value narrows to, as an unsigned byte. -/
def charOfInt (v : Int) : Char := Char.ofNat (v % 256).toNat

/-- The bytes `APPLY_RGB_COLOR_MACRO(stream, r, g, b, type)` writes to `stream`, for
arguments `r`, `g`, `b` that are not themselves named `r_mod`, `g_mod`, `b_mod`. -/
def APPLY_RGB_COLOR_MACRO (gl : Globals) (r g b : Nat) (type : Char) : Str :=
  if CHECK_COLOR_AND_THEME gl then
    let r_mod := r % 100
    let g_mod := g % 100
    let b_mod := b % 100
    ['\x1b', '[', type, '8', ';', '2', ';',
      digit (r / 100), digit (r_mod / 10), digit (r_mod % 10), ';',
      digit (g / 100), digit (g_mod / 10), digit (g_mod % 10), ';',
      digit (b / 100), digit (b_mod / 10), digit (b_mod % 10), 'm']
  else []

/-- The bytes `APPLY_RGB_COLOR_MACRO(stream, r_mod, g_mod, b_mod, type)` writes when the
arguments are variables named `r_mod`, `g_mod`, `b_mod`: the macro's own declaration
`int r_mod = r_mod % 100;` then reads the new, uninitialized `int`, whose indeterminate
value is the parameter `ur` (likewise `ug`, `ub`); only the hundreds digits come from the
caller's variables. Division and remainder are those of C++ `int`. -/
def APPLY_RGB_COLOR_MACRO_shadowed (gl : Globals) (r g b : Nat) (ur ug ub : Int)
    (type : Char) : Str :=
  if CHECK_COLOR_AND_THEME gl then
    let r_mod := Int.tmod ur 100
    let g_mod := Int.tmod ug 100
    let b_mod := Int.tmod ub 100
    ['\x1b', '[', type, '8', ';', '2', ';',
      digit (r / 100), charOfInt (48 + Int.tdiv r_mod 10), charOfInt (48 + Int.tmod r_mod 10), ';',
      digit (g / 100), charOfInt (48 + Int.tdiv g_mod 10), charOfInt (48 + Int.tmod g_mod 10), ';',
      digit (b / 100), charOfInt (48 + Int.tdiv b_mod 10), charOfInt (48 + Int.tmod b_mod 10), 'm']
  else []

/-- The value of the string `stream` after
`APPLY_RGB_COLOR_MACRO_TO_STRING(stream, r, g, b, type)`. -/
def APPLY_RGB_COLOR_MACRO_TO_STRING (gl : Globals) (stream : Str) (r g b : Nat)
    (type : Char) : Str :=
  if CHECK_COLOR_AND_THEME gl then
    let r_temp := r % 100
    let g_temp := g % 100
    let b_temp := b % 100
    ['\x1b', '[', type, '8', ';', '2', ';',
      digit (r / 100), digit (r_temp / 10), digit (r_temp % 10), ';',
      digit (g / 100), digit (g_temp / 10), digit (g_temp % 10), ';',
      digit (b / 100), digit (b_temp / 10), digit (b_temp % 10), 'm']
  else stream

/-- The bytes `APPLY_8BIT_COLOR_MACRO(stream, value, type)` writes to `stream`; the macro
converts `value` to `uint8_t`. -/
def APPLY_8BIT_COLOR_MACRO (gl : Globals) (value : Nat) (type : Str) : Str :=
  if CHECK_COLOR_AND_THEME gl then
    let buf := "\x1b[".toList ++ type ++ "8;5;".toList
    let val := value % 256
    let d1 := if val ≥ 100 then digit (val / 100) else '0'
    let val := if val ≥ 100 then val % 100 else val
    let d2 := if val ≥ 10 then digit (val / 10) else '0'
    let val := if val ≥ 10 then val % 10 else val
    buf ++ [d1, d2, digit val, 'm']
  else []

/-- The overload `apply_color(stream, uint8_t r, uint8_t g, uint8_t b)`. -/
def apply_color (gl : Globals) (r g b : Nat) : Str := APPLY_RGB_COLOR_MACRO gl r g b '3'

/-- The overload `apply_bg_color(stream, uint8_t r, uint8_t g, uint8_t b)`. -/
def apply_bg_color (gl : Globals) (r g b : Nat) : Str := APPLY_RGB_COLOR_MACRO gl r g b '4'

/-- The overload `apply_color(stream, int color_code)`. -/
def apply_color_code (gl : Globals) (color_code : Nat) : Str :=
  APPLY_8BIT_COLOR_MACRO gl color_code "3".toList

/-- The overload `apply_bg_color(stream, int color_code)`. -/
def apply_bg_color_code (gl : Globals) (color_code : Nat) : Str :=
  APPLY_8BIT_COLOR_MACRO gl color_code "4".toList

/-- The overload `apply_rgb_color(stream, r, g, b)` on an output stream. -/
def apply_rgb_color (gl : Globals) (r g b : Nat) : Str := APPLY_RGB_COLOR_MACRO gl r g b '3'

/-- The overload `apply_rgb_color(std::string& stream, r, g, b)`: the new `stream`. -/
def apply_rgb_color_string (gl : Globals) (stream : Str) (r g b : Nat) : Str :=
  APPLY_RGB_COLOR_MACRO_TO_STRING gl stream r g b '3'

/-- The 8-bit `color(stream, code)`, which casts `code` to `uint8_t`. -/
def color_code (gl : Globals) (code : Nat) : Str :=
  APPLY_8BIT_COLOR_MACRO gl (code % 256) "3".toList

/-- The template `color<r, g, b>(stream)`. -/
def color_rgb (gl : Globals) (r g b : Nat) : Str := APPLY_RGB_COLOR_MACRO gl r g b '3'

/-- The template `apply_color<r, g, b>(stream)`. -/
def apply_color_rgb (gl : Globals) (r g b : Nat) : Str := APPLY_RGB_COLOR_MACRO gl r g b '3'

/-- The template `apply_bg_color<r, g, b>(stream)`. -/
def apply_bg_color_rgb (gl : Globals) (r g b : Nat) : Str := APPLY_RGB_COLOR_MACRO gl r g b '4'

/-- The overload `apply_rgb_background_color(std::string& stream, r, g, b)`. -/
def apply_rgb_background_color_string (gl : Globals) (stream : Str) (r g b : Nat) : Str :=
  APPLY_RGB_COLOR_MACRO_TO_STRING gl stream r g b '4'

/-- The overload `apply_rgb_background_color(stream, r, g, b)` on an output stream: it
copies its arguments into `r_mod`, `g_mod`, `b_mod` and passes those to the macro. -/
def apply_rgb_background_color (gl : Globals) (r g b : Nat) (ur ug ub : Int) : Str :=
  if CHECK_COLOR_AND_THEME gl then APPLY_RGB_COLOR_MACRO_shadowed gl r g b ur ug ub '4' else []

/-- The template `bg_color<r, g, b>(stream)`, written like `apply_rgb_background_color`. -/
def bg_color_rgb (gl : Globals) (r g b : Nat) (ur ug ub : Int) : Str :=
  if CHECK_COLOR_AND_THEME gl then APPLY_RGB_COLOR_MACRO_shadowed gl r g b ur ug ub '4' else []

/-- The 8-bit template `bg_color<code>(stream)`. -/
def bg_color_code (gl : Globals) (code : Nat) : Str :=
  APPLY_8BIT_COLOR_MACRO gl code "4".toList

/-- What a call writes: to its stream argument, and to `std::cerr`. -/
structure Emitted where
  stream : Str
  cerr : Str
deriving DecidableEq, Repr

/-- The function `custom_color(stream, name, default_code)`; `std::endl` writes a
newline. -/
def custom_color (gl : Globals) (name default_code : Str) : Emitted :=
  match Table.find gl.custom_defined_colors name with
  | some code => { stream := apply_code gl code, cerr := [] }
  | none =>
    if default_code ≠ [] then { stream := apply_code gl default_code, cerr := [] }
    else
      { stream := []
        cerr := "Error: Custom color \x27".toList ++ name ++ "\x27 not found.\n".toList }

/-- The overload `set_custom_color(name, code)` taking a string. -/
def set_custom_color (gl : Globals) (name code : Str) : Globals :=
  { gl with custom_defined_colors := Table.assign gl.custom_defined_colors name code }

/-! ### Decimal renderings -/

/-- The decimal rendering of `n`, of variable width and without leading zeros. -/
def decimal (n : Nat) : Str := Nat.toDigits 10 n

/-- The decimal rendering of `n` padded with zeros on the left to three digits. -/
def decimal3 (n : Nat) : Str := List.replicate (3 - (decimal n).length) '0' ++ decimal n

/-! ### Sample states -/

/-- A file system with no files in which every path can be opened for writing. -/
def fsAllWritable : FileSystem := ⟨fun _ => none, fun _ => true⟩

/-- A manager with a theme `t`, made current, whose char table binds `characters` to
`code`. -/
def themeWith (characters code : Str) : ThemeManager :=
  ((ThemeManager.init.create "t".toList).state.set "t".toList).state.insert
    "n".toList characters code false false

/-- The manager after `save("t", "f")` followed by `load("t2", "f")`. -/
def roundTrip (m : ThemeManager) : ThemeManager :=
  ((m.save fsAllWritable "t".toList "f".toList).state.1.load
    (m.save fsAllWritable "t".toList "f".toList).state.2 "t2".toList "f".toList).state

/-! ### Calls on the manager -/

/-- One call of `ThemeManager::insert`, `ThemeManager::replace` or `ThemeManager::erase`,
with its arguments. -/
inductive Edit where
  | insert (name characters colorCode : Str) (isKey isValue : Bool) : Edit
  | replace (characters colorCode : Str) : Edit
  | erase (characters : Str) : Edit

/-- What the call does to the mapping `currentTheme` points to. -/
def Edit.onMapping (e : Edit) (cm : ColorMapping) : ColorMapping :=
  match e with
  | Edit.insert name characters colorCode isKey isValue =>
    cm.insert name characters colorCode isKey isValue
  | Edit.replace characters colorCode => cm.replace characters colorCode
  | Edit.erase characters => cm.erase characters

namespace ThemeManager

/-- The manager after the call `e`. -/
def edit (m : ThemeManager) (e : Edit) : ThemeManager :=
  match e with
  | Edit.insert name characters colorCode isKey isValue =>
    m.insert name characters colorCode isKey isValue
  | Edit.replace characters colorCode => m.replace characters colorCode
  | Edit.erase characters => m.erase characters

/-- The manager after the calls `es`, made in order. -/
def edits (m : ThemeManager) (es : List Edit) : ThemeManager := es.foldl edit m

/-- One call of a public method of the manager, returning or throwing: the state before
and the state after. -/
inductive Step : ThemeManager → ThemeManager → Prop where
  | create (m : ThemeManager) (name : Str) : Step m (m.create name).state
  | set (m : ThemeManager) (name : Str) : Step m (m.set name).state
  | insert (m : ThemeManager) (name characters colorCode : Str) (isKey isValue : Bool) :
      Step m (m.insert name characters colorCode isKey isValue)
  | replace (m : ThemeManager) (characters colorCode : Str) :
      Step m (m.replace characters colorCode)
  | erase (m : ThemeManager) (characters : Str) : Step m (m.erase characters)
  | save (m : ThemeManager) (fs : FileSystem) (name path : Str) :
      Step m (m.save fs name path).state.1
  | load (m : ThemeManager) (fs : FileSystem) (name path : Str) :
      Step m (m.load fs name path).state
  | set_default (m : ThemeManager) : Step m m.set_default
  | enable_colormap (m : ThemeManager) : Step m m.enable_colormap
  | disable_colormap (m : ThemeManager) : Step m m.disable_colormap
  | interactive_edit_theme (m : ThemeManager) (name : Str) (input : List Str)
      (r : Result ThemeManager) :
      m.interactive_edit_theme name input = some r → Step m r.state

/-- The registry of `m2` keeps every name of `m1` and keeps names unique if they were. -/
def Grows (m1 m2 : ThemeManager) : Prop :=
  m1.list <+: m2.list ∧ (m1.list.Nodup → m2.list.Nodup)

end ThemeManager

/-! ### Lines of a theme file, as specified -/

/-- What a line of a theme file binds, in the words of the specification: nothing for an
empty line or a line without `:`, otherwise the character immediately before its first `:`
to the text after that `:`. -/
def lineBindingStated (line : Str) : Option (Char × Str) :=
  if ':' ∈ line then
    match (line.takeWhile (fun c => c ≠ ':')).getLast? with
    | some ch => some (ch, (line.dropWhile (fun c => c ≠ ':')).tail)
    | none => none
  else none

/-- What a line of a theme file binds: nothing for an empty line or a line without `:`,
otherwise the first character of the line to the text after its first `:`. -/
def lineBinding (line : Str) : Option (Char × Str) :=
  if ':' ∈ line then
    match line.head? with
    | some ch => some (ch, (line.dropWhile (fun c => c ≠ ':')).tail)
    | none => none
  else none

/-- The table obtained by processing `lines` in order, starting from the table `t`, each
line binding what `binding` says, a later binding overwriting an earlier one. -/
def processLines (binding : Str → Option (Char × Str)) (t : Table Char Str)
    (lines : List Str) : Table Char Str :=
  lines.foldl
    (fun acc line =>
      match binding line with
      | some (ch, code) => Table.assign acc ch code
      | none => acc)
    t

/-! ### Predefined colors -/

/-- The map behind `_internal::predefined_colors()` once the static initializers of all
`DEFINE_COLOR_FUNCTION(NAME, CODE, ...)` lines have run: `NAME` bound to `CODE`. -/
def predefined_colors : Table Str Str :=
  [
    ("black".toList, "\x1b[30m".toList),
    ("red".toList, "\x1b[31m".toList),
    ("green".toList, "\x1b[32m".toList),
    ("yellow".toList, "\x1b[33m".toList),
    ("blue".toList, "\x1b[34m".toList),
    ("magenta".toList, "\x1b[35m".toList),
    ("cyan".toList, "\x1b[36m".toList),
    ("white".toList, "\x1b[37m".toList),
    ("bg_black".toList, "\x1b[40m".toList),
    ("bg_red".toList, "\x1b[41m".toList),
    ("bg_green".toList, "\x1b[42m".toList),
    ("bg_yellow".toList, "\x1b[43m".toList),
    ("bg_blue".toList, "\x1b[44m".toList),
    ("bg_magenta".toList, "\x1b[45m".toList),
    ("bg_cyan".toList, "\x1b[46m".toList),
    ("bg_white".toList, "\x1b[47m".toList),
    ("reset".toList, "\x1b[0m".toList),
    ("bold".toList, "\x1b[1m".toList),
    ("faint".toList, "\x1b[2m".toList),
    ("italic".toList, "\x1b[3m".toList),
    ("underline".toList, "\x1b[4m".toList),
    ("blink_slow".toList, "\x1b[5m".toList),
    ("blink_rapid".toList, "\x1b[6m".toList),
    ("reverse".toList, "\x1b[7m".toList),
    ("hidden".toList, "\x1b[8m".toList),
    ("strikethrough".toList, "\x1b[9m".toList),
    ("default_foreground".toList, "\x1b[39m".toList),
    ("default_background".toList, "\x1b[49m".toList),
    ("fullreset".toList, "\x1b[0m\x1b[39m\x1b[49m".toList),
    ("primary_font".toList, "\x1b[10m".toList),
    ("alternate_font_1".toList, "\x1b[11m".toList),
    ("alternate_font_2".toList, "\x1b[12m".toList),
    ("alternate_font_3".toList, "\x1b[13m".toList),
    ("alternate_font_4".toList, "\x1b[14m".toList),
    ("alternate_font_5".toList, "\x1b[15m".toList),
    ("alternate_font_6".toList, "\x1b[16m".toList),
    ("alternate_font_7".toList, "\x1b[17m".toList),
    ("alternate_font_8".toList, "\x1b[18m".toList),
    ("fraktur".toList, "\x1b[20m".toList),
    ("doubly_underline".toList, "\x1b[21m".toList),
    ("normal_intensity".toList, "\x1b[22m".toList),
    ("no_italic".toList, "\x1b[23m".toList),
    ("no_underline".toList, "\x1b[24m".toList),
    ("no_blink".toList, "\x1b[25m".toList),
    ("reserved_1".toList, "\x1b[26m".toList),
    ("no_reverse".toList, "\x1b[27m".toList),
    ("reveal".toList, "\x1b[28m".toList),
    ("no_strikethrough".toList, "\x1b[29m".toList),
    ("light_black".toList, "\x1b[2;30m".toList),
    ("light_red".toList, "\x1b[2;31m".toList),
    ("light_green".toList, "\x1b[2;32m".toList),
    ("light_yellow".toList, "\x1b[2;33m".toList),
    ("light_blue".toList, "\x1b[2;34m".toList),
    ("light_magenta".toList, "\x1b[2;35m".toList),
    ("light_cyan".toList, "\x1b[2;36m".toList),
    ("light_white".toList, "\x1b[2;37m".toList),
    ("bold_black".toList, "\x1b[1;30m".toList),
    ("bold_red".toList, "\x1b[1;31m".toList),
    ("bold_green".toList, "\x1b[1;32m".toList),
    ("bold_yellow".toList, "\x1b[1;33m".toList),
    ("bold_blue".toList, "\x1b[1;34m".toList),
    ("bold_magenta".toList, "\x1b[1;35m".toList),
    ("bold_cyan".toList, "\x1b[1;36m".toList),
    ("bold_white".toList, "\x1b[1;37m".toList),
    ("bright_black".toList, "\x1b[90m".toList),
    ("bright_red".toList, "\x1b[91m".toList),
    ("bright_green".toList, "\x1b[92m".toList),
    ("bright_yellow".toList, "\x1b[93m".toList),
    ("bright_blue".toList, "\x1b[94m".toList),
    ("bright_magenta".toList, "\x1b[95m".toList),
    ("bright_cyan".toList, "\x1b[96m".toList),
    ("bright_white".toList, "\x1b[97m".toList),
    ("bg_light_black".toList, "\x1b[2;40m".toList),
    ("bg_light_red".toList, "\x1b[2;41m".toList),
    ("bg_light_green".toList, "\x1b[2;42m".toList),
    ("bg_light_yellow".toList, "\x1b[2;43m".toList),
    ("bg_light_blue".toList, "\x1b[2;44m".toList),
    ("bg_light_magenta".toList, "\x1b[2;45m".toList),
    ("bg_light_cyan".toList, "\x1b[2;46m".toList),
    ("bg_light_white".toList, "\x1b[2;47m".toList),
    ("bg_bright_black".toList, "\x1b[100m".toList),
    ("bg_bright_red".toList, "\x1b[101m".toList),
    ("bg_bright_green".toList, "\x1b[102m".toList),
    ("bg_bright_yellow".toList, "\x1b[103m".toList),
    ("bg_bright_blue".toList, "\x1b[104m".toList),
    ("bg_bright_magenta".toList, "\x1b[105m".toList),
    ("bg_bright_cyan".toList, "\x1b[106m".toList),
    ("bg_bright_white".toList, "\x1b[107m".toList),
    ("amethyst".toList, "\x1b[38;5;92m".toList),
    ("amber".toList, "\x1b[38;5;214m".toList),
    ("apricot".toList, "\x1b[38;5;215m".toList),
    ("aqua".toList, "\x1b[38;5;51m".toList),
    ("azure".toList, "\x1b[38;5;75m".toList),
    ("beige".toList, "\x1b[38;5;230m".toList),
    ("brown".toList, "\x1b[38;5;94m".toList),
    ("charcoal".toList, "\x1b[38;5;240m".toList),
    ("coral".toList, "\x1b[38;5;203m".toList),
    ("crimson".toList, "\x1b[38;5;197m".toList),
    ("emerald".toList, "\x1b[38;5;46m".toList),
    ("gold".toList, "\x1b[38;5;220m".toList),
    ("indigo".toList, "\x1b[38;5;54m".toList),
    ("ivory".toList, "\x1b[38;5;230m".toList),
    ("jade".toList, "\x1b[38;5;35m".toList),
    ("khaki".toList, "\x1b[38;5;228m".toList),
    ("lavender".toList, "\x1b[38;5;183m".toList),
    ("lime".toList, "\x1b[38;5;10m".toList),
    ("maroon".toList, "\x1b[38;5;88m".toList),
    ("mint".toList, "\x1b[38;5;48m".toList),
    ("navy".toList, "\x1b[38;5;17m".toList),
    ("olive".toList, "\x1b[38;5;100m".toList),
    ("onyx".toList, "\x1b[38;5;236m".toList),
    ("orange".toList, "\x1b[38;5;214m".toList),
    ("peach".toList, "\x1b[38;5;217m".toList),
    ("pearl".toList, "\x1b[38;5;231m".toList),
    ("pink".toList, "\x1b[38;5;13m".toList),
    ("plum".toList, "\x1b[38;5;176m".toList),
    ("purple".toList, "\x1b[38;5;93m".toList),
    ("rose".toList, "\x1b[38;5;211m".toList),
    ("rose_gold".toList, "\x1b[38;5;223m".toList),
    ("ruby".toList, "\x1b[38;5;196m".toList),
    ("salmon".toList, "\x1b[38;5;209m".toList),
    ("sapphire".toList, "\x1b[38;5;21m".toList),
    ("silver".toList, "\x1b[38;5;7m".toList),
    ("teal".toList, "\x1b[38;5;14m".toList),
    ("topaz".toList, "\x1b[38;5;178m".toList),
    ("turquoise".toList, "\x1b[38;5;45m".toList),
    ("violet".toList, "\x1b[38;5;177m".toList),
    ("bg_amethyst".toList, "\x1b[48;5;92m".toList),
    ("bg_amber".toList, "\x1b[48;5;214m".toList),
    ("bg_apricot".toList, "\x1b[48;5;215m".toList),
    ("bg_aqua".toList, "\x1b[48;5;51m".toList),
    ("bg_azure".toList, "\x1b[48;5;75m".toList),
    ("bg_beige".toList, "\x1b[48;5;230m".toList),
    ("bg_brown".toList, "\x1b[48;5;94m".toList),
    ("bg_charcoal".toList, "\x1b[48;5;240m".toList),
    ("bg_coral".toList, "\x1b[48;5;203m".toList),
    ("bg_crimson".toList, "\x1b[48;5;197m".toList),
    ("bg_emerald".toList, "\x1b[48;5;46m".toList),
    ("bg_gold".toList, "\x1b[48;5;220m".toList),
    ("bg_indigo".toList, "\x1b[48;5;54m".toList),
    ("bg_ivory".toList, "\x1b[48;5;230m".toList),
    ("bg_jade".toList, "\x1b[48;5;35m".toList),
    ("bg_khaki".toList, "\x1b[48;5;228m".toList),
    ("bg_lavender".toList, "\x1b[48;5;183m".toList),
    ("bg_lime".toList, "\x1b[48;5;10m".toList),
    ("bg_maroon".toList, "\x1b[48;5;88m".toList),
    ("bg_mint".toList, "\x1b[48;5;48m".toList),
    ("bg_navy".toList, "\x1b[48;5;17m".toList),
    ("bg_olive".toList, "\x1b[48;5;100m".toList),
    ("bg_onyx".toList, "\x1b[48;5;236m".toList),
    ("bg_orange".toList, "\x1b[48;5;214m".toList),
    ("bg_peach".toList, "\x1b[48;5;217m".toList),
    ("bg_pearl".toList, "\x1b[48;5;231m".toList),
    ("bg_pink".toList, "\x1b[48;5;13m".toList),
    ("bg_plum".toList, "\x1b[48;5;176m".toList),
    ("bg_purple".toList, "\x1b[48;5;93m".toList),
    ("bg_rose".toList, "\x1b[48;5;211m".toList),
    ("bg_rose_gold".toList, "\x1b[48;5;223m".toList),
    ("bg_ruby".toList, "\x1b[48;5;196m".toList),
    ("bg_salmon".toList, "\x1b[48;5;209m".toList),
    ("bg_sapphire".toList, "\x1b[48;5;21m".toList),
    ("bg_silver".toList, "\x1b[48;5;7m".toList),
    ("bg_teal".toList, "\x1b[48;5;14m".toList),
    ("bg_topaz".toList, "\x1b[48;5;178m".toList),
    ("bg_turquoise".toList, "\x1b[48;5;45m".toList),
    ("bg_violet".toList, "\x1b[48;5;177m".toList),
    ("bg_reset".toList, "\x1b[49m".toList)
  ]

/-- What `set_custom_color_predefined` leaves behind: the map `predefined_colors()`, the
globals, and what it wrote to `std::cerr`. -/
structure PredefinedResult where
  predefined : Table Str Str
  globals : Globals
  cerr : Str

/-- The expression `m[k]` read as a value: the map afterwards and the value found;
`operator[]` adds a value-initialized entry when `k` has none. -/
def Table.subscript {κ : Type} [DecidableEq κ] (t : Table κ Str) (k : κ) : Table κ Str × Str :=
  match Table.find t k with
  | some v => (t, v)
  | none => (Table.assign t k [], [])

/-- The function `set_custom_color_predefined(name, predefined_color_name)`, run with the
map `colors` behind `predefined_colors()`. -/
def set_custom_color_predefined (colors : Table Str Str) (gl : Globals)
    (name predefined_color_name : Str) : PredefinedResult :=
  if (Table.find colors predefined_color_name).isSome then
    { predefined := (Table.subscript colors predefined_color_name).1
      globals :=
        { gl with
          custom_defined_colors :=
            Table.assign gl.custom_defined_colors name
              (Table.subscript colors predefined_color_name).2 }
      cerr := [] }
  else
    { predefined := colors
      globals := gl
      cerr := "Error: Predefined color \x27".toList ++ predefined_color_name
        ++ "\x27 not found.\n".toList }

/-! ### More macros and helpers -/

/-- The bytes `APPLY_COLOR_MACRO(stream, r, g, b, type)` writes to `stream`. -/
def APPLY_COLOR_MACRO (gl : Globals) (r g b : Nat) (type : Char) : Str :=
  if CHECK_COLOR_AND_THEME gl then
    ['\x1b', '[', type, '8', ';', '2', ';',
      digit (r / 100), digit ((r / 10) % 10), digit (r % 10), ';',
      digit (g / 100), digit ((g / 10) % 10), digit (g % 10), ';',
      digit (b / 100), digit ((b / 10) % 10), digit (b % 10), 'm']
  else []

/-- The number a string of decimal digits denotes. -/
def decimalValue (s : Str) : Nat := s.foldl (fun acc c => 10 * acc + (c.toNat - 48)) 0

/-- The local class `ScopeGuard` of `scope_guard`: the stored callable, which acts on a
program state of type `σ`, and the flag `dismissed_`. -/
structure ScopeGuard (σ : Type) where
  code_ : σ → σ
  dismissed_ : Bool

/-- The constructor `ScopeGuard(code)`. -/
def ScopeGuard.new {σ : Type} (code : σ → σ) : ScopeGuard σ :=
  { code_ := code, dismissed_ := false }

/-- The method `ScopeGuard::dismiss()`. -/
def ScopeGuard.dismiss {σ : Type} (guard : ScopeGuard σ) : ScopeGuard σ :=
  { guard with dismissed_ := true }

/-- The destructor `~ScopeGuard()`, acting on the program state paired with the number of
times the callable has been invoked. -/
def ScopeGuard.destroy {σ : Type} (guard : ScopeGuard σ) (s : σ × Nat) : σ × Nat :=
  if !guard.dismissed_ then (guard.code_ s.1, s.2 + 1) else s

/-- The function `scope_guard(code)`: `ScopeGuard guard(code); guard.dismiss();` and then
the destructor of `guard` at the end of the scope. The result is the program state and the
number of invocations of `code`. -/
def scope_guard {σ : Type} (code : σ → σ) (s : σ) : σ × Nat :=
  ((ScopeGuard.new code).dismiss).destroy (s, 0)

/-! ### Per-stream flag and `set_color` -/

/-- A narrow output stream as `set_color` sees it: the value of
`stream.iword(_internal::colorterm_index())`, which is 0 until `enable` is called. The
stream is in a good state with the formatting state of a newly constructed stream (decimal
base, width 0, no `showpos`), which no function of the library changes, so `<<` writes an
`int` as its plain decimal digits. -/
structure OStream where
  iword : Int
deriving DecidableEq, Repr

/-- A newly constructed stream: every `iword` slot is 0. -/
def OStream.fresh : OStream := { iword := 0 }

/-- The manipulators `enable(stream)` and `enable_stream(stream)`. -/
def enable (_stream : OStream) : OStream := { iword := 1 }

/-- The manipulators `disable(stream)` and `disable_stream(stream)`. -/
def disable (_stream : OStream) : OStream := { iword := 0 }

/-- The function `_internal::is_stream_colored(stream)` on a narrow stream. -/
def is_stream_colored (stream : OStream) : Bool := stream.iword != 0

/-- The bytes `set_color(stream, r, g, b)` writes to a narrow `stream` (POSIX branch); the
globals `_gl` are not read. The parameters are `uint8_t`, so the values `r`, `g`, `b` of
the argument expressions are reduced modulo 256 at the call, and `static_cast<int>` of
each is what `<<` writes. -/
def set_color (_gl : Globals) (stream : OStream) (r g b : Nat) : Str :=
  if is_stream_colored stream then
    "\x1b[38;2;".toList ++ decimal (r % 256) ++ [';'] ++ decimal (g % 256) ++ [';']
      ++ decimal (b % 256) ++ ['m']
  else []

/-- The bytes `set_background_color(stream, r, g, b)` writes to a narrow stream (POSIX
branch), with `uint8_t` parameters as in `set_color`; the stream flag is not read. -/
def set_background_color (gl : Globals) (r g b : Nat) : Str :=
  if CHECK_COLOR_AND_THEME gl then
    "\x1b[48;2;".toList ++ decimal (r % 256) ++ [';'] ++ decimal (g % 256) ++ [';']
      ++ decimal (b % 256) ++ ['m']
  else []

/-! ### Interactive editing with the input left over -/

namespace ThemeManager

/-- The loop of `interactive_edit_theme` as `editLoop`, returning also the lines of
`std::cin` it has not consumed. -/
def editLoopStdin (themeName : Str) : ThemeManager → List Str → Option (ThemeManager × List Str)
  | _, [] => none
  | m, line :: rest =>
    if line = "done".toList then some (m, rest)
    else editLoopStdin themeName (m.loadLine themeName line) rest

/-- The method `interactive_edit_theme(themeName)` as `interactive_edit_theme`, returning
also the lines of `std::cin` it has not consumed. -/
def interactive_edit_theme_stdin (m : ThemeManager) (themeName : Str) (input : List Str) :
    Option (Result ThemeManager × List Str) :=
  if (Table.find m.themes themeName).isNone then
    some ({ thrown := some ("Theme does not exist: ".toList ++ themeName), state := m }, input)
  else
    (editLoopStdin themeName m input).map
      (fun p => ({ thrown := none, state := p.1 }, p.2))

end ThemeManager

/-- A manager with a theme `t` holding `a -> "X:Y"` and `b -> ""`. -/
def themeWithColonCode : ThemeManager :=
  (themeWith "a".toList "X:Y".toList).insert "n".toList "b".toList [] false false

/-! ### Searching and replacing in strings -/

/-- Search `s.find(pat)` from the start of `s`: the first position at which `pat` occurs,
`none` for `npos`. An empty `pat` occurs at position 0. -/
def findFrom (pat : Str) : Str → Option Nat
  | [] => if pat = [] then some 0 else none
  | c :: cs =>
    if pat.isPrefixOf (c :: cs) then some 0 else (findFrom pat cs).map (fun i => i + 1)

/-- Search `s.find(pat, pos)`: the first position not before `pos` at which `pat` occurs;
`none` for `npos`, also when `pos` is past the end. -/
def strFind (s pat : Str) (pos : Nat) : Option Nat :=
  if pos > s.length then none else (findFrom pat (s.drop pos)).map (fun i => i + pos)

/-- The string `s` after `s.replace(pos, len, to)`. -/
def strReplace (s : Str) (pos len : Nat) (to_ : Str) : Str :=
  s.take pos ++ to_ ++ s.drop (pos + len)

/-- The `while` loop of `_internal::custom_regex_replace` run for at most `fuel` tests of
its condition, from the values `result` and `start_pos`: the final `result` and the number
of executions of the loop body, or `none` when the loop has not ended by then. -/
def replaceLoop (from_ to_ : Str) : Nat → Str → Nat → Option (Str × Nat)
  | 0, _, _ => none
  | fuel + 1, result, start_pos =>
    match strFind result from_ start_pos with
    | none => some (result, 0)
    | some p =>
      (replaceLoop from_ to_ fuel (strReplace result p from_.length to_) (p + to_.length)).map
        (fun r => (r.1, r.2 + 1))

/-- The function `_internal::custom_regex_replace(str, from, to)` run for at most `fuel`
tests of the loop condition; `none` when it has not returned by then. -/
def custom_regex_replace (fuel : Nat) (str from_ to_ : Str) : Option Str :=
  (replaceLoop from_ to_ fuel str 0).map Prod.fst

/-- The character ESC, written `\033` in the source. -/
def ESC : Char := '\x1b'

/-- What `highlight_pattern(stream, pattern, color)` writes to `stream` when `text` is the
line it reads from `std::cin`, with `custom_regex_replace` run on `fuel`; `none` when the
call has not returned. The fields of `color` are `r`, `g`, `b`. -/
def highlight_pattern (gl : Globals) (fuel : Nat) (text pattern : Str) (r g b : Nat) :
    Option Str :=
  if CHECK_COLOR_AND_THEME gl then
    custom_regex_replace fuel text pattern
      (APPLY_RGB_COLOR_MACRO_TO_STRING gl [] r g b '3' ++ (pattern ++ "\x1b[0m".toList))
  else some []

/-- The `while` loop of `replace_color_all_instances` run for at most `fuel` tests of its
condition, from the values `result` and `pos` (`none` is `npos`). -/
def colorReplaceLoop (from_color to_color : Str) : Nat → Str → Option Nat → Option Str
  | 0, _, _ => none
  | _ + 1, result, none => some result
  | fuel + 1, result, some pos =>
    colorReplaceLoop from_color to_color fuel
      (strReplace result pos from_color.length to_color)
      (strFind (strReplace result pos from_color.length to_color) from_color
        (pos + to_color.length))

/-- The function `replace_color_all_instances(text, from, to)` run for at most `fuel` tests
of the loop condition, `from` having the fields `fr`, `fg`, `fb` and `to` the fields `tr`,
`tg`, `tb`; `none` when it has not returned by then. -/
def replace_color_all_instances (gl : Globals) (fuel : Nat) (text : Str)
    (fr fg fb tr tg tb : Nat) : Option Str :=
  if CHECK_COLOR_AND_THEME gl then
    colorReplaceLoop (APPLY_RGB_COLOR_MACRO_TO_STRING gl [] fr fg fb '3')
      (APPLY_RGB_COLOR_MACRO_TO_STRING gl [] tr tg tb '3') fuel text
      (strFind text (APPLY_RGB_COLOR_MACRO_TO_STRING gl [] fr fg fb '3') 0)
  else some text

/-! ### The specification of `apply` -/

/-- What the specification says `apply` emits for the character `c`, where `pre` is the
text up to and including this `c`. -/
def applySpecPiece (m : ColorMapping) (pre : Str) (c : Char) : Str :=
  match Table.find m.charToColorCode c with
  | some code => code ++ [c] ++ resetSeq
  | none =>
    match Table.find (if ':' ∉ pre then m.keyToColorCode else m.valueToColorCode) [c] with
    | some code => code ++ [c] ++ resetSeq
    | none => [c]

/-- The specification of `apply`: the concatenation, over the positions of `text` in
order, of the piece emitted for the character at that position. -/
def applySpec (m : ColorMapping) (text : Str) : Str :=
  ((List.range text.length).map
    (fun i => applySpecPiece m (text.take (i + 1)) (text.getD i ' '))).flatten

/-- Recursive form of `applySpec`: the pieces of `text` when `pre` has been read. -/
def piecesFrom (m : ColorMapping) (pre : Str) : Str → Str
  | [] => []
  | c :: rest => applySpecPiece m (pre ++ [c]) c ++ piecesFrom m (pre ++ [c]) rest

/-- What one iteration of the loop of `apply` writes for `ch`, given the updated flag. -/
def loopPiece (m : ColorMapping) (isKey : Bool) (ch : Char) : Str :=
  match Table.find m.charToColorCode ch with
  | some code => code ++ [ch] ++ resetSeq
  | none => if isKey then m.apply_key_color [ch] else m.apply_value_color [ch]

/-! ## ColorMapping.apply -/

theorem applyLoop_cons (m : ColorMapping) (k : Bool) (oss : Str) (ch : Char) (rest : Str) :
    ColorMapping.applyLoop m k oss (ch :: rest) =
      ColorMapping.applyLoop m (if ch = ':' then false else k)
        (oss ++ loopPiece m (if ch = ':' then false else k) ch) rest := by
  simp only [ColorMapping.applyLoop, loopPiece]
  cases Table.find m.charToColorCode ch with
  | some code => rfl
  | none =>
    simp only []
    by_cases hc : ch = ':'
    · simp [hc]
    · cases k <;> simp [hc]

theorem applyLoop_acc (m : ColorMapping) (text : Str) :
    ∀ (k : Bool) (oss : Str),
      ColorMapping.applyLoop m k oss text = oss ++ ColorMapping.applyLoop m k [] text := by
  induction text with
  | nil => intro k oss; simp [ColorMapping.applyLoop]
  | cons ch rest ih =>
    intro k oss
    rw [applyLoop_cons, applyLoop_cons, ih _ (oss ++ _), ih _ ([] ++ _)]
    simp

theorem loopPiece_eq_applySpecPiece (m : ColorMapping) (pre : Str) (ch : Char) :
    loopPiece m (decide (':' ∉ pre)) ch = applySpecPiece m pre ch := by
  unfold loopPiece applySpecPiece
  cases Table.find m.charToColorCode ch with
  | some code => rfl
  | none =>
    simp only []
    by_cases hp : ':' ∉ pre
    · simp only [hp, not_false_eq_true, decide_True, if_true, ColorMapping.apply_key_color]
    · simp only [hp, decide_False, if_false, Bool.false_eq_true,
        ColorMapping.apply_value_color]

theorem applyLoop_eq_piecesFrom (m : ColorMapping) (text : Str) :
    ∀ pre : Str,
      ColorMapping.applyLoop m (decide (':' ∉ pre)) [] text = piecesFrom m pre text := by
  induction text with
  | nil => intro pre; simp [ColorMapping.applyLoop, piecesFrom]
  | cons ch rest ih =>
    intro pre
    have hk : (if ch = ':' then false else decide (':' ∉ pre)) = decide (':' ∉ pre ++ [ch]) := by
      by_cases h : ch = ':'
      · simp [h]
      · have h' : ¬ (':' = ch) := fun e => h e.symm
        simp [h, h']
    rw [applyLoop_cons, hk, applyLoop_acc, ih (pre ++ [ch]), loopPiece_eq_applySpecPiece]
    simp [piecesFrom]

theorem piecesFrom_eq_flatten (m : ColorMapping) (text : Str) :
    ∀ pre : Str,
      piecesFrom m pre text =
        ((List.range text.length).map
          (fun i => applySpecPiece m (pre ++ text.take (i + 1)) (text.getD i ' '))).flatten := by
  induction text with
  | nil => intro pre; simp [piecesFrom]
  | cons ch rest ih =>
    intro pre
    simp only [piecesFrom, List.length_cons, List.range_succ_eq_map, List.map_cons,
      List.flatten_cons, List.map_map]
    rw [ih (pre ++ [ch])]
    simp [Function.comp_def]

/-- C1: `ColorMapping::apply(text)` is the concatenation, over the characters `c` of
`text` in order, of `code ++ c ++ reset` when the char table binds `c` to `code`; otherwise
of `code ++ c ++ reset` when the table `T` binds the one-character string `c` to `code`,
where `T` is the key table if no `:` occurs in `text` up to and including this `c` and the
value table otherwise; otherwise of `c` alone. -/
theorem apply_eq_applySpec (m : ColorMapping) (text : Str) :
    m.apply text = applySpec m text := by
  have h := applyLoop_eq_piecesFrom m text []
  simp only [List.not_mem_nil, not_false_eq_true, decide_True] at h
  rw [ColorMapping.apply, h, piecesFrom_eq_flatten]
  simp [applySpec]

theorem piecesFrom_append (m : ColorMapping) (a b : Str) :
    ∀ pre : Str, piecesFrom m pre (a ++ b) = piecesFrom m pre a ++ piecesFrom m (pre ++ a) b := by
  induction a with
  | nil => intro pre; simp [piecesFrom]
  | cons ch rest ih =>
    intro pre
    rw [List.cons_append]
    simp only [piecesFrom, ih (pre ++ [ch]), List.append_assoc, List.singleton_append]

theorem apply_eq_piecesFrom (m : ColorMapping) (text : Str) :
    m.apply text = piecesFrom m [] text := by
  have h := applyLoop_eq_piecesFrom m text []
  simp only [List.not_mem_nil, not_false_eq_true, decide_True] at h
  rw [ColorMapping.apply, h]

/-- C2: when the char table binds `c` to `code`, the output for `p ++ [c] ++ s` is the
output produced for `p`, then exactly `code`, then `c`, then the reset sequence, then
some rest `Y`; and on an empty mapping `insert("bracket", "[]", "\x1b[38;5;34m")` followed
by `apply("[x]")` returns `"\x1b[38;5;34m[\x1b[0mx\x1b[38;5;34m]\x1b[0m"`. -/
theorem apply_mapped_char (m : ColorMapping) (c : Char) (code : Str)
    (h : Table.find m.charToColorCode c = some code) (p s : Str) :
    (∃ Y, m.apply (p ++ [c] ++ s) = m.apply p ++ code ++ [c] ++ resetSeq ++ Y) ∧
    (ColorMapping.empty.insert "bracket".toList "[]".toList "\x1b[38;5;34m".toList
        false false).apply "[x]".toList
      = "\x1b[38;5;34m[\x1b[0mx\x1b[38;5;34m]\x1b[0m".toList := by
  refine ⟨⟨piecesFrom m (p ++ [c]) s, ?_⟩, by decide⟩
  rw [apply_eq_piecesFrom, apply_eq_piecesFrom, List.append_assoc, piecesFrom_append]
  simp [piecesFrom, applySpecPiece, h]

theorem apply_mapped_char_witness :
    Table.find (ColorMapping.empty.insert "b".toList "[]".toList "\x1b[1m".toList
        false false).charToColorCode ']' = some "\x1b[1m".toList ∧
    ((∃ Y, (ColorMapping.empty.insert "b".toList "[]".toList "\x1b[1m".toList
        false false).apply ("a:".toList ++ [']'] ++ "z".toList)
      = (ColorMapping.empty.insert "b".toList "[]".toList "\x1b[1m".toList
        false false).apply "a:".toList ++ "\x1b[1m".toList ++ [']'] ++ resetSeq ++ Y) ∧
    (ColorMapping.empty.insert "bracket".toList "[]".toList "\x1b[38;5;34m".toList
        false false).apply "[x]".toList
      = "\x1b[38;5;34m[\x1b[0mx\x1b[38;5;34m]\x1b[0m".toList) :=
  ⟨by decide, apply_mapped_char _ ']' _ (by decide) "a:".toList "z".toList⟩

/-! ## Tables -/

section TableLemmas

variable {κ ν : Type} [DecidableEq κ]

theorem Table.find_assign_self (t : Table κ ν) (k : κ) (v : ν) :
    Table.find (Table.assign t k v) k = some v := by
  induction t with
  | nil => simp [Table.assign, Table.find]
  | cons e t ih =>
    obtain ⟨k', v'⟩ := e
    by_cases h : k' = k
    · simp [Table.assign, Table.find, h]
    · simp [Table.assign, Table.find, h, ih]

theorem Table.find_assign_ne (t : Table κ ν) (k k' : κ) (v : ν) (hne : k' ≠ k) :
    Table.find (Table.assign t k v) k' = Table.find t k' := by
  induction t with
  | nil => simp [Table.assign, Table.find, hne.symm]
  | cons e t ih =>
    obtain ⟨k₀, v₀⟩ := e
    by_cases h : k₀ = k
    · subst h
      simp [Table.assign, Table.find, hne.symm]
    · by_cases h' : k₀ = k'
      · subst h'
        simp [Table.assign, Table.find, h]
      · simp [Table.assign, Table.find, h, h', ih]

theorem Table.find_eq_none_iff (t : Table κ ν) (k : κ) :
    Table.find t k = none ↔ k ∉ t.map Prod.fst := by
  induction t with
  | nil => simp [Table.find]
  | cons e t ih =>
    obtain ⟨k', v'⟩ := e
    by_cases h : k' = k
    · simp [Table.find, h]
    · have h' : ¬ k = k' := fun e => h e.symm
      simp only [Table.find, h, if_false, ih, List.map_cons, List.mem_cons, h', false_or]

theorem Table.assign_of_find_none (t : Table κ ν) (k : κ) (v : ν)
    (h : Table.find t k = none) : Table.assign t k v = t ++ [(k, v)] := by
  induction t with
  | nil => rfl
  | cons e t ih =>
    obtain ⟨k', v'⟩ := e
    by_cases hk : k' = k
    · simp [Table.find, hk] at h
    · simp only [Table.find, hk, if_false] at h
      simp [Table.assign, hk, ih h]

theorem Table.foldl_assign_eq_append (es : Table κ ν) :
    ∀ acc : Table κ ν, (∀ e ∈ es, Table.find acc e.1 = none) → Table.WF es →
      es.foldl (fun a e => Table.assign a e.1 e.2) acc = acc ++ es := by
  induction es with
  | nil => intro acc _ _; simp
  | cons e rest ih =>
    intro acc hacc hwf
    have hnd : e.1 ∉ rest.map Prod.fst ∧ (rest.map Prod.fst).Nodup := by
      simpa [Table.WF] using hwf
    rw [List.foldl_cons, Table.assign_of_find_none acc e.1 e.2 (hacc e (List.mem_cons_self _ _))]
    rw [ih (acc ++ [(e.1, e.2)]) ?_ hnd.2]
    · simp
    · intro e' he'
      rw [Table.find_eq_none_iff]
      have h1 := (Table.find_eq_none_iff acc e'.1).1 (hacc e' (List.mem_cons_of_mem _ he'))
      have h2 : e'.1 ≠ e.1 := by
        intro heq
        exact hnd.1 (heq ▸ List.mem_map_of_mem Prod.fst he')
      simp only [List.map_append, List.map_cons, List.map_nil, List.mem_append,
        List.mem_singleton, not_or]
      exact ⟨h1, h2⟩

end TableLemmas

/-! ## Theme files -/

theorem getlinesAux_line (l : Str) (hl : '\n' ∉ l) (rest : Str) :
    ∀ acc : Str, getlinesAux acc (l ++ '\n' :: rest) = (acc ++ l) :: getlinesAux [] rest := by
  induction l with
  | nil => intro acc; simp [getlinesAux]
  | cons c cs ih =>
    intro acc
    have hc : c ≠ '\n' := fun e => hl (e ▸ List.mem_cons_self _ _)
    have hcs : '\n' ∉ cs := fun h => hl (List.mem_cons_of_mem _ h)
    simp [getlinesAux, hc, ih hcs]

theorem getlines_writeEntries (t : Table Char Str)
    (hkeys : ∀ e ∈ t, e.1 ≠ '\n') (hcodes : ∀ e ∈ t, '\n' ∉ e.2) :
    getlines (ThemeManager.writeEntries t) = t.map (fun e => e.1 :: ':' :: e.2) := by
  induction t with
  | nil => simp [getlines, getlinesAux, ThemeManager.writeEntries]
  | cons e rest ih =>
    obtain ⟨ch, code⟩ := e
    have h1 : ch ≠ '\n' := hkeys (ch, code) (List.mem_cons_self _ _)
    have h2 : '\n' ∉ code := hcodes (ch, code) (List.mem_cons_self _ _)
    have hl : '\n' ∉ ch :: ':' :: code := by
      simp only [List.mem_cons, not_or]
      exact ⟨fun e => h1 e.symm, by decide, h2⟩
    have ih' := ih (fun e he => hkeys e (List.mem_cons_of_mem _ he))
      (fun e he => hcodes e (List.mem_cons_of_mem _ he))
    have hw : ThemeManager.writeEntries ((ch, code) :: rest)
        = (ch :: ':' :: code) ++ '\n' :: ThemeManager.writeEntries rest := by
      simp [ThemeManager.writeEntries]
    rw [getlines, hw, getlinesAux_line _ hl]
    simpa [getlines] using ih'

theorem loadLine_entry (m : ThemeManager) (name : Str) (cm : ColorMapping)
    (hm : Table.find m.themes name = some cm) (ch : Char) (code : Str) (hch : ch ≠ ':') :
    m.loadLine name (ch :: ':' :: code) =
      { m with
        themes := Table.assign m.themes name
          { cm with charToColorCode := Table.assign cm.charToColorCode ch code } } := by
  simp [ThemeManager.loadLine, findChar, hch, substr, ThemeManager.touch, hm,
    ThemeManager.theme, ColorMapping.insert, ColorMapping.assignChars]

theorem foldl_loadLine_entries (name : Str) (es : Table Char Str)
    (hkeys : ∀ e ∈ es, e.1 ≠ ':') :
    ∀ (m : ThemeManager) (cm : ColorMapping), Table.find m.themes name = some cm →
      Table.find ((es.map (fun e => e.1 :: ':' :: e.2)).foldl
          (fun st line => st.loadLine name line) m).themes name
        = some { cm with
            charToColorCode :=
              es.foldl (fun a e => Table.assign a e.1 e.2) cm.charToColorCode } := by
  induction es with
  | nil => intro m cm hm; simpa using hm
  | cons e rest ih =>
    intro m cm hm
    rw [List.map_cons, List.foldl_cons, loadLine_entry m name cm hm e.1 e.2
      (hkeys e (List.mem_cons_self _ _))]
    rw [ih (fun e he => hkeys e (List.mem_cons_of_mem _ he)) _ _
      (Table.find_assign_self _ _ _)]
    simp

/-- C3 (as amended): for a registered theme `t` whose char table has no key `:` or newline
and no code containing a newline, `save(t, path)` on a writable path followed by
`load(t2, path)` with `t2` unregistered both succeed, and `t2` gets a char table that binds
every character as `t` does, and empty key and value tables, whatever the key and value
tables of `t` hold. -/
theorem save_load_roundtrip (m : ThemeManager) (fs : FileSystem) (t t2 path : Str)
    (cm : ColorMapping)
    (ht : Table.find m.themes t = some cm)
    (ht2 : Table.find m.themes t2 = none)
    (hw : fs.writable path = true)
    (hwf : Table.WF cm.charToColorCode)
    (hkeys : ∀ e ∈ cm.charToColorCode, e.1 ≠ ':' ∧ e.1 ≠ '\n')
    (hcodes : ∀ e ∈ cm.charToColorCode, '\n' ∉ e.2) :
    (m.save fs t path).thrown = none ∧
    ((m.save fs t path).state.1.load (m.save fs t path).state.2 t2 path).thrown = none ∧
    ∃ cm2,
      Table.find ((m.save fs t path).state.1.load (m.save fs t path).state.2 t2 path).state.themes
        t2 = some cm2 ∧
      (∀ c, Table.find cm2.charToColorCode c = Table.find cm.charToColorCode c) ∧
      cm2.keyToColorCode = [] ∧ cm2.valueToColorCode = [] := by
  have hsave : m.save fs t path
      = { thrown := none, state := (m, fs.write path (ThemeManager.writeEntries cm.charToColorCode)) } := by
    simp [ThemeManager.save, hw, ThemeManager.touch, ht, ThemeManager.theme, ColorMapping.get]
  have hlines := getlines_writeEntries cm.charToColorCode (fun e he => (hkeys e he).2) hcodes
  have hload : (m.load (fs.write path (ThemeManager.writeEntries cm.charToColorCode)) t2 path)
      = { thrown := none
          state := (cm.charToColorCode.map (fun e => e.1 :: ':' :: e.2)).foldl
            (fun st line => st.loadLine t2 line)
            { m with themes := Table.assign m.themes t2 ColorMapping.empty } } := by
    simp [ThemeManager.load, FileSystem.write, ThemeManager.create, ht2, hlines]
  rw [hsave]
  simp only [hload, true_and]
  refine ⟨_, foldl_loadLine_entries t2 cm.charToColorCode (fun e he => (hkeys e he).1) _ _
    (Table.find_assign_self _ _ _), ?_, rfl, rfl⟩
  intro c
  simp only [ColorMapping.empty]
  have hnone : ∀ e ∈ cm.charToColorCode, Table.find ([] : Table Char Str) e.1 = none :=
    fun _ _ => rfl
  rw [Table.foldl_assign_eq_append _ _ hnone hwf]
  simp

theorem save_load_roundtrip_counterexample :
    (ThemeManager.theme (themeWith "a".toList "X\nY".toList) "t".toList).inspect_color 'a'
      = some "X\nY".toList ∧
    (ThemeManager.theme (roundTrip (themeWith "a".toList "X\nY".toList)) "t2".toList).inspect_color 'a'
      = some "X".toList ∧
    (ThemeManager.theme (themeWith "\n".toList "X".toList) "t".toList).inspect_color '\n'
      = some "X".toList ∧
    (ThemeManager.theme (roundTrip (themeWith "\n".toList "X".toList)) "t2".toList).inspect_color '\n'
      = none ∧
    (ThemeManager.theme (themeWith ":".toList "X".toList) "t".toList).inspect_color ':'
      = some "X".toList ∧
    (ThemeManager.theme (roundTrip (themeWith ":".toList "X".toList)) "t2".toList).inspect_color ':'
      = some ":X".toList := by
  decide

theorem save_load_roundtrip_witness :
    (Table.find (themeWith "[]".toList "\x1b[1m".toList).themes "t".toList
        = some ⟨[('[', "\x1b[1m".toList), (']', "\x1b[1m".toList)], [], []⟩ ∧
      Table.find (themeWith "[]".toList "\x1b[1m".toList).themes "t2".toList = none ∧
      fsAllWritable.writable "f".toList = true) ∧
    ((themeWith "[]".toList "\x1b[1m".toList).save fsAllWritable "t".toList "f".toList).thrown
      = none ∧
    (((themeWith "[]".toList "\x1b[1m".toList).save fsAllWritable "t".toList
        "f".toList).state.1.load
      ((themeWith "[]".toList "\x1b[1m".toList).save fsAllWritable "t".toList
        "f".toList).state.2 "t2".toList "f".toList).thrown = none ∧
    ∃ cm2,
      Table.find (((themeWith "[]".toList "\x1b[1m".toList).save fsAllWritable "t".toList
          "f".toList).state.1.load
        ((themeWith "[]".toList "\x1b[1m".toList).save fsAllWritable "t".toList
          "f".toList).state.2 "t2".toList "f".toList).state.themes "t2".toList = some cm2 ∧
      (∀ c, Table.find cm2.charToColorCode c
        = Table.find
            (⟨[('[', "\x1b[1m".toList), (']', "\x1b[1m".toList)], [], []⟩ :
              ColorMapping).charToColorCode c) ∧
      cm2.keyToColorCode = [] ∧ cm2.valueToColorCode = [] :=
  ⟨by decide,
    save_load_roundtrip (themeWith "[]".toList "\x1b[1m".toList) fsAllWritable
      "t".toList "t2".toList "f".toList
      ⟨[('[', "\x1b[1m".toList), (']', "\x1b[1m".toList)], [], []⟩
      (by decide) (by decide) (by decide) (by decide) (by decide) (by decide)⟩

/-! ## ThemeManager: create, set, enable and disable -/

theorem Table.find_assign_ne_none {κ ν : Type} [DecidableEq κ] (t : Table κ ν) (k k' : κ)
    (v : ν) (h : Table.find t k' ≠ none) : Table.find (Table.assign t k v) k' ≠ none := by
  by_cases hk : k' = k
  · subst hk
    simp [Table.find_assign_self]
  · rwa [Table.find_assign_ne _ _ _ _ hk]

theorem ThemeManager.mem_list_iff (m : ThemeManager) (name : Str) :
    name ∈ m.list ↔ Table.find m.themes name ≠ none := by
  rw [ThemeManager.list, Ne, Table.find_eq_none_iff, not_not]

theorem ThemeManager.touch_registered (m : ThemeManager) (n name : Str)
    (h : Table.find m.themes name ≠ none) : Table.find (m.touch n).themes name ≠ none := by
  unfold ThemeManager.touch
  split
  · exact h
  · exact Table.find_assign_ne_none _ _ _ _ h

theorem ThemeManager.updateCurrent_registered (m : ThemeManager)
    (f : ColorMapping → ColorMapping) (name : Str) (h : Table.find m.themes name ≠ none) :
    Table.find (m.updateCurrent f).themes name ≠ none := by
  unfold ThemeManager.updateCurrent
  split
  · exact h
  · exact Table.find_assign_ne_none _ _ _ _ h

theorem ThemeManager.loadLine_registered (m : ThemeManager) (n line name : Str)
    (h : Table.find m.themes name ≠ none) :
    Table.find (m.loadLine n line).themes name ≠ none := by
  unfold ThemeManager.loadLine
  split
  · exact h
  · split
    · exact h
    · exact Table.find_assign_ne_none _ _ _ _ (ThemeManager.touch_registered m n name h)

theorem ThemeManager.foldl_loadLine_registered (n name : Str) (lines : List Str) :
    ∀ m : ThemeManager, Table.find m.themes name ≠ none →
      Table.find (lines.foldl (fun st line => st.loadLine n line) m).themes name ≠ none := by
  induction lines with
  | nil => intro m h; exact h
  | cons l rest ih =>
    intro m h
    exact ih _ (ThemeManager.loadLine_registered m n l name h)

theorem ThemeManager.editLoop_registered (n name : Str) (input : List Str) :
    ∀ m m1 : ThemeManager, ThemeManager.editLoop n m input = some m1 →
      Table.find m.themes name ≠ none → Table.find m1.themes name ≠ none := by
  induction input with
  | nil => intro m m1 h; simp [ThemeManager.editLoop] at h
  | cons l rest ih =>
    intro m m1 h hm
    unfold ThemeManager.editLoop at h
    split at h
    · cases h; exact hm
    · exact ih _ _ h (ThemeManager.loadLine_registered m n l name hm)

theorem ThemeManager.create_registered (m : ThemeManager) (n name : Str)
    (h : Table.find m.themes name ≠ none) :
    Table.find (m.create n).state.themes name ≠ none := by
  unfold ThemeManager.create
  split
  · exact h
  · exact Table.find_assign_ne_none _ _ _ _ h

theorem ThemeManager.load_registered (m : ThemeManager) (fs : FileSystem) (n path name : Str)
    (h : Table.find m.themes name ≠ none) :
    Table.find (m.load fs n path).state.themes name ≠ none := by
  unfold ThemeManager.load
  split
  · exact h
  · simp only []
    split
    · exact ThemeManager.create_registered m n name h
    · exact ThemeManager.foldl_loadLine_registered n name _ _
        (ThemeManager.create_registered m n name h)

theorem ThemeManager.Reachable.default_registered (m : ThemeManager)
    (h : ThemeManager.Reachable m) : Table.find m.themes "default".toList ≠ none := by
  induction h with
  | init => decide
  | create m name _ ih => exact ThemeManager.create_registered m name _ ih
  | set m name _ ih =>
    unfold ThemeManager.set
    split <;> exact ih
  | insert m name characters colorCode isKey isValue _ ih =>
    exact ThemeManager.updateCurrent_registered m _ _ ih
  | replace m characters colorCode _ ih => exact ThemeManager.updateCurrent_registered m _ _ ih
  | erase m characters _ ih => exact ThemeManager.updateCurrent_registered m _ _ ih
  | save m fs name path _ ih =>
    unfold ThemeManager.save
    split
    · exact ThemeManager.touch_registered m name _ ih
    · exact ih
  | load m fs name path _ ih => exact ThemeManager.load_registered m fs name path _ ih
  | set_default m _ ih => exact ThemeManager.touch_registered m _ _ ih
  | enable_colormap m _ ih => exact ih
  | disable_colormap m _ ih => exact ih
  | interactive_edit_theme m name input r _ hr ih =>
    unfold ThemeManager.interactive_edit_theme at hr
    split at hr
    · cases hr; exact ih
    · cases he : ThemeManager.editLoop name m input with
      | none => simp [he] at hr
      | some m1 =>
        simp only [he, Option.map_some', Option.some.injEq] at hr
        subst hr
        exact ThemeManager.editLoop_registered name _ input m m1 he ih

/-- C4: `create(name)` throws exactly when `name` is registered; a throwing `create`
leaves the whole manager state (all themes and their three tables, the current theme, the
enabled flag) unchanged; a second `create(name)` after a first one always throws and
changes nothing; and `create("default")` throws in every reachable state. -/
theorem create_fails_iff_registered (m : ThemeManager) (name : Str) :
    ((m.create name).thrown ≠ none ↔ name ∈ m.list) ∧
    ((m.create name).thrown ≠ none → (m.create name).state = m) ∧
    ((m.create name).state.create name).thrown ≠ none ∧
    ((m.create name).state.create name).state = (m.create name).state ∧
    (ThemeManager.Reachable m → (m.create "default".toList).thrown ≠ none) := by
  have key : ∀ (m : ThemeManager) (n : Str),
      ((m.create n).thrown ≠ none ↔ Table.find m.themes n ≠ none) ∧
      ((m.create n).thrown ≠ none → (m.create n).state = m) := by
    intro m n
    unfold ThemeManager.create
    cases h : Table.find m.themes n <;> simp
  have hreg : Table.find (m.create name).state.themes name ≠ none := by
    unfold ThemeManager.create
    cases h : Table.find m.themes name
    · simp [Table.find_assign_self]
    · simp [h]
  refine ⟨?_, (key m name).2, (key _ name).1.2 hreg, (key _ name).2 ((key _ name).1.2 hreg), ?_⟩
  · rw [ThemeManager.mem_list_iff]; exact (key m name).1
  · intro hr
    exact (key m _).1.2 (ThemeManager.Reachable.default_registered m hr)

theorem create_fails_iff_registered_witness :
    (ThemeManager.Reachable ThemeManager.init ∧ "default".toList ∈ ThemeManager.init.list) ∧
    (ThemeManager.init.create "default".toList).thrown ≠ none ∧
    (ThemeManager.init.create "default".toList).state = ThemeManager.init :=
  ⟨⟨ThemeManager.Reachable.init, by decide⟩,
    (create_fails_iff_registered ThemeManager.init "default".toList).2.2.2.2
      ThemeManager.Reachable.init,
    (create_fails_iff_registered ThemeManager.init "default".toList).2.1
      ((create_fails_iff_registered ThemeManager.init "default".toList).1.2 (by decide))⟩

/-- C5: `set(name)` with an unregistered `name` throws and leaves the manager state
unchanged: `apply` and the `inspect` functions give the same results as before, no theme is
added to the registry, and the enabled flag is unchanged. -/
theorem set_unregistered_fails (m : ThemeManager) (name : Str) (h : name ∉ m.list) :
    (m.set name).thrown ≠ none ∧
    (m.set name).state = m ∧
    (m.set name).state.currentTheme = m.currentTheme ∧
    (∀ text, (m.set name).state.apply text = m.apply text) ∧
    (m.set name).state.inspect = m.inspect ∧
    (∀ c, (m.set name).state.inspect_color c = m.inspect_color c) ∧
    (∀ k, (m.set name).state.inspect_key_color k = m.inspect_key_color k) ∧
    (∀ v, (m.set name).state.inspect_value_color v = m.inspect_value_color v) ∧
    (m.set name).state.list = m.list ∧
    (m.set name).state.is_enabled = m.is_enabled := by
  have hnone : Table.find m.themes name = none := by
    by_contra hne
    exact h ((ThemeManager.mem_list_iff m name).2 hne)
  have hs : (m.set name).state = m := by simp [ThemeManager.set, hnone]
  refine ⟨by simp [ThemeManager.set, hnone], hs, ?_, ?_, ?_, ?_, ?_, ?_, ?_, ?_⟩ <;> simp [hs]

theorem set_unregistered_fails_witness :
    "ghost".toList ∉ (themeWith "[]".toList "\x1b[1m".toList).list ∧
    ((themeWith "[]".toList "\x1b[1m".toList).set "ghost".toList).thrown ≠ none ∧
    ((themeWith "[]".toList "\x1b[1m".toList).set "ghost".toList).state
      = themeWith "[]".toList "\x1b[1m".toList :=
  ⟨by decide,
    (set_unregistered_fails (themeWith "[]".toList "\x1b[1m".toList) "ghost".toList
      (by decide)).1,
    (set_unregistered_fails (themeWith "[]".toList "\x1b[1m".toList) "ghost".toList
      (by decide)).2.1⟩

/-- C6: after `disable_colormap()`, `ThemeManager::apply(text)` is `text`, whatever the
current theme maps; after a following `enable_colormap()` it is again the current theme's
`ColorMapping::apply(text)`; neither call changes a theme's tables or the current theme. -/
theorem disable_colormap_apply (m : ThemeManager) (text : Str) :
    m.disable_colormap.apply text = text ∧
    m.disable_colormap.enable_colormap.apply text = m.current.apply text ∧
    (m.disable_colormap.themes = m.themes ∧ m.disable_colormap.defaultTheme = m.defaultTheme ∧
      m.disable_colormap.currentTheme = m.currentTheme ∧
      m.disable_colormap.current = m.current) ∧
    (m.enable_colormap.themes = m.themes ∧ m.enable_colormap.defaultTheme = m.defaultTheme ∧
      m.enable_colormap.currentTheme = m.currentTheme ∧
      m.enable_colormap.current = m.current) := by
  refine ⟨rfl, rfl, ⟨rfl, rfl, rfl, rfl⟩, ⟨rfl, rfl, rfl, rfl⟩⟩

/-! ## Custom colors -/

/-- C7: with both global flags on, `custom_color(sink, name, default_code)` writes to the
sink exactly the code registered for `name` when there is one (also an empty one),
otherwise exactly `default_code` when that is non-empty, otherwise nothing (the error line
goes to `std::cerr`); after `set_custom_color("error", "\x1b[38;5;196m")`,
`custom_color(sink, "error")` writes exactly that code and `custom_color(sink, "missing")`
writes nothing when `"missing"` is not registered. -/
theorem custom_color_writes (gl : Globals) (name default_code : Str)
    (hc : gl.is_global_colored = true) (ht : gl.is_global_themed = true) :
    (∀ code, Table.find gl.custom_defined_colors name = some code →
      (custom_color gl name default_code).stream = code) ∧
    (Table.find gl.custom_defined_colors name = none → default_code ≠ [] →
      (custom_color gl name default_code).stream = default_code) ∧
    (Table.find gl.custom_defined_colors name = none → default_code = [] →
      (custom_color gl name default_code).stream = []) ∧
    (custom_color (set_custom_color gl "error".toList "\x1b[38;5;196m".toList)
      "error".toList []).stream = "\x1b[38;5;196m".toList ∧
    (Table.find gl.custom_defined_colors "missing".toList = none →
      (custom_color (set_custom_color gl "error".toList "\x1b[38;5;196m".toList)
        "missing".toList []).stream = []) := by
  refine ⟨?_, ?_, ?_, ?_, ?_⟩
  · intro code h
    simp [custom_color, h, apply_code, CHECK_COLOR_AND_THEME, hc, ht]
  · intro h hd
    simp [custom_color, h, hd, apply_code, CHECK_COLOR_AND_THEME, hc, ht]
  · intro h hd
    simp [custom_color, h, hd]
  · simp [custom_color, set_custom_color, Table.find_assign_self, apply_code,
      CHECK_COLOR_AND_THEME, hc, ht]
  · intro h
    have hne : "missing".toList ≠ "error".toList := by decide
    have hf : Table.find (set_custom_color gl "error".toList
        "\x1b[38;5;196m".toList).custom_defined_colors "missing".toList = none := by
      simp only [set_custom_color]
      rw [Table.find_assign_ne _ _ _ _ hne]
      exact h
    unfold custom_color
    rw [hf]
    rfl

theorem custom_color_writes_witness :
    (custom_color (set_custom_color Globals.init "error".toList "\x1b[38;5;196m".toList)
      "error".toList []).stream = "\x1b[38;5;196m".toList ∧
    (custom_color (set_custom_color Globals.init "error".toList "\x1b[38;5;196m".toList)
      "missing".toList []).stream = [] ∧
    (custom_color Globals.init "missing".toList "\x1b[0m".toList).stream = "\x1b[0m".toList :=
  ⟨(custom_color_writes Globals.init "missing".toList "\x1b[0m".toList rfl rfl).2.2.2.1,
    (custom_color_writes Globals.init "missing".toList "\x1b[0m".toList rfl rfl).2.2.2.2 rfl,
    (custom_color_writes Globals.init "missing".toList "\x1b[0m".toList rfl rfl).2.1 rfl
      (by decide)⟩

/-! ## Escape-code emitters -/

set_option maxRecDepth 100000 in
theorem digits3_eq_decimal3 : ∀ n, n < 256 →
    [digit (n / 100), digit (n % 100 / 10), digit (n % 100 % 10)] = decimal3 n := by
  decide

set_option maxRecDepth 100000 in
theorem digits8bit_eq_decimal3 : ∀ n, n < 256 →
    [if n ≥ 100 then digit (n / 100) else '0',
     if (if n ≥ 100 then n % 100 else n) ≥ 10 then digit ((if n ≥ 100 then n % 100 else n) / 10)
       else '0',
     digit (if (if n ≥ 100 then n % 100 else n) ≥ 10 then (if n ≥ 100 then n % 100 else n) % 10
       else (if n ≥ 100 then n % 100 else n))] = decimal3 n := by
  decide

theorem APPLY_RGB_COLOR_MACRO_eq (gl : Globals) (r g b : Nat) (type : Char)
    (hc : CHECK_COLOR_AND_THEME gl = true) (hr : r < 256) (hg : g < 256) (hb : b < 256) :
    APPLY_RGB_COLOR_MACRO gl r g b type =
      ['\x1b', '[', type] ++ "8;2;".toList ++ decimal3 r ++ ";".toList ++ decimal3 g
        ++ ";".toList ++ decimal3 b ++ "m".toList := by
  rw [← digits3_eq_decimal3 r hr, ← digits3_eq_decimal3 g hg, ← digits3_eq_decimal3 b hb]
  simp [APPLY_RGB_COLOR_MACRO, hc]

theorem APPLY_RGB_COLOR_MACRO_TO_STRING_eq (gl : Globals) (stream : Str) (r g b : Nat)
    (type : Char) (hc : CHECK_COLOR_AND_THEME gl = true) (hr : r < 256) (hg : g < 256)
    (hb : b < 256) :
    APPLY_RGB_COLOR_MACRO_TO_STRING gl stream r g b type =
      ['\x1b', '[', type] ++ "8;2;".toList ++ decimal3 r ++ ";".toList ++ decimal3 g
        ++ ";".toList ++ decimal3 b ++ "m".toList := by
  rw [← digits3_eq_decimal3 r hr, ← digits3_eq_decimal3 g hg, ← digits3_eq_decimal3 b hb]
  simp [APPLY_RGB_COLOR_MACRO_TO_STRING, hc]

theorem APPLY_8BIT_COLOR_MACRO_eq (gl : Globals) (n : Nat) (type : Str)
    (hc : CHECK_COLOR_AND_THEME gl = true) (hn : n < 256) :
    APPLY_8BIT_COLOR_MACRO gl n type =
      "\x1b[".toList ++ type ++ "8;5;".toList ++ decimal3 n ++ "m".toList := by
  rw [← digits8bit_eq_decimal3 n hn]
  simp [APPLY_8BIT_COLOR_MACRO, hc, Nat.mod_eq_of_lt hn]

/-- C8 (as amended): for all `r`, `g`, `b` in 0..255, with both global flags on, the 24-bit
foreground emitters `apply_color(stream, r, g, b)`, `apply_rgb_color` (on a stream and on
a string), `color<r, g, b>` and `apply_color<r, g, b>` produce exactly
`ESC "[38;2;" R ";" G ";" B "m"`, and the background emitters
`apply_bg_color(stream, r, g, b)`, `apply_bg_color<r, g, b>` and
`apply_rgb_background_color` on a string the same with 48 in place of 38, where `R`, `G`,
`B` are the channels as three decimal digits, zero-padded; for (255, 165, 0) the outputs
are `"\x1b[38;2;255;165;000m"` and `"\x1b[48;2;255;165;000m"`. -/
theorem rgb_emitters_zero_padded (gl : Globals) (r g b : Nat) (stream : Str)
    (hc : gl.is_global_colored = true) (ht : gl.is_global_themed = true)
    (hr : r < 256) (hg : g < 256) (hb : b < 256) :
    (apply_color gl r g b = "\x1b[38;2;".toList ++ decimal3 r ++ ";".toList ++ decimal3 g
        ++ ";".toList ++ decimal3 b ++ "m".toList ∧
      apply_rgb_color gl r g b = apply_color gl r g b ∧
      apply_rgb_color_string gl stream r g b = apply_color gl r g b ∧
      color_rgb gl r g b = apply_color gl r g b ∧
      apply_color_rgb gl r g b = apply_color gl r g b) ∧
    (apply_bg_color gl r g b = "\x1b[48;2;".toList ++ decimal3 r ++ ";".toList ++ decimal3 g
        ++ ";".toList ++ decimal3 b ++ "m".toList ∧
      apply_bg_color_rgb gl r g b = apply_bg_color gl r g b ∧
      apply_rgb_background_color_string gl stream r g b = apply_bg_color gl r g b) ∧
    apply_color gl 255 165 0 = "\x1b[38;2;255;165;000m".toList ∧
    apply_bg_color gl 255 165 0 = "\x1b[48;2;255;165;000m".toList := by
  have hcheck : CHECK_COLOR_AND_THEME gl = true := by simp [CHECK_COLOR_AND_THEME, hc, ht]
  have h3 := APPLY_RGB_COLOR_MACRO_eq gl r g b '3' hcheck hr hg hb
  have h4 := APPLY_RGB_COLOR_MACRO_eq gl r g b '4' hcheck hr hg hb
  have s3 := APPLY_RGB_COLOR_MACRO_TO_STRING_eq gl stream r g b '3' hcheck hr hg hb
  have s4 := APPLY_RGB_COLOR_MACRO_TO_STRING_eq gl stream r g b '4' hcheck hr hg hb
  refine ⟨⟨?_, rfl, ?_, rfl, rfl⟩, ⟨?_, rfl, ?_⟩, ?_, ?_⟩
  · rw [apply_color, h3]; rfl
  · rw [apply_rgb_color_string, s3, apply_color, h3]
  · rw [apply_bg_color, h4]; rfl
  · rw [apply_rgb_background_color_string, s4, apply_bg_color, h4]
  · simp only [apply_color, APPLY_RGB_COLOR_MACRO, hcheck, if_true]; decide
  · simp only [apply_bg_color, APPLY_RGB_COLOR_MACRO, hcheck, if_true]; decide

theorem rgb_emitters_zero_padded_counterexample :
    apply_color Globals.init 255 165 0 = "\x1b[38;2;255;165;000m".toList ∧
    apply_color Globals.init 255 165 0 ≠ "\x1b[38;2;255;165;0m".toList ∧
    apply_color Globals.init 255 165 0 ≠ "\x1b[38;2;".toList ++ decimal 255 ++ ";".toList
      ++ decimal 165 ++ ";".toList ++ decimal 0 ++ "m".toList ∧
    apply_bg_color Globals.init 255 165 0 = "\x1b[48;2;255;165;000m".toList ∧
    apply_bg_color Globals.init 255 165 0 ≠ "\x1b[48;2;255;165;0m".toList := by
  decide

theorem rgb_emitters_zero_padded_witness :
    apply_color Globals.init 7 42 255 = "\x1b[38;2;".toList ++ decimal3 7 ++ ";".toList
      ++ decimal3 42 ++ ";".toList ++ decimal3 255 ++ "m".toList ∧
    apply_bg_color Globals.init 7 42 255 = "\x1b[48;2;".toList ++ decimal3 7 ++ ";".toList
      ++ decimal3 42 ++ ";".toList ++ decimal3 255 ++ "m".toList :=
  ⟨(rgb_emitters_zero_padded Globals.init 7 42 255 [] rfl rfl (by decide) (by decide)
      (by decide)).1.1,
    (rgb_emitters_zero_padded Globals.init 7 42 255 [] rfl rfl (by decide) (by decide)
      (by decide)).2.1.1⟩

/-- C9 (as amended): for every palette index `n` in 0..255, with both global flags on,
`color(stream, n)` and `apply_color(stream, n)` write exactly `ESC "[38;5;" N "m"` and
`bg_color<n>` and `apply_bg_color(stream, n)` write exactly `ESC "[48;5;" N "m"`, where `N`
is `n` as three decimal digits, zero-padded (`n = 9` gives `"\x1b[38;5;009m"`). -/
theorem palette_emitters_zero_padded (gl : Globals) (n : Nat)
    (hc : gl.is_global_colored = true) (ht : gl.is_global_themed = true) (hn : n < 256) :
    color_code gl n = "\x1b[38;5;".toList ++ decimal3 n ++ "m".toList ∧
    apply_color_code gl n = "\x1b[38;5;".toList ++ decimal3 n ++ "m".toList ∧
    bg_color_code gl n = "\x1b[48;5;".toList ++ decimal3 n ++ "m".toList ∧
    apply_bg_color_code gl n = "\x1b[48;5;".toList ++ decimal3 n ++ "m".toList ∧
    color_code gl 9 = "\x1b[38;5;009m".toList := by
  have hcheck : CHECK_COLOR_AND_THEME gl = true := by simp [CHECK_COLOR_AND_THEME, hc, ht]
  have h3 := APPLY_8BIT_COLOR_MACRO_eq gl n "3".toList hcheck hn
  have h4 := APPLY_8BIT_COLOR_MACRO_eq gl n "4".toList hcheck hn
  refine ⟨?_, ?_, ?_, ?_, ?_⟩
  · rw [color_code, Nat.mod_eq_of_lt hn, h3]; rfl
  · rw [apply_color_code, h3]; rfl
  · rw [bg_color_code, h4]; rfl
  · rw [apply_bg_color_code, h4]; rfl
  · simp only [color_code, APPLY_8BIT_COLOR_MACRO, hcheck, if_true]; decide

theorem palette_emitters_zero_padded_counterexample :
    color_code Globals.init 9 = "\x1b[38;5;009m".toList ∧
    color_code Globals.init 9 ≠ "\x1b[38;5;9m".toList ∧
    color_code Globals.init 9 ≠ "\x1b[38;5;".toList ++ decimal 9 ++ "m".toList ∧
    apply_color_code Globals.init 9 ≠ "\x1b[38;5;9m".toList ∧
    bg_color_code Globals.init 42 = "\x1b[48;5;042m".toList ∧
    apply_bg_color_code Globals.init 42 ≠ "\x1b[48;5;42m".toList := by
  decide

theorem palette_emitters_zero_padded_witness :
    color_code Globals.init 196 = "\x1b[38;5;".toList ++ decimal3 196 ++ "m".toList ∧
    bg_color_code Globals.init 5 = "\x1b[48;5;".toList ++ decimal3 5 ++ "m".toList :=
  ⟨(palette_emitters_zero_padded Globals.init 196 rfl rfl (by decide)).1,
    (palette_emitters_zero_padded Globals.init 5 rfl rfl (by decide)).2.2.1⟩

/-- C10: after `disable_global_color()`, and likewise after `disable_global_theme()`,
`CHECK_COLOR_AND_THEME` is false, and whenever it is false every emitter built on
`apply_code` or the `APPLY_*` macros (the predefined manipulators, `apply_color`,
`apply_bg_color`, `apply_rgb_color`, `apply_rgb_background_color`, `color`, `bg_color`,
`custom_color`) writes zero bytes for every argument, the string overloads leaving their
string as it was; re-enabling the flag restores the check when the other flag is on, and
with the check true every one of them emits again: the manipulators and `custom_color`
write their code, each 24-bit emitter (also `bg_color<r, g, b>`, the stream overload of
`apply_rgb_background_color` and the string overloads) produces 19 bytes that start with
`ESC [`, and each 8-bit emitter 11 bytes. -/
theorem emitters_gated (gl : Globals) :
    CHECK_COLOR_AND_THEME (disable_global_color gl) = false ∧
    CHECK_COLOR_AND_THEME (disable_global_theme gl) = false ∧
    (CHECK_COLOR_AND_THEME gl = false →
      (∀ code, apply_code gl code = [] ∧ color_function gl code = []) ∧
      (red gl = [] ∧ bold gl = [] ∧ reset gl = []) ∧
      (∀ r g b, apply_color gl r g b = [] ∧ apply_bg_color gl r g b = [] ∧
        apply_rgb_color gl r g b = [] ∧ color_rgb gl r g b = [] ∧
        apply_color_rgb gl r g b = [] ∧ apply_bg_color_rgb gl r g b = []) ∧
      (∀ r g b ur ug ub, apply_rgb_background_color gl r g b ur ug ub = [] ∧
        bg_color_rgb gl r g b ur ug ub = []) ∧
      (∀ stream r g b, apply_rgb_color_string gl stream r g b = stream ∧
        apply_rgb_background_color_string gl stream r g b = stream) ∧
      (∀ n, apply_color_code gl n = [] ∧ apply_bg_color_code gl n = [] ∧
        color_code gl n = [] ∧ bg_color_code gl n = []) ∧
      (∀ name default_code, (custom_color gl name default_code).stream = [])) ∧
    (gl.is_global_themed = true →
      CHECK_COLOR_AND_THEME (enable_global_color (disable_global_color gl)) = true) ∧
    (gl.is_global_colored = true →
      CHECK_COLOR_AND_THEME (enable_global_theme (disable_global_theme gl)) = true) ∧
    (CHECK_COLOR_AND_THEME gl = true →
      (∀ code, apply_code gl code = code ∧ color_function gl code = code) ∧
      (red gl = "\x1b[31m".toList ∧ bold gl = "\x1b[1m".toList ∧
        reset gl = "\x1b[0m".toList) ∧
      (∀ r g b, (apply_color gl r g b).length = 19 ∧ (apply_bg_color gl r g b).length = 19 ∧
        (apply_rgb_color gl r g b).length = 19 ∧ (color_rgb gl r g b).length = 19 ∧
        (apply_color_rgb gl r g b).length = 19 ∧ (apply_bg_color_rgb gl r g b).length = 19) ∧
      (∀ n, (apply_color_code gl n).length = 11 ∧ (apply_bg_color_code gl n).length = 11 ∧
        (color_code gl n).length = 11 ∧ (bg_color_code gl n).length = 11) ∧
      (∀ name default_code code, Table.find gl.custom_defined_colors name = some code →
        (custom_color gl name default_code).stream = code) ∧
      (∀ name default_code, Table.find gl.custom_defined_colors name = none →
        (custom_color gl name default_code).stream = default_code) ∧
      (∀ r g b ur ug ub, (apply_rgb_background_color gl r g b ur ug ub).length = 19 ∧
        (bg_color_rgb gl r g b ur ug ub).length = 19 ∧
        (apply_rgb_background_color gl r g b ur ug ub).take 7 = "\x1b[48;2;".toList ∧
        (bg_color_rgb gl r g b ur ug ub).take 7 = "\x1b[48;2;".toList) ∧
      (∀ stream r g b, (apply_rgb_color_string gl stream r g b).length = 19 ∧
        (apply_rgb_background_color_string gl stream r g b).length = 19 ∧
        apply_rgb_color_string gl stream r g b = apply_rgb_color gl r g b ∧
        apply_rgb_background_color_string gl stream r g b = apply_bg_color gl r g b) ∧
      (∀ r g b, (apply_color gl r g b).take 7 = "\x1b[38;2;".toList ∧
        (apply_bg_color gl r g b).take 7 = "\x1b[48;2;".toList ∧
        (apply_rgb_color gl r g b).take 7 = "\x1b[38;2;".toList ∧
        (color_rgb gl r g b).take 7 = "\x1b[38;2;".toList ∧
        (apply_color_rgb gl r g b).take 7 = "\x1b[38;2;".toList ∧
        (apply_bg_color_rgb gl r g b).take 7 = "\x1b[48;2;".toList) ∧
      (∀ n, (apply_color_code gl n).take 7 = "\x1b[38;5;".toList ∧
        (apply_bg_color_code gl n).take 7 = "\x1b[48;5;".toList ∧
        (color_code gl n).take 7 = "\x1b[38;5;".toList ∧
        (bg_color_code gl n).take 7 = "\x1b[48;5;".toList)) := by
  refine ⟨by simp [CHECK_COLOR_AND_THEME, disable_global_color],
    by simp [CHECK_COLOR_AND_THEME, disable_global_theme], ?_, ?_, ?_, ?_⟩
  · intro h
    refine ⟨?_, ?_, ?_, ?_, ?_, ?_, ?_⟩
    · intro code; simp [color_function, apply_code, h]
    · simp [red, bold, reset, color_function, apply_code, h]
    · intro r g b
      simp [apply_color, apply_bg_color, apply_rgb_color, color_rgb, apply_color_rgb,
        apply_bg_color_rgb, APPLY_RGB_COLOR_MACRO, h]
    · intro r g b ur ug ub
      simp [apply_rgb_background_color, bg_color_rgb, h]
    · intro stream r g b
      simp [apply_rgb_color_string, apply_rgb_background_color_string,
        APPLY_RGB_COLOR_MACRO_TO_STRING, h]
    · intro n
      simp [apply_color_code, apply_bg_color_code, color_code, bg_color_code,
        APPLY_8BIT_COLOR_MACRO, h]
    · intro name default_code
      unfold custom_color
      cases Table.find gl.custom_defined_colors name with
      | some code => simp [apply_code, h]
      | none =>
        by_cases hd : default_code = []
        · simp [hd]
        · simp [hd, apply_code, h]
  · intro ht
    simp [CHECK_COLOR_AND_THEME, enable_global_color, disable_global_color, ht]
  · intro hc
    simp [CHECK_COLOR_AND_THEME, enable_global_theme, disable_global_theme, hc]
  · intro h
    refine ⟨?_, ?_, ?_, ?_, ?_, ?_, ?_, ?_, ?_, ?_⟩
    · intro code; simp [color_function, apply_code, h]
    · simp [red, bold, reset, color_function, apply_code, h]
    · intro r g b
      simp [apply_color, apply_bg_color, apply_rgb_color, color_rgb, apply_color_rgb,
        apply_bg_color_rgb, APPLY_RGB_COLOR_MACRO, h]
    · intro n
      simp [apply_color_code, apply_bg_color_code, color_code, bg_color_code,
        APPLY_8BIT_COLOR_MACRO, h]
    · intro name default_code code hf
      simp [custom_color, hf, apply_code, h]
    · intro name default_code hf
      by_cases hd : default_code = []
      · simp [custom_color, hf, hd]
      · simp [custom_color, hf, hd, apply_code, h]
    · intro r g b ur ug ub
      simp [apply_rgb_background_color, bg_color_rgb, APPLY_RGB_COLOR_MACRO_shadowed, h]
    · intro stream r g b
      simp [apply_rgb_color_string, apply_rgb_background_color_string, apply_rgb_color,
        apply_bg_color, APPLY_RGB_COLOR_MACRO_TO_STRING, APPLY_RGB_COLOR_MACRO, h]
    · intro r g b
      simp [apply_color, apply_bg_color, apply_rgb_color, color_rgb, apply_color_rgb,
        apply_bg_color_rgb, APPLY_RGB_COLOR_MACRO, h]
    · intro n
      simp [apply_color_code, apply_bg_color_code, color_code, bg_color_code,
        APPLY_8BIT_COLOR_MACRO, h]

theorem emitters_gated_witness :
    CHECK_COLOR_AND_THEME (disable_global_color Globals.init) = false ∧
    red (disable_global_color Globals.init) = [] ∧
    apply_color (disable_global_color Globals.init) 255 165 0 = [] ∧
    bg_color_rgb (disable_global_theme Globals.init) 255 165 0 0 0 0 = [] ∧
    (custom_color (disable_global_theme
      (set_custom_color Globals.init "error".toList "\x1b[38;5;196m".toList))
      "error".toList "\x1b[0m".toList).stream = [] ∧
    red (enable_global_color (disable_global_color Globals.init)) = "\x1b[31m".toList ∧
    (bg_color_rgb (enable_global_color (disable_global_color Globals.init))
      255 165 0 0 0 0).length = 19 :=
  ⟨(emitters_gated Globals.init).1,
    ((emitters_gated (disable_global_color Globals.init)).2.2.1
      (emitters_gated Globals.init).1).2.1.1,
    (((emitters_gated (disable_global_color Globals.init)).2.2.1
      (emitters_gated Globals.init).1).2.2.1 255 165 0).1,
    (((emitters_gated (disable_global_theme Globals.init)).2.2.1
      (emitters_gated Globals.init).2.1).2.2.2.1 255 165 0 0 0 0).2,
    ((emitters_gated (disable_global_theme
      (set_custom_color Globals.init "error".toList "\x1b[38;5;196m".toList))).2.2.1
      (emitters_gated _).2.1).2.2.2.2.2.2 _ _,
    ((emitters_gated (enable_global_color (disable_global_color Globals.init))).2.2.2.2.2
      ((emitters_gated Globals.init).2.2.2.1 rfl)).2.1.1,
    (((emitters_gated (enable_global_color (disable_global_color Globals.init))).2.2.2.2.2
      ((emitters_gated Globals.init).2.2.2.1 rfl)).2.2.2.2.2.2.1 255 165 0 0 0 0).2.1⟩

/-- The stream overload of `apply_rgb_background_color` and `bg_color<r, g, b>` take only
their hundreds digits from their arguments: the other digits follow the indeterminate
values read by the macro's shadowing declarations. -/
theorem bg_color_rgb_indeterminate :
    bg_color_rgb Globals.init 255 165 0 0 0 0 = "\x1b[48;2;200;100;000m".toList ∧
    bg_color_rgb Globals.init 255 165 0 255 165 0 = "\x1b[48;2;255;165;000m".toList ∧
    apply_rgb_background_color Globals.init 255 165 0 0 0 0
      = "\x1b[48;2;200;100;000m".toList := by
  decide

/-! ## ColorMapping.insert -/

theorem Table.find_erase_ne {κ ν : Type} [DecidableEq κ] (t : Table κ ν) (k k' : κ)
    (hne : k' ≠ k) : Table.find (Table.erase t k) k' = Table.find t k' := by
  induction t with
  | nil => rfl
  | cons e t ih =>
    obtain ⟨k₀, v₀⟩ := e
    by_cases h : k₀ = k
    · subst h
      have h' : ¬ k₀ = k' := fun e => hne e.symm
      simpa [Table.erase, Table.find, h'] using ih
    · by_cases h' : k₀ = k'
      · subst h'
        simp [Table.erase, List.filter, Table.find, h]
      · simpa [Table.erase, Table.find, h, h'] using ih

theorem find_assignChars (characters code : Str) :
    ∀ (t : Table Char Str) (c : Char),
      Table.find (ColorMapping.assignChars t characters code) c
        = if c ∈ characters then some code else Table.find t c := by
  induction characters with
  | nil => intro t c; simp [ColorMapping.assignChars]
  | cons ch rest ih =>
    intro t c
    have hstep : ColorMapping.assignChars t (ch :: rest) code
        = ColorMapping.assignChars (Table.assign t ch code) rest code := rfl
    rw [hstep, ih]
    by_cases hr : c ∈ rest
    · simp [hr]
    · by_cases hc : c = ch
      · subst hc
        simp [hr, Table.find_assign_self]
      · simp [hr, hc, Table.find_assign_ne _ _ _ _ hc]

/-- C13: `ColorMapping::insert(name, characters, code, isKey, isValue)` with `isKey` set
stores `code` under `name` in the key table and changes nothing else, whatever
`characters` and `isValue` are; with `isKey` unset and `isValue` set it stores `code` under
`name` in the value table and changes nothing else. So after
`insert("key", "name", c, true)`, `inspect_key_color("key")` returns `c` and
`inspect_key_color("name")` is as before. -/
theorem insert_key_or_value (m : ColorMapping) (name characters code : Str)
    (isValue : Bool) :
    ((m.insert name characters code true isValue).inspect_key_color name = some code ∧
      (∀ k, k ≠ name →
        (m.insert name characters code true isValue).inspect_key_color k
          = m.inspect_key_color k) ∧
      (m.insert name characters code true isValue).keyToColorCode
        = Table.assign m.keyToColorCode name code ∧
      (m.insert name characters code true isValue).charToColorCode = m.charToColorCode ∧
      (m.insert name characters code true isValue).valueToColorCode = m.valueToColorCode) ∧
    ((m.insert name characters code false true).inspect_value_color name = some code ∧
      (∀ v, v ≠ name →
        (m.insert name characters code false true).inspect_value_color v
          = m.inspect_value_color v) ∧
      (m.insert name characters code false true).valueToColorCode
        = Table.assign m.valueToColorCode name code ∧
      (m.insert name characters code false true).charToColorCode = m.charToColorCode ∧
      (m.insert name characters code false true).keyToColorCode = m.keyToColorCode) ∧
    ((m.insert "key".toList "name".toList code true false).inspect_key_color "key".toList
        = some code ∧
      (m.insert "key".toList "name".toList code true false).inspect_key_color "name".toList
        = m.inspect_key_color "name".toList) := by
  refine ⟨⟨?_, ?_, rfl, rfl, rfl⟩, ⟨?_, ?_, rfl, rfl, rfl⟩, ?_, ?_⟩
  · exact Table.find_assign_self _ _ _
  · intro k hk
    exact Table.find_assign_ne _ _ _ _ hk
  · exact Table.find_assign_self _ _ _
  · intro v hv
    exact Table.find_assign_ne _ _ _ _ hv
  · exact Table.find_assign_self _ _ _
  · exact Table.find_assign_ne _ _ _ _ (by decide)

theorem insert_key_or_value_witness :
    (ColorMapping.empty.insert "key".toList "name".toList "\x1b[38;5;208m".toList
        true false).inspect_key_color "key".toList = some "\x1b[38;5;208m".toList ∧
    (ColorMapping.empty.insert "key".toList "name".toList "\x1b[38;5;208m".toList
        true false).inspect_key_color "name".toList = none :=
  ⟨(insert_key_or_value ColorMapping.empty "key".toList "name".toList
      "\x1b[38;5;208m".toList false).1.1,
    (insert_key_or_value ColorMapping.empty "key".toList "name".toList
      "\x1b[38;5;208m".toList false).1.2.1 "name".toList (by decide)⟩

/-- C14: `ColorMapping::insert(name, characters, code)` with both flags unset binds every
character of `characters` to `code` in the char table, whatever was bound before, leaves
the binding of every other character and the key and value tables unchanged, and does not
depend on `name`; with empty `characters` the mapping is unchanged, and a later insert for
the same characters wins. -/
theorem insert_chars (m : ColorMapping) (name characters code : Str) :
    (∀ ch, ch ∈ characters →
      (m.insert name characters code false false).inspect_color ch = some code) ∧
    (∀ ch, ch ∉ characters →
      (m.insert name characters code false false).inspect_color ch = m.inspect_color ch) ∧
    (m.insert name characters code false false).keyToColorCode = m.keyToColorCode ∧
    (m.insert name characters code false false).valueToColorCode = m.valueToColorCode ∧
    (∀ name2, m.insert name2 characters code false false
      = m.insert name characters code false false) ∧
    m.insert name [] code false false = m ∧
    (∀ name2 code2 ch, ch ∈ characters →
      ((m.insert name characters code false false).insert name2 characters code2
        false false).inspect_color ch = some code2) := by
  have key : ∀ (m : ColorMapping) (n cs c : Str) (ch : Char),
      (m.insert n cs c false false).inspect_color ch
        = if ch ∈ cs then some c else m.inspect_color ch := by
    intro m n cs c ch
    exact find_assignChars cs c m.charToColorCode ch
  refine ⟨?_, ?_, rfl, rfl, fun _ => rfl, rfl, ?_⟩
  · intro ch hch; rw [key]; simp [hch]
  · intro ch hch; rw [key]; simp [hch]
  · intro name2 code2 ch hch; rw [key]; simp [hch]

theorem insert_chars_witness :
    (ColorMapping.empty.insert "bracket".toList "[]".toList "\x1b[38;5;34m".toList
        false false).inspect_color ']' = some "\x1b[38;5;34m".toList ∧
    (ColorMapping.empty.insert "bracket".toList "[]".toList "\x1b[38;5;34m".toList
        false false).inspect_color 'x' = none :=
  ⟨(insert_chars ColorMapping.empty "bracket".toList "[]".toList
      "\x1b[38;5;34m".toList).1 ']' (by decide),
    (insert_chars ColorMapping.empty "bracket".toList "[]".toList
      "\x1b[38;5;34m".toList).2.1 'x' (by decide)⟩


/-! ## Key and value entries seen by `apply` -/

theorem applyLoop_congr (m1 m2 : ColorMapping)
    (hc : m1.charToColorCode = m2.charToColorCode)
    (hk : ∀ ch : Char, Table.find m1.keyToColorCode [ch] = Table.find m2.keyToColorCode [ch])
    (hv : ∀ ch : Char,
      Table.find m1.valueToColorCode [ch] = Table.find m2.valueToColorCode [ch])
    (text : Str) :
    ∀ (k : Bool) (oss : Str),
      ColorMapping.applyLoop m1 k oss text = ColorMapping.applyLoop m2 k oss text := by
  have hp : ∀ (k : Bool) (ch : Char), loopPiece m1 k ch = loopPiece m2 k ch := by
    intro k ch
    simp only [loopPiece, hc, ColorMapping.apply_key_color, ColorMapping.apply_value_color,
      hk ch, hv ch]
  induction text with
  | nil => intro k oss; rfl
  | cons ch rest ih =>
    intro k oss
    rw [applyLoop_cons, applyLoop_cons, hp, ih]

theorem apply_congr (m1 m2 : ColorMapping)
    (hc : m1.charToColorCode = m2.charToColorCode)
    (hk : ∀ ch : Char, Table.find m1.keyToColorCode [ch] = Table.find m2.keyToColorCode [ch])
    (hv : ∀ ch : Char,
      Table.find m1.valueToColorCode [ch] = Table.find m2.valueToColorCode [ch])
    (text : Str) : m1.apply text = m2.apply text :=
  applyLoop_congr m1 m2 hc hk hv text true []

theorem singleton_ne_of_length (k : Str) (hk : k.length ≠ 1) (ch : Char) : [ch] ≠ k := by
  intro h
  apply hk
  rw [← h]
  rfl

theorem applyLoop_empty (text : Str) :
    ∀ (k : Bool) (oss : Str), ColorMapping.applyLoop ColorMapping.empty k oss text = oss ++ text := by
  induction text with
  | nil => intro k oss; simp [ColorMapping.applyLoop]
  | cons ch rest ih =>
    intro k oss
    rw [applyLoop_cons, ih]
    have hp : ∀ b, loopPiece ColorMapping.empty b ch = [ch] := by
      intro b
      cases b <;> rfl
    rw [hp]
    simp

theorem apply_empty (text : Str) : ColorMapping.empty.apply text = text := by
  rw [ColorMapping.apply, applyLoop_empty]
  rfl

/-- C20: `apply(text)` is unaffected by key-table and value-table entries whose key does
not have length exactly one: adding or removing such an entry, also through `insert` with
`isKey` or `isValue` set, leaves `apply(text)` unchanged for every mapping and text; so
the key `"name"` inserted with `isKey = true` does not color the text `"name: Alice"`. -/
theorem apply_ignores_long_keys (m : ColorMapping) (k code text : Str)
    (hk : k.length ≠ 1) :
    ({ m with keyToColorCode := Table.assign m.keyToColorCode k code }).apply text
      = m.apply text ∧
    ({ m with valueToColorCode := Table.assign m.valueToColorCode k code }).apply text
      = m.apply text ∧
    ({ m with keyToColorCode := Table.erase m.keyToColorCode k }).apply text = m.apply text ∧
    ({ m with valueToColorCode := Table.erase m.valueToColorCode k }).apply text
      = m.apply text ∧
    (∀ characters isValue, (m.insert k characters code true isValue).apply text
      = m.apply text) ∧
    (∀ characters, (m.insert k characters code false true).apply text = m.apply text) ∧
    (ColorMapping.empty.insert "name".toList "name".toList "\x1b[38;5;208m".toList
      true false).apply "name: Alice".toList = "name: Alice".toList := by
  have hne : ∀ ch : Char, [ch] ≠ k := singleton_ne_of_length k hk
  have h1 : ({ m with keyToColorCode := Table.assign m.keyToColorCode k code }).apply text
      = m.apply text := by
    apply apply_congr
    · rfl
    · intro ch; exact Table.find_assign_ne _ _ _ _ (hne ch)
    · intro ch; rfl
  have h2 : ({ m with valueToColorCode := Table.assign m.valueToColorCode k code }).apply text
      = m.apply text := by
    apply apply_congr
    · rfl
    · intro ch; rfl
    · intro ch; exact Table.find_assign_ne _ _ _ _ (hne ch)
  refine ⟨h1, h2, ?_, ?_, fun _ _ => h1, fun _ => h2, by decide⟩
  · apply apply_congr
    · rfl
    · intro ch; exact Table.find_erase_ne _ _ _ (hne ch)
    · intro ch; rfl
  · apply apply_congr
    · rfl
    · intro ch; rfl
    · intro ch; exact Table.find_erase_ne _ _ _ (hne ch)

theorem apply_ignores_long_keys_witness :
    "name".toList.length ≠ 1 ∧
    (ColorMapping.empty.insert "name".toList "n".toList "\x1b[1m".toList true false).apply
      "name: n".toList = ColorMapping.empty.apply "name: n".toList :=
  ⟨by decide,
    (apply_ignores_long_keys ColorMapping.empty "name".toList "\x1b[1m".toList
      "name: n".toList (by decide)).2.2.2.2.1 "n".toList false⟩

/-! ## ThemeManager: edits of the current theme -/

theorem Table.keys_assign {κ ν : Type} [DecidableEq κ] (t : Table κ ν) (k : κ) (v : ν) :
    (Table.assign t k v).map Prod.fst
      = if (Table.find t k).isNone then t.map Prod.fst ++ [k] else t.map Prod.fst := by
  induction t with
  | nil => simp [Table.assign, Table.find]
  | cons e t ih =>
    obtain ⟨k₀, v₀⟩ := e
    by_cases h : k₀ = k
    · subst h
      simp [Table.assign, Table.find]
    · simp only [Table.assign, Table.find, h, if_false, List.map_cons, ih]
      split <;> simp

theorem ThemeManager.edit_eq_updateCurrent (m : ThemeManager) (e : Edit) :
    m.edit e = m.updateCurrent e.onMapping := by
  cases e <;> rfl

theorem ThemeManager.updateCurrent_entry (m : ThemeManager) (A : Str) (cm : ColorMapping)
    (f : ColorMapping → ColorMapping)
    (hcur : m.currentTheme = ThemePtr.entry A) (hA : Table.find m.themes A = some cm) :
    m.updateCurrent f = { m with themes := Table.assign m.themes A (f cm) } := by
  unfold ThemeManager.updateCurrent
  rw [hcur]
  simp [ThemeManager.theme, hA]

theorem ThemeManager.edits_entry (A : Str) (es : List Edit) :
    ∀ (m : ThemeManager) (cm : ColorMapping), m.currentTheme = ThemePtr.entry A →
      Table.find m.themes A = some cm →
      (m.edits es).currentTheme = ThemePtr.entry A ∧
      (m.edits es).defaultTheme = m.defaultTheme ∧
      (m.edits es).color_enabled = m.color_enabled ∧
      (m.edits es).list = m.list ∧
      Table.find (m.edits es).themes A
        = some (es.foldl (fun c e => e.onMapping c) cm) ∧
      (∀ B, B ≠ A → Table.find (m.edits es).themes B = Table.find m.themes B) := by
  induction es with
  | nil =>
    intro m cm hcur hA
    exact ⟨hcur, rfl, rfl, rfl, hA, fun _ _ => rfl⟩
  | cons e rest ih =>
    intro m cm hcur hA
    have hstep : m.edits (e :: rest) = (m.edit e).edits rest := rfl
    have he : m.edit e = { m with themes := Table.assign m.themes A (e.onMapping cm) } := by
      rw [ThemeManager.edit_eq_updateCurrent, ThemeManager.updateCurrent_entry m A cm _ hcur hA]
    obtain ⟨h1, h2, h3, h4, h5, h6⟩ :=
      ih (m.edit e) (e.onMapping cm) (by rw [he]; exact hcur)
        (by rw [he]; exact Table.find_assign_self _ _ _)
    rw [hstep]
    refine ⟨h1, ?_, ?_, ?_, ?_, ?_⟩
    · rw [h2, he]
    · rw [h3, he]
    · rw [h4, he]
      simp [ThemeManager.list, Table.keys_assign, hA]
    · rw [h5]; rfl
    · intro B hB
      rw [h6 B hB, he]
      exact Table.find_assign_ne _ _ _ _ hB

theorem ThemeManager.set_registered (m : ThemeManager) (B : Str) (cm : ColorMapping)
    (hB : Table.find m.themes B = some cm) :
    m.set B = { thrown := none, state := { m with currentTheme := ThemePtr.entry B } } := by
  simp [ThemeManager.set, hB]

/-- C15: after `set(A)` has returned normally, leaving the state `m`, any calls `es` of
`insert`, `replace` and `erase` change only the mapping of theme `A`: every other theme `B`
keeps its entry with all three tables, so for a registered `B` the result of `set(B)` then
`apply(text)` is as before the calls; the registered names, the member `defaultTheme` and
the enabled flag are unchanged; theme `A` holds the result of the calls, and after `set(B)`
followed by `set(A)` that result is in effect again. -/
theorem edits_change_only_current (m0 m : ThemeManager) (A : Str) (es : List Edit)
    (hset : m0.set A = { thrown := none, state := m }) :
    (∀ B, B ≠ A → Table.find (m.edits es).themes B = Table.find m.themes B) ∧
    (∀ B text, B ≠ A → B ∈ m.list →
      ((m.edits es).set B).state.apply text = (m.set B).state.apply text) ∧
    (m.edits es).list = m.list ∧
    (m.edits es).defaultTheme = m.defaultTheme ∧
    (m.edits es).color_enabled = m.color_enabled ∧
    (m.edits es).current = es.foldl (fun c e => e.onMapping c) m.current ∧
    (∀ B, B ∈ m.list →
      (((m.edits es).set B).state.set A).thrown = none ∧
      (((m.edits es).set B).state.set A).state.current = (m.edits es).current ∧
      ∀ text, (((m.edits es).set B).state.set A).state.apply text
        = (m.edits es).apply text) := by
  cases hA : Table.find m0.themes A with
  | none => simp [ThemeManager.set, hA] at hset
  | some cm =>
    rw [ThemeManager.set_registered m0 A cm hA] at hset
    have hm : m = { m0 with currentTheme := ThemePtr.entry A } := by
      injection hset with _ h
      exact h.symm
    have hcur : m.currentTheme = ThemePtr.entry A := by rw [hm]
    have hAm : Table.find m.themes A = some cm := by rw [hm]; exact hA
    obtain ⟨h1, h2, h3, h4, h5, h6⟩ := ThemeManager.edits_entry A es m cm hcur hAm
    have hcurrent : (m.edits es).current = es.foldl (fun c e => e.onMapping c) m.current := by
      simp [ThemeManager.current, h1, hcur, ThemeManager.theme, h5, hAm]
    refine ⟨h6, ?_, h4, h2, h3, hcurrent, ?_⟩
    · intro B text hBA hB
      have hBm : Table.find m.themes B ≠ none := (ThemeManager.mem_list_iff m B).1 hB
      cases hf : Table.find m.themes B with
      | none => exact absurd hf hBm
      | some cmB =>
        have hf2 : Table.find (m.edits es).themes B = some cmB := by rw [h6 B hBA, hf]
        rw [ThemeManager.set_registered _ B cmB hf2, ThemeManager.set_registered _ B cmB hf]
        simp [ThemeManager.apply, ThemeManager.current, ThemeManager.theme, hf, hf2, h3]
    · intro B hB
      have hBm : Table.find (m.edits es).themes B ≠ none := by
        rw [← ThemeManager.mem_list_iff, h4]; exact hB
      cases hf : Table.find (m.edits es).themes B with
      | none => exact absurd hf hBm
      | some cmB =>
        rw [ThemeManager.set_registered _ B cmB hf]
        have hA2 : Table.find ({ m.edits es with currentTheme := ThemePtr.entry B } :
            ThemeManager).themes A = some (es.foldl (fun c e => e.onMapping c) cm) := h5
        rw [ThemeManager.set_registered _ A _ hA2]
        refine ⟨rfl, ?_, ?_⟩
        · simp [ThemeManager.current, ThemeManager.theme, h1, h5]
        · intro text
          simp [ThemeManager.apply, ThemeManager.current, ThemeManager.theme, h1, h5]


theorem edits_change_only_current_witness :
    Table.find (((ThemeManager.init.create "a".toList).state.create "b".toList).state.set
        "a".toList).state.themes "b".toList = some ColorMapping.empty ∧
    ((((ThemeManager.init.create "a".toList).state.create "b".toList).state.set
        "a".toList).state.edits
      [Edit.insert "n".toList "[]".toList "\x1b[1m".toList false false,
        Edit.erase "[".toList]).list
      = (((ThemeManager.init.create "a".toList).state.create "b".toList).state.set
        "a".toList).state.list ∧
    Table.find ((((ThemeManager.init.create "a".toList).state.create "b".toList).state.set
        "a".toList).state.edits
      [Edit.insert "n".toList "[]".toList "\x1b[1m".toList false false,
        Edit.erase "[".toList]).themes "b".toList
      = Table.find (((ThemeManager.init.create "a".toList).state.create "b".toList).state.set
        "a".toList).state.themes "b".toList :=
  ⟨by decide,
    (edits_change_only_current
      ((ThemeManager.init.create "a".toList).state.create "b".toList).state
      (((ThemeManager.init.create "a".toList).state.create "b".toList).state.set
        "a".toList).state "a".toList
      [Edit.insert "n".toList "[]".toList "\x1b[1m".toList false false,
        Edit.erase "[".toList] rfl).2.2.1,
    (edits_change_only_current
      ((ThemeManager.init.create "a".toList).state.create "b".toList).state
      (((ThemeManager.init.create "a".toList).state.create "b".toList).state.set
        "a".toList).state "a".toList
      [Edit.insert "n".toList "[]".toList "\x1b[1m".toList false false,
        Edit.erase "[".toList] rfl).1 "b".toList (by decide)⟩

/-! ## ThemeManager: create and load -/

/-- C16: `create(name)` for an unregistered `name` returns normally and registers `name`
with empty char, key and value tables, so that under the new theme `apply` is the
identity; the names registered are the earlier ones and `name`; the current theme, the
enabled flag and every other theme's tables are unchanged. -/
theorem create_registers_empty (m : ThemeManager) (name : Str) (h : name ∉ m.list) :
    (m.create name).thrown = none ∧
    Table.find (m.create name).state.themes name = some ColorMapping.empty ∧
    (∀ text, ((m.create name).state.set name).state.apply text = text) ∧
    (∀ n, n ∈ (m.create name).state.list ↔ n ∈ m.list ∨ n = name) ∧
    (∀ B, B ≠ name → Table.find (m.create name).state.themes B = Table.find m.themes B) ∧
    (m.create name).state.currentTheme = m.currentTheme ∧
    (m.create name).state.current = m.current ∧
    (m.create name).state.defaultTheme = m.defaultTheme ∧
    (m.create name).state.color_enabled = m.color_enabled := by
  have hnone : Table.find m.themes name = none := by
    by_contra hne
    exact h ((ThemeManager.mem_list_iff m name).2 hne)
  have hc : m.create name
      = { thrown := none
          state := { m with themes := Table.assign m.themes name ColorMapping.empty } } := by
    simp [ThemeManager.create, hnone]
  have hfind : Table.find (Table.assign m.themes name ColorMapping.empty) name
      = some ColorMapping.empty := Table.find_assign_self _ _ _
  rw [hc]
  refine ⟨rfl, hfind, ?_, ?_, ?_, rfl, ?_, rfl, rfl⟩
  · intro text
    rw [ThemeManager.set_registered _ name ColorMapping.empty hfind]
    simp only [ThemeManager.apply, ThemeManager.current, ThemeManager.theme, hfind,
      Option.getD_some, apply_empty]
    split <;> rfl
  · intro n
    show n ∈ (Table.assign m.themes name ColorMapping.empty).map Prod.fst ↔ _
    rw [Table.keys_assign, hnone]
    simp only [Option.isNone_none, if_true, List.mem_append, List.mem_singleton,
      ThemeManager.list]
  · intro B hB
    exact Table.find_assign_ne _ _ _ _ hB
  · unfold ThemeManager.current
    cases hp : m.currentTheme with
    | defaultTheme => rfl
    | entry n =>
      simp only [ThemeManager.theme]
      by_cases hn : n = name
      · subst hn
        rw [hfind, hnone]
        rfl
      · rw [Table.find_assign_ne _ _ _ _ hn]

theorem create_registers_empty_witness :
    "dark".toList ∉ (themeWith "[]".toList "\x1b[1m".toList).list ∧
    ((themeWith "[]".toList "\x1b[1m".toList).create "dark".toList).thrown = none ∧
    Table.find ((themeWith "[]".toList "\x1b[1m".toList).create "dark".toList).state.themes
      "dark".toList = some ColorMapping.empty ∧
    ((themeWith "[]".toList "\x1b[1m".toList).create "dark".toList).state.current
      = (themeWith "[]".toList "\x1b[1m".toList).current :=
  ⟨by decide,
    (create_registers_empty (themeWith "[]".toList "\x1b[1m".toList) "dark".toList
      (by decide)).1,
    (create_registers_empty (themeWith "[]".toList "\x1b[1m".toList) "dark".toList
      (by decide)).2.1,
    (create_registers_empty (themeWith "[]".toList "\x1b[1m".toList) "dark".toList
      (by decide)).2.2.2.2.2.2.1⟩

/-- C17: `load(name, path)` throws when `path` cannot be opened for reading and throws when
`name` is already registered, and in either case leaves the manager state unchanged: no
theme is added, no table of an existing theme is modified, the current theme is the
same. -/
theorem load_failure_unchanged (m : ThemeManager) (fs : FileSystem) (name path : Str) :
    (fs.readable path = none →
      (m.load fs name path).thrown ≠ none ∧ (m.load fs name path).state = m) ∧
    (name ∈ m.list →
      (m.load fs name path).thrown ≠ none ∧ (m.load fs name path).state = m) := by
  constructor
  · intro hr
    simp [ThemeManager.load, hr]
  · intro hn
    have hsome : Table.find m.themes name ≠ none := (ThemeManager.mem_list_iff m name).1 hn
    cases hf : Table.find m.themes name with
    | none => exact absurd hf hsome
    | some cm =>
      cases hr : fs.readable path with
      | none => simp [ThemeManager.load, hr]
      | some content => simp [ThemeManager.load, hr, ThemeManager.create, hf]

theorem load_failure_unchanged_witness :
    (fsAllWritable.readable "f".toList = none ∧
      "default".toList ∈ (themeWith "[]".toList "\x1b[1m".toList).list) ∧
    ((themeWith "[]".toList "\x1b[1m".toList).load fsAllWritable "t2".toList
        "f".toList).state = themeWith "[]".toList "\x1b[1m".toList ∧
    ((themeWith "[]".toList "\x1b[1m".toList).load
        (fsAllWritable.write "f".toList "x:y\n".toList) "default".toList "f".toList).state
      = themeWith "[]".toList "\x1b[1m".toList :=
  ⟨by decide,
    ((load_failure_unchanged (themeWith "[]".toList "\x1b[1m".toList) fsAllWritable
      "t2".toList "f".toList).1 rfl).2,
    ((load_failure_unchanged (themeWith "[]".toList "\x1b[1m".toList)
      (fsAllWritable.write "f".toList "x:y\n".toList) "default".toList "f".toList).2
      (by decide)).2⟩


/-! ## The registry of themes -/

theorem ThemeManager.Grows.refl (m : ThemeManager) : ThemeManager.Grows m m :=
  ⟨List.prefix_refl _, fun h => h⟩

theorem ThemeManager.Grows.trans {m1 m2 m3 : ThemeManager} (h12 : ThemeManager.Grows m1 m2)
    (h23 : ThemeManager.Grows m2 m3) : ThemeManager.Grows m1 m3 :=
  ⟨h12.1.trans h23.1, fun h => h23.2 (h12.2 h)⟩

theorem ThemeManager.grows_of_list_eq (m1 m2 : ThemeManager) (h : m2.list = m1.list) :
    ThemeManager.Grows m1 m2 := by
  unfold ThemeManager.Grows
  rw [h]
  exact ⟨List.prefix_refl _, fun h => h⟩

theorem ThemeManager.grows_assign (m1 m2 : ThemeManager) (k : Str) (v : ColorMapping)
    (h : m2.themes = Table.assign m1.themes k v) : ThemeManager.Grows m1 m2 := by
  unfold ThemeManager.Grows ThemeManager.list
  rw [h, Table.keys_assign]
  cases hf : Table.find m1.themes k with
  | some cm => exact ⟨List.prefix_refl _, fun h => h⟩
  | none =>
    have hk : k ∉ m1.themes.map Prod.fst := (Table.find_eq_none_iff _ _).1 hf
    refine ⟨List.prefix_append _ _, fun hnd => ?_⟩
    simp only [Option.isNone_none, if_true]
    rw [List.nodup_append]
    refine ⟨hnd, List.nodup_singleton k, ?_⟩
    intro a ha hb
    rw [List.mem_singleton] at hb
    subst hb
    exact hk ha

theorem ThemeManager.grows_touch (m : ThemeManager) (n : Str) :
    ThemeManager.Grows m (m.touch n) := by
  unfold ThemeManager.touch
  split
  · exact ThemeManager.Grows.refl m
  · exact ThemeManager.grows_assign _ _ n ColorMapping.empty rfl

theorem ThemeManager.grows_updateCurrent (m : ThemeManager)
    (f : ColorMapping → ColorMapping) : ThemeManager.Grows m (m.updateCurrent f) := by
  unfold ThemeManager.updateCurrent
  split
  · exact ThemeManager.grows_of_list_eq _ _ rfl
  · exact ThemeManager.grows_assign _ _ _ _ rfl

theorem ThemeManager.grows_loadLine (m : ThemeManager) (n line : Str) :
    ThemeManager.Grows m (m.loadLine n line) := by
  unfold ThemeManager.loadLine
  split
  · exact ThemeManager.Grows.refl m
  · split
    · exact ThemeManager.Grows.refl m
    · exact (ThemeManager.grows_touch m n).trans (ThemeManager.grows_assign _ _ _ _ rfl)

theorem ThemeManager.grows_foldl_loadLine (n : Str) (lines : List Str) :
    ∀ m : ThemeManager,
      ThemeManager.Grows m (lines.foldl (fun st line => st.loadLine n line) m) := by
  induction lines with
  | nil => intro m; exact ThemeManager.Grows.refl m
  | cons l rest ih =>
    intro m
    exact (ThemeManager.grows_loadLine m n l).trans (ih _)

theorem ThemeManager.grows_editLoop (n : Str) (input : List Str) :
    ∀ m m1 : ThemeManager, ThemeManager.editLoop n m input = some m1 →
      ThemeManager.Grows m m1 := by
  induction input with
  | nil => intro m m1 h; simp [ThemeManager.editLoop] at h
  | cons l rest ih =>
    intro m m1 h
    unfold ThemeManager.editLoop at h
    split at h
    · cases h; exact ThemeManager.Grows.refl m
    · exact (ThemeManager.grows_loadLine m n l).trans (ih _ _ h)

theorem ThemeManager.grows_create (m : ThemeManager) (n : Str) :
    ThemeManager.Grows m (m.create n).state := by
  unfold ThemeManager.create
  split
  · exact ThemeManager.Grows.refl m
  · exact ThemeManager.grows_assign _ _ _ _ rfl

theorem ThemeManager.Step.grows {m m1 : ThemeManager} (h : ThemeManager.Step m m1) :
    ThemeManager.Grows m m1 := by
  cases h with
  | create name => exact ThemeManager.grows_create m name
  | set name =>
    unfold ThemeManager.set
    split
    · exact ThemeManager.Grows.refl m
    · exact ThemeManager.grows_of_list_eq _ _ rfl
  | insert name characters colorCode isKey isValue =>
    exact ThemeManager.grows_updateCurrent m _
  | replace characters colorCode => exact ThemeManager.grows_updateCurrent m _
  | erase characters => exact ThemeManager.grows_updateCurrent m _
  | save fs name path =>
    unfold ThemeManager.save
    split
    · exact ThemeManager.grows_touch m name
    · exact ThemeManager.Grows.refl m
  | load fs name path =>
    unfold ThemeManager.load
    split
    · exact ThemeManager.Grows.refl m
    · simp only []
      split
      · exact ThemeManager.grows_create m name
      · exact (ThemeManager.grows_create m name).trans
          (ThemeManager.grows_foldl_loadLine name _ _)
  | set_default =>
    exact (ThemeManager.grows_touch m _).trans (ThemeManager.grows_of_list_eq _ _ rfl)
  | enable_colormap => exact ThemeManager.grows_of_list_eq _ _ rfl
  | disable_colormap => exact ThemeManager.grows_of_list_eq _ _ rfl
  | interactive_edit_theme name input r hr =>
    unfold ThemeManager.interactive_edit_theme at hr
    split at hr
    · cases hr; exact ThemeManager.Grows.refl m
    · cases he : ThemeManager.editLoop name m input with
      | none => simp [he] at hr
      | some m2 =>
        simp only [he, Option.map_some', Option.some.injEq] at hr
        subst hr
        exact ThemeManager.grows_editLoop name input m m2 he

theorem ThemeManager.grows_of_steps {m m1 : ThemeManager}
    (h : Relation.ReflTransGen ThemeManager.Step m m1) : ThemeManager.Grows m m1 := by
  induction h with
  | refl => exact ThemeManager.Grows.refl m
  | tail _ hstep ih => exact ih.trans hstep.grows

theorem ThemeManager.Reachable.step {m m1 : ThemeManager} (hm : ThemeManager.Reachable m)
    (h : ThemeManager.Step m m1) : ThemeManager.Reachable m1 := by
  cases h with
  | create name => exact ThemeManager.Reachable.create m name hm
  | set name => exact ThemeManager.Reachable.set m name hm
  | insert name characters colorCode isKey isValue =>
    exact ThemeManager.Reachable.insert m name characters colorCode isKey isValue hm
  | replace characters colorCode => exact ThemeManager.Reachable.replace m _ _ hm
  | erase characters => exact ThemeManager.Reachable.erase m _ hm
  | save fs name path => exact ThemeManager.Reachable.save m fs name path hm
  | load fs name path => exact ThemeManager.Reachable.load m fs name path hm
  | set_default => exact ThemeManager.Reachable.set_default m hm
  | enable_colormap => exact ThemeManager.Reachable.enable_colormap m hm
  | disable_colormap => exact ThemeManager.Reachable.disable_colormap m hm
  | interactive_edit_theme name input r hr =>
    exact ThemeManager.Reachable.interactive_edit_theme m name input r hm hr

theorem ThemeManager.Reachable.steps {m m1 : ThemeManager} (hm : ThemeManager.Reachable m)
    (h : Relation.ReflTransGen ThemeManager.Step m m1) : ThemeManager.Reachable m1 := by
  induction h with
  | refl => exact hm
  | tail _ hstep ih => exact ih.step hstep

theorem ThemeManager.Reachable.steps_from_init {m : ThemeManager}
    (hm : ThemeManager.Reachable m) :
    Relation.ReflTransGen ThemeManager.Step ThemeManager.init m := by
  induction hm with
  | init => exact Relation.ReflTransGen.refl
  | create m name _ ih => exact ih.tail (ThemeManager.Step.create m name)
  | set m name _ ih => exact ih.tail (ThemeManager.Step.set m name)
  | insert m name characters colorCode isKey isValue _ ih =>
    exact ih.tail (ThemeManager.Step.insert m name characters colorCode isKey isValue)
  | replace m characters colorCode _ ih =>
    exact ih.tail (ThemeManager.Step.replace m characters colorCode)
  | erase m characters _ ih => exact ih.tail (ThemeManager.Step.erase m characters)
  | save m fs name path _ ih => exact ih.tail (ThemeManager.Step.save m fs name path)
  | load m fs name path _ ih => exact ih.tail (ThemeManager.Step.load m fs name path)
  | set_default m _ ih => exact ih.tail (ThemeManager.Step.set_default m)
  | enable_colormap m _ ih => exact ih.tail (ThemeManager.Step.enable_colormap m)
  | disable_colormap m _ ih => exact ih.tail (ThemeManager.Step.disable_colormap m)
  | interactive_edit_theme m name input r _ hr ih =>
    exact ih.tail (ThemeManager.Step.interactive_edit_theme m name input r hr)

theorem ThemeManager.create_ok_list (m : ThemeManager) (n : Str)
    (h : (m.create n).thrown = none) : (m.create n).state.list = m.list ++ [n] := by
  cases hf : Table.find m.themes n with
  | some cm => simp [ThemeManager.create, hf] at h
  | none =>
    have hc : (m.create n).state
        = { m with themes := Table.assign m.themes n ColorMapping.empty } := by
      simp [ThemeManager.create, hf]
    rw [hc]
    show (Table.assign m.themes n ColorMapping.empty).map Prod.fst = _
    rw [Table.keys_assign, hf]
    rfl

/-- C12: in every state reachable from construction by calls of `create`, `set`, `insert`,
`replace`, `erase`, `save`, `load`, `set_default`, `enable_colormap`, `disable_colormap`
and `interactive_edit_theme`, returning or throwing, the registry contains `"default"` and
`list()` has no name twice; further calls lead to reachable states that still hold every
name registered before; and three `create` calls that return normally on the initial state
make `list()` four distinct names. -/
theorem registry_invariant :
    (∀ m, ThemeManager.Reachable m → "default".toList ∈ m.list ∧ m.list.Nodup) ∧
    (∀ m m1, ThemeManager.Reachable m → Relation.ReflTransGen ThemeManager.Step m m1 →
      ThemeManager.Reachable m1 ∧ ∀ name, name ∈ m.list → name ∈ m1.list) ∧
    (∀ a b c, (ThemeManager.init.create a).thrown = none →
      ((ThemeManager.init.create a).state.create b).thrown = none →
      (((ThemeManager.init.create a).state.create b).state.create c).thrown = none →
      (∀ n, n ∈ (((ThemeManager.init.create a).state.create b).state.create c).state.list
        ↔ n = "default".toList ∨ n = a ∨ n = b ∨ n = c) ∧
      (((ThemeManager.init.create a).state.create b).state.create c).state.list.length = 4 ∧
      (((ThemeManager.init.create a).state.create b).state.create c).state.list.Nodup) := by
  have hinv : ∀ m, ThemeManager.Reachable m → "default".toList ∈ m.list ∧ m.list.Nodup := by
    intro m hm
    refine ⟨(ThemeManager.mem_list_iff m _).2 (ThemeManager.Reachable.default_registered m hm), ?_⟩
    exact (ThemeManager.grows_of_steps hm.steps_from_init).2 (by decide)
  refine ⟨hinv, ?_, ?_⟩
  · intro m m1 hm hs
    exact ⟨hm.steps hs, fun name hn => (ThemeManager.grows_of_steps hs).1.subset hn⟩
  · intro a b c ha hb hc
    have hl : (((ThemeManager.init.create a).state.create b).state.create c).state.list
        = ["default".toList, a, b, c] := by
      rw [ThemeManager.create_ok_list _ c hc, ThemeManager.create_ok_list _ b hb,
        ThemeManager.create_ok_list _ a ha]
      rfl
    refine ⟨fun n => by rw [hl]; simp, by rw [hl]; rfl, ?_⟩
    exact (hinv _ (ThemeManager.Reachable.create _ c (ThemeManager.Reachable.create _ b
      (ThemeManager.Reachable.create _ a ThemeManager.Reachable.init)))).2

theorem registry_invariant_witness :
    (((ThemeManager.init.create "a".toList).state.create "b".toList).state.create
        "c".toList).state.list.length = 4 ∧
    "default".toList ∈ ((ThemeManager.init.create "a".toList).state.set_default).list :=
  ⟨(registry_invariant.2.2 "a".toList "b".toList "c".toList rfl rfl rfl).2.1,
    (registry_invariant.1 _ (ThemeManager.Reachable.set_default _
      (ThemeManager.Reachable.create _ "a".toList ThemeManager.Reachable.init))).1⟩


/-! ## The default theme of a fresh manager -/

/-- C11: on a freshly constructed manager `currentTheme` is the member `defaultTheme`, not
the entry `themes["default"]`: after `insert("bracket", "[]", "\x1b[38;5;34m")` the binding
is in effect for `inspect_color` and `apply` but absent from `themes["default"]`,
`save("default", path)` writes an empty file, and after `set_default()` or
`set("default")` the binding is no longer in effect. -/
theorem fresh_insert_misses_default_entry :
    ThemeManager.init.currentTheme = ThemePtr.defaultTheme ∧
    (ThemeManager.init.insert "bracket".toList "[]".toList "\x1b[38;5;34m".toList
      false false).inspect_color '[' = some "\x1b[38;5;34m".toList ∧
    (ThemeManager.init.insert "bracket".toList "[]".toList "\x1b[38;5;34m".toList
      false false).apply "[x]".toList
      = "\x1b[38;5;34m[\x1b[0mx\x1b[38;5;34m]\x1b[0m".toList ∧
    Table.find (ThemeManager.init.insert "bracket".toList "[]".toList
      "\x1b[38;5;34m".toList false false).themes "default".toList
      = some ColorMapping.empty ∧
    ((ThemeManager.init.insert "bracket".toList "[]".toList "\x1b[38;5;34m".toList
      false false).save fsAllWritable "default".toList "f".toList).state.2.readable
      "f".toList = some [] ∧
    (ThemeManager.init.insert "bracket".toList "[]".toList "\x1b[38;5;34m".toList
      false false).set_default.inspect_color '[' = none ∧
    (ThemeManager.init.insert "bracket".toList "[]".toList "\x1b[38;5;34m".toList
      false false).set_default.apply "[x]".toList = "[x]".toList ∧
    ((ThemeManager.init.insert "bracket".toList "[]".toList "\x1b[38;5;34m".toList
      false false).set "default".toList).state.apply "[x]".toList = "[x]".toList ∧
    ThemeManager.init.set_default ≠ ThemeManager.init := by
  decide

/-! ## Loading a theme file -/

theorem findChar_colon (line : Str) :
    (':' ∉ line → findChar line ':' = none) ∧
    (':' ∈ line → ∃ pos, findChar line ':' = some pos ∧
      substr line (pos + 1) = (line.dropWhile (fun c => c ≠ ':')).tail) := by
  induction line with
  | nil => simp [findChar]
  | cons x xs ih =>
    by_cases hx : x = ':'
    · subst hx
      simp [findChar, substr]
    · have hx' : ¬ (':' = x) := fun e => hx e.symm
      constructor
      · intro h
        have hxs : ':' ∉ xs := fun h' => h (List.mem_cons_of_mem _ h')
        simp [findChar, hx, ih.1 hxs]
      · intro h
        have hxs : ':' ∈ xs := by
          rcases List.mem_cons.1 h with h' | h'
          · exact absurd h' hx'
          · exact h'
        obtain ⟨pos, hp, hs⟩ := ih.2 hxs
        refine ⟨pos + 1, by simp [findChar, hx, hp], ?_⟩
        simpa [substr, List.dropWhile, hx] using hs

theorem loadLine_lineBinding (m : ThemeManager) (name : Str) (cm : ColorMapping)
    (hm : Table.find m.themes name = some cm) (line : Str) :
    Table.find (m.loadLine name line).themes name
      = some { cm with
          charToColorCode := processLines lineBinding cm.charToColorCode [line] } := by
  cases line with
  | nil => simpa [ThemeManager.loadLine, processLines, lineBinding] using hm
  | cons ch rest =>
    by_cases hc : ':' ∈ ch :: rest
    · obtain ⟨pos, hp, hs⟩ := (findChar_colon (ch :: rest)).2 hc
      have hl : m.loadLine name (ch :: rest)
          = { m with
              themes := Table.assign m.themes name
                { cm with
                  charToColorCode := Table.assign cm.charToColorCode ch
                    (substr (ch :: rest) (pos + 1)) } } := by
        simp [ThemeManager.loadLine, hp, ThemeManager.touch, hm, ThemeManager.theme,
          ColorMapping.insert, ColorMapping.assignChars]
      rw [hl, hs]
      simp only [Table.find_assign_self, processLines, lineBinding, hc, if_true,
        List.head?_cons, List.foldl_cons, List.foldl_nil]
    · have hn := (findChar_colon (ch :: rest)).1 hc
      have hl : m.loadLine name (ch :: rest) = m := by
        simp [ThemeManager.loadLine, hn]
      rw [hl, hm]
      simp only [processLines, lineBinding, hc, if_false, List.foldl_cons, List.foldl_nil]

theorem foldl_loadLine_processLines (name : Str) (lines : List Str) :
    ∀ (m : ThemeManager) (cm : ColorMapping), Table.find m.themes name = some cm →
      Table.find (lines.foldl (fun st line => st.loadLine name line) m).themes name
        = some { cm with
            charToColorCode := processLines lineBinding cm.charToColorCode lines } := by
  induction lines with
  | nil => intro m cm hm; simpa [processLines] using hm
  | cons l rest ih =>
    intro m cm hm
    rw [List.foldl_cons, ih _ _ (loadLine_lineBinding m name cm hm l)]
    rfl

/-- C18 (as amended): when `path` can be read and `name` is not registered,
`load(name, path)` returns normally and the theme it creates has empty key and value
tables and the char table obtained by processing the lines of the file in order, starting
from the empty table, where an empty line or a line without `:` contributes nothing and
does not stop the processing of later lines, and every other line binds the first
character of the line to the text after its first `:`, a later line overwriting an
earlier one for the same character. -/
theorem load_charTable (m : ThemeManager) (fs : FileSystem) (name path content : Str)
    (hr : fs.readable path = some content) (hn : name ∉ m.list) :
    (m.load fs name path).thrown = none ∧
    Table.find (m.load fs name path).state.themes name
      = some { charToColorCode := processLines lineBinding [] (getlines content)
               keyToColorCode := []
               valueToColorCode := [] } ∧
    (∀ (t : Table Char Str) (l1 l2 : List Str) (line : Str), line = [] ∨ ':' ∉ line →
      processLines lineBinding t (l1 ++ line :: l2) = processLines lineBinding t (l1 ++ l2)) ∧
    (∀ (t : Table Char Str) (l1 : List Str) (ch : Char) (pre code : Str), ':' ∉ ch :: pre →
      Table.find (processLines lineBinding t (l1 ++ [ch :: pre ++ ':' :: code])) ch
        = some code) := by
  have hnone : Table.find m.themes name = none := by
    by_contra hne
    exact hn ((ThemeManager.mem_list_iff m name).2 hne)
  have hload : m.load fs name path
      = { thrown := none
          state := (getlines content).foldl (fun st line => st.loadLine name line)
            { m with themes := Table.assign m.themes name ColorMapping.empty } } := by
    simp [ThemeManager.load, hr, ThemeManager.create, hnone]
  refine ⟨by rw [hload], ?_, ?_, ?_⟩
  · rw [hload]
    exact foldl_loadLine_processLines name (getlines content)
      { m with themes := Table.assign m.themes name ColorMapping.empty } ColorMapping.empty
      (Table.find_assign_self _ _ _)
  · intro t l1 l2 line hline
    have hb : lineBinding line = none := by
      rcases hline with h | h
      · subst h; rfl
      · simp [lineBinding, h]
    simp [processLines, List.foldl_append, hb]
  · intro t l1 ch pre code hpre
    have hmem : ':' ∈ ch :: (pre ++ ':' :: code) := by simp
    have h1 : ∀ (p : Str), ':' ∉ p →
        (p ++ ':' :: code).dropWhile (fun c => decide (c ≠ ':')) = ':' :: code := by
      intro p hp
      induction p with
      | nil =>
        simp [List.dropWhile]
      | cons x xs ihx =>
        have hx : x ≠ ':' := fun e => hp (e ▸ List.mem_cons_self _ _)
        have hxs : ':' ∉ xs := fun h => hp (List.mem_cons_of_mem _ h)
        have hd : decide (x ≠ ':') = true := by simp [hx]
        rw [List.cons_append]
        simp only [List.dropWhile, hd]
        exact ihx hxs
    have hdrop : ((ch :: (pre ++ ':' :: code)).dropWhile (fun c => decide (c ≠ ':'))).tail
        = code := by
      have h2 := h1 (ch :: pre) hpre
      rw [List.cons_append] at h2
      rw [h2]
      rfl
    have hb : lineBinding (ch :: (pre ++ ':' :: code)) = some (ch, code) := by
      simp only [lineBinding, hmem, if_true, hdrop]
      rfl
    rw [List.cons_append]
    simp only [processLines, List.foldl_append, List.foldl_cons, List.foldl_nil, hb]
    exact Table.find_assign_self _ _ _

theorem load_charTable_counterexample :
    ((ThemeManager.init.load (fsAllWritable.write "f".toList "ab:X\n".toList) "t".toList
      "f".toList).state.theme "t".toList).charToColorCode = [('a', "X".toList)] ∧
    processLines lineBindingStated [] (getlines "ab:X\n".toList) = [('b', "X".toList)] ∧
    ((ThemeManager.init.load (fsAllWritable.write "f".toList "ab:X\n".toList) "t".toList
      "f".toList).state.theme "t".toList).inspect_color 'b' = none := by
  decide

theorem load_charTable_witness :
    ((fsAllWritable.write "f".toList "ab:X\n\nzz\nc:Y\na:Z:W".toList).readable "f".toList
        = some "ab:X\n\nzz\nc:Y\na:Z:W".toList ∧
      "t".toList ∉ ThemeManager.init.list) ∧
    Table.find (ThemeManager.init.load
        (fsAllWritable.write "f".toList "ab:X\n\nzz\nc:Y\na:Z:W".toList) "t".toList
        "f".toList).state.themes "t".toList
      = some { charToColorCode :=
                 processLines lineBinding [] (getlines "ab:X\n\nzz\nc:Y\na:Z:W".toList)
               keyToColorCode := []
               valueToColorCode := [] } :=
  ⟨by decide,
    (load_charTable ThemeManager.init
      (fsAllWritable.write "f".toList "ab:X\n\nzz\nc:Y\na:Z:W".toList) "t".toList "f".toList
      "ab:X\n\nzz\nc:Y\na:Z:W".toList (by decide) (by decide)).2.1⟩

/-! ## Custom colors from predefined ones -/

/-- C19: `set_custom_color_predefined(name, p)` binds `name` in the custom color registry
to exactly the predefined table's code for `p` when `p` is a predefined name, whatever
`name` was bound to, and leaves every other custom color as it was; when `p` is not a
predefined name the registry and the flags are unchanged; in both cases the predefined
table is unchanged; and `("error_new", "bold_red")` registers `"\x1b[1;31m"`. -/
theorem set_custom_color_predefined_copies (colors : Table Str Str) (gl : Globals)
    (name p : Str) :
    (∀ code, Table.find colors p = some code →
      Table.find (set_custom_color_predefined colors gl name p).globals.custom_defined_colors
        name = some code ∧
      (∀ n, n ≠ name →
        Table.find (set_custom_color_predefined colors gl name p).globals.custom_defined_colors
          n = Table.find gl.custom_defined_colors n) ∧
      (set_custom_color_predefined colors gl name p).globals.is_global_colored
        = gl.is_global_colored ∧
      (set_custom_color_predefined colors gl name p).globals.is_global_themed
        = gl.is_global_themed) ∧
    (Table.find colors p = none →
      (set_custom_color_predefined colors gl name p).globals = gl) ∧
    (set_custom_color_predefined colors gl name p).predefined = colors ∧
    Table.find (set_custom_color_predefined predefined_colors gl "error_new".toList
      "bold_red".toList).globals.custom_defined_colors "error_new".toList
      = some "\x1b[1;31m".toList ∧
    (set_custom_color_predefined predefined_colors gl "error_new".toList
      "bold_red".toList).predefined = predefined_colors := by
  have hsome : ∀ (cs : Table Str Str) (g : Globals) (n q code : Str),
      Table.find cs q = some code →
      set_custom_color_predefined cs g n q
        = { predefined := cs
            globals :=
              { g with custom_defined_colors := Table.assign g.custom_defined_colors n code }
            cerr := [] } := by
    intro cs g n q code h
    simp [set_custom_color_predefined, Table.subscript, h]
  have hbold : Table.find predefined_colors "bold_red".toList = some "\x1b[1;31m".toList := by
    decide
  refine ⟨?_, ?_, ?_, ?_, ?_⟩
  · intro code h
    rw [hsome colors gl name p code h]
    exact ⟨Table.find_assign_self _ _ _, fun n hn => Table.find_assign_ne _ _ _ _ hn, rfl, rfl⟩
  · intro h
    simp [set_custom_color_predefined, h]
  · cases h : Table.find colors p with
    | some code => rw [hsome colors gl name p code h]
    | none => simp [set_custom_color_predefined, h]
  · rw [hsome _ gl _ _ _ hbold]
    exact Table.find_assign_self _ _ _
  · rw [hsome _ gl _ _ _ hbold]

theorem set_custom_color_predefined_copies_witness :
    Table.find (set_custom_color_predefined predefined_colors
      (set_custom_color Globals.init "error_new".toList "old".toList) "error_new".toList
      "bold_red".toList).globals.custom_defined_colors "error_new".toList
      = some "\x1b[1;31m".toList ∧
    (set_custom_color_predefined predefined_colors Globals.init "x".toList
      "no_such_color".toList).globals = Globals.init :=
  ⟨((set_custom_color_predefined_copies predefined_colors
      (set_custom_color Globals.init "error_new".toList "old".toList) "error_new".toList
      "bold_red".toList).1 "\x1b[1;31m".toList (by decide)).1,
    (set_custom_color_predefined_copies predefined_colors Globals.init "x".toList
      "no_such_color".toList).2.1 (by decide)⟩

/-! ## `apply` and concatenation -/

theorem applyLoop_flag_irrelevant (m : ColorMapping)
    (hkv : m.keyToColorCode = m.valueToColorCode) (text : Str) :
    ∀ (k1 k2 : Bool) (oss : Str),
      ColorMapping.applyLoop m k1 oss text = ColorMapping.applyLoop m k2 oss text := by
  have hp : ∀ (k1 k2 : Bool) (ch : Char), loopPiece m k1 ch = loopPiece m k2 ch := by
    intro k1 k2 ch
    have hkey : m.apply_key_color [ch] = m.apply_value_color [ch] := by
      simp only [ColorMapping.apply_key_color, ColorMapping.apply_value_color, hkv]
    cases k1 <;> cases k2 <;> simp [loopPiece, hkey]
  induction text with
  | nil => intro k1 k2 oss; rfl
  | cons ch rest ih =>
    intro k1 k2 oss
    rw [applyLoop_cons, applyLoop_cons,
      hp (if ch = ':' then false else k1) (if ch = ':' then false else k2) ch]
    exact ih _ _ _

/-- C30: `ColorMapping::apply` distributes over concatenation when the prefix has no
colon: `apply(a ++ b) = apply(a) ++ apply(b)` for every mapping when `:` does not occur in
`a`; for a mapping whose key table and value table are equal this holds for all `a` and
`b`; `apply("") = ""`; and `apply(text) = text` when all three tables are empty. -/
theorem apply_append (m : ColorMapping) (a b : Str) :
    (':' ∉ a → m.apply (a ++ b) = m.apply a ++ m.apply b) ∧
    (m.keyToColorCode = m.valueToColorCode → m.apply (a ++ b) = m.apply a ++ m.apply b) ∧
    m.apply [] = [] ∧
    (m.charToColorCode = [] → m.keyToColorCode = [] → m.valueToColorCode = [] →
      m.apply a = a) := by
  have hsplit : m.apply (a ++ b)
      = m.apply a ++ ColorMapping.applyLoop m (decide (':' ∉ a)) [] b := by
    rw [apply_eq_piecesFrom, apply_eq_piecesFrom, piecesFrom_append,
      applyLoop_eq_piecesFrom, List.nil_append]
  refine ⟨?_, ?_, rfl, ?_⟩
  · intro ha
    rw [hsplit]
    simp only [ha, not_false_eq_true, decide_True]
    rfl
  · intro hkv
    rw [hsplit, applyLoop_flag_irrelevant m hkv b (decide (':' ∉ a)) true []]
    rfl
  · intro hc hk hv
    have hm : m = ColorMapping.empty := by
      cases m
      simp only [ColorMapping.empty] at *
      simp [hc, hk, hv]
    rw [hm]
    exact apply_empty a

theorem apply_append_witness :
    ':' ∉ "[k]".toList ∧
    (ColorMapping.empty.insert "b".toList "[]".toList "\x1b[1m".toList false false).apply
        ("[k]".toList ++ ": [v]".toList)
      = (ColorMapping.empty.insert "b".toList "[]".toList "\x1b[1m".toList false false).apply
          "[k]".toList
        ++ (ColorMapping.empty.insert "b".toList "[]".toList "\x1b[1m".toList
          false false).apply ": [v]".toList :=
  ⟨by decide,
    (apply_append (ColorMapping.empty.insert "b".toList "[]".toList "\x1b[1m".toList
      false false) "[k]".toList ": [v]".toList).1 (by decide)⟩

/-! ## The color macros -/

set_option maxRecDepth 100000 in
theorem decimal3_digits : ∀ n, n < 256 →
    (decimal3 n).length = 3 ∧ (decimal3 n).all Char.isDigit = true ∧
      decimalValue (decimal3 n) = n := by
  decide

set_option maxRecDepth 100000 in
theorem digitsColor_eq_decimal3 : ∀ n, n < 256 →
    [digit (n / 100), digit ((n / 10) % 10), digit (n % 10)] = decimal3 n := by
  decide

theorem decimal3_injective (n n2 : Nat) (hn : n < 256) (hn2 : n2 < 256)
    (h : decimal3 n = decimal3 n2) : n = n2 := by
  rw [← (decimal3_digits n hn).2.2, ← (decimal3_digits n2 hn2).2.2, h]

/-- Expansions whose arguments are not the identifiers `r_mod`, `g_mod`, `b_mod`: for all
`r`, `g`, `b` in 0..255 and type digit `t`, with the check on, `APPLY_RGB_COLOR_MACRO`,
`APPLY_COLOR_MACRO` and `APPLY_RGB_COLOR_MACRO_TO_STRING` all produce the same 19 bytes
`ESC [ t 8 ; 2 ; RRR ; GGG ; BBB m`, and for every `n` in 0..255 `APPLY_8BIT_COLOR_MACRO`
produces the 11 bytes `ESC [ t 8 ; 5 ; NNN m`, where each field is exactly three decimal
digits whose value is the input; so the output fits the 19-byte and 11-byte buffers, and
distinct inputs give distinct sequences. -/
theorem macros_fixed_width (gl : Globals) (r g b n : Nat) (t : Char) (stream : Str)
    (hc : CHECK_COLOR_AND_THEME gl = true)
    (hr : r < 256) (hg : g < 256) (hb : b < 256) (hn : n < 256) :
    APPLY_RGB_COLOR_MACRO gl r g b t
      = ['\x1b', '[', t, '8', ';', '2', ';'] ++ decimal3 r ++ [';'] ++ decimal3 g ++ [';']
        ++ decimal3 b ++ ['m'] ∧
    APPLY_COLOR_MACRO gl r g b t = APPLY_RGB_COLOR_MACRO gl r g b t ∧
    APPLY_RGB_COLOR_MACRO_TO_STRING gl stream r g b t = APPLY_RGB_COLOR_MACRO gl r g b t ∧
    (APPLY_RGB_COLOR_MACRO gl r g b t).length = 19 ∧
    APPLY_8BIT_COLOR_MACRO gl n [t]
      = ['\x1b', '[', t, '8', ';', '5', ';'] ++ decimal3 n ++ ['m'] ∧
    (APPLY_8BIT_COLOR_MACRO gl n [t]).length = 11 ∧
    ((decimal3 r).length = 3 ∧ (decimal3 r).all Char.isDigit = true ∧
      decimalValue (decimal3 r) = r) ∧
    ((decimal3 g).length = 3 ∧ (decimal3 g).all Char.isDigit = true ∧
      decimalValue (decimal3 g) = g) ∧
    ((decimal3 b).length = 3 ∧ (decimal3 b).all Char.isDigit = true ∧
      decimalValue (decimal3 b) = b) ∧
    ((decimal3 n).length = 3 ∧ (decimal3 n).all Char.isDigit = true ∧
      decimalValue (decimal3 n) = n) ∧
    (∀ r2 g2 b2, r2 < 256 → g2 < 256 → b2 < 256 →
      APPLY_RGB_COLOR_MACRO gl r g b t = APPLY_RGB_COLOR_MACRO gl r2 g2 b2 t →
      r = r2 ∧ g = g2 ∧ b = b2) ∧
    (∀ n2, n2 < 256 →
      APPLY_8BIT_COLOR_MACRO gl n [t] = APPLY_8BIT_COLOR_MACRO gl n2 [t] → n = n2) := by
  have hrgb : ∀ r g b, r < 256 → g < 256 → b < 256 →
      APPLY_RGB_COLOR_MACRO gl r g b t
        = ['\x1b', '[', t, '8', ';', '2', ';'] ++ decimal3 r ++ [';'] ++ decimal3 g ++ [';']
          ++ decimal3 b ++ ['m'] := by
    intro r g b hr hg hb
    rw [APPLY_RGB_COLOR_MACRO_eq gl r g b t hc hr hg hb]
    rfl
  have h8 : ∀ n, n < 256 →
      APPLY_8BIT_COLOR_MACRO gl n [t]
        = ['\x1b', '[', t, '8', ';', '5', ';'] ++ decimal3 n ++ ['m'] := by
    intro n hn
    rw [APPLY_8BIT_COLOR_MACRO_eq gl n [t] hc hn]
    rfl
  have hcol : APPLY_COLOR_MACRO gl r g b t
      = ['\x1b', '[', t, '8', ';', '2', ';'] ++ decimal3 r ++ [';'] ++ decimal3 g ++ [';']
        ++ decimal3 b ++ ['m'] := by
    rw [← digitsColor_eq_decimal3 r hr, ← digitsColor_eq_decimal3 g hg,
      ← digitsColor_eq_decimal3 b hb]
    simp [APPLY_COLOR_MACRO, hc]
  have hstr : APPLY_RGB_COLOR_MACRO_TO_STRING gl stream r g b t
      = ['\x1b', '[', t, '8', ';', '2', ';'] ++ decimal3 r ++ [';'] ++ decimal3 g ++ [';']
        ++ decimal3 b ++ ['m'] := by
    rw [APPLY_RGB_COLOR_MACRO_TO_STRING_eq gl stream r g b t hc hr hg hb]
    rfl
  have hlen3 : ∀ k, k < 256 → (decimal3 k).length = 3 := fun k hk => (decimal3_digits k hk).1
  refine ⟨hrgb r g b hr hg hb, by rw [hcol, hrgb r g b hr hg hb],
    by rw [hstr, hrgb r g b hr hg hb], ?_, h8 n hn, ?_, decimal3_digits r hr,
    decimal3_digits g hg, decimal3_digits b hb, decimal3_digits n hn, ?_, ?_⟩
  · rw [hrgb r g b hr hg hb]
    simp [hlen3 r hr, hlen3 g hg, hlen3 b hb]
  · rw [h8 n hn]
    simp [hlen3 n hn]
  · intro r2 g2 b2 hr2 hg2 hb2 h
    rw [hrgb r g b hr hg hb, hrgb r2 g2 b2 hr2 hg2 hb2] at h
    simp only [List.append_assoc, List.cons_append, List.nil_append, List.cons.injEq,
      true_and] at h
    have h1 := List.append_inj h (by rw [hlen3 r hr, hlen3 r2 hr2])
    have h2 := List.append_inj (List.cons.inj h1.2).2 (by rw [hlen3 g hg, hlen3 g2 hg2])
    have h3 := List.append_inj (List.cons.inj h2.2).2 (by rw [hlen3 b hb, hlen3 b2 hb2])
    exact ⟨decimal3_injective r r2 hr hr2 h1.1, decimal3_injective g g2 hg hg2 h2.1,
      decimal3_injective b b2 hb hb2 h3.1⟩
  · intro n2 hn2 h
    rw [h8 n hn, h8 n2 hn2] at h
    simp only [List.append_assoc, List.cons_append, List.nil_append, List.cons.injEq,
      true_and] at h
    have h1 := List.append_inj h (by rw [hlen3 n hn, hlen3 n2 hn2])
    exact decimal3_injective n n2 hn hn2 h1.1

theorem macros_fixed_width_witness :
    APPLY_COLOR_MACRO Globals.init 255 165 0 '3' = "\x1b[38;2;255;165;000m".toList ∧
    (APPLY_8BIT_COLOR_MACRO Globals.init 9 ['4']).length = 11 :=
  ⟨((macros_fixed_width Globals.init 255 165 0 9 '3' [] rfl (by decide) (by decide)
      (by decide) (by decide)).2.1).trans (by decide),
    (macros_fixed_width Globals.init 255 165 0 9 '4' [] rfl (by decide) (by decide)
      (by decide) (by decide)).2.2.2.2.2.1⟩

/-- C29: where `APPLY_RGB_COLOR_MACRO` is expanded with arguments named `r_mod`, `g_mod`,
`b_mod`, as in `bg_color<r, g, b>` and the stream overload of
`apply_rgb_background_color`, only the hundreds digit of each field comes from the input:
the macro reads its own uninitialized `r_mod`, `g_mod`, `b_mod` for the other digits. The
19 bytes written are the same for `(r, g, b)` and for the channels rounded down to a
multiple of 100, whatever the indeterminate values are, so the fields do not have the
value of the input and distinct inputs give the same sequence: for (255, 165, 0), with
the indeterminate values 0, the fields are `200;100;000`, as they are for (200, 100, 0),
while a hygienic expansion writes `255;165;000`. -/
theorem rgb_macro_shadowed_fields (gl : Globals) (r g b : Nat) (ur ug ub : Int) (t : Char) :
    APPLY_RGB_COLOR_MACRO_shadowed gl r g b ur ug ub t
      = APPLY_RGB_COLOR_MACRO_shadowed gl (r / 100 * 100) (g / 100 * 100) (b / 100 * 100)
          ur ug ub t ∧
    bg_color_rgb gl 255 165 0 ur ug ub = bg_color_rgb gl 200 100 0 ur ug ub ∧
    apply_rgb_background_color gl 255 165 0 ur ug ub
      = apply_rgb_background_color gl 200 100 0 ur ug ub ∧
    bg_color_rgb Globals.init 255 165 0 0 0 0 = "\x1b[48;2;200;100;000m".toList ∧
    bg_color_rgb Globals.init 200 100 0 0 0 0 = "\x1b[48;2;200;100;000m".toList ∧
    apply_rgb_background_color Globals.init 255 165 0 0 0 0
      = "\x1b[48;2;200;100;000m".toList ∧
    APPLY_RGB_COLOR_MACRO Globals.init 255 165 0 '4' = "\x1b[48;2;255;165;000m".toList ∧
    decimalValue ((bg_color_rgb Globals.init 255 165 0 0 0 0).drop 7 |>.take 3) = 200 ∧
    decimalValue ((bg_color_rgb Globals.init 255 165 0 0 0 0).drop 11 |>.take 3) = 100 := by
  have hdiv : ∀ n : Nat, n / 100 * 100 / 100 = n / 100 :=
    fun n => Nat.mul_div_cancel (n / 100) (by decide)
  have hgen : ∀ (gl : Globals) (r g b : Nat) (t : Char),
      APPLY_RGB_COLOR_MACRO_shadowed gl r g b ur ug ub t
        = APPLY_RGB_COLOR_MACRO_shadowed gl (r / 100 * 100) (g / 100 * 100) (b / 100 * 100)
            ur ug ub t := by
    intro gl r g b t
    simp only [APPLY_RGB_COLOR_MACRO_shadowed, hdiv]
  refine ⟨hgen gl r g b t, ?_, ?_, by decide, by decide, by decide, by decide, by decide,
    by decide⟩
  · simp only [bg_color_rgb]
    rw [hgen gl 255 165 0 '4', hgen gl 200 100 0 '4']
  · simp only [apply_rgb_background_color]
    rw [hgen gl 255 165 0 '4', hgen gl 200 100 0 '4']

/-! ## `scope_guard` -/

/-- C25: `scope_guard(code)` dismisses its guard before the guard is destroyed, so for
every callable `code` and every program state the callable is invoked zero times and the
state is left as it was. -/
theorem scope_guard_never_invokes {σ : Type} (code : σ → σ) (s : σ) :
    scope_guard code s = (s, 0) ∧ (scope_guard code s).2 ≠ 1 ∧
    (scope_guard (fun n : Nat => n + 1) 0).1 = 0 := by
  refine ⟨rfl, ?_, rfl⟩
  show (0 : Nat) ≠ 1
  decide

/-! ## `save` and the registry -/

theorem save_unchanged_of_registered_or_unwritable (m : ThemeManager) (fs : FileSystem)
    (name path : Str) (h : name ∈ m.list ∨ fs.writable path = false) :
    (m.save fs name path).state.1 = m := by
  by_cases hw : fs.writable path = true
  · rcases h with hn | hf
    · have hsome : Table.find m.themes name ≠ none := (ThemeManager.mem_list_iff m name).1 hn
      cases hf : Table.find m.themes name with
      | none => exact absurd hf hsome
      | some cm => simp [ThemeManager.save, hw, ThemeManager.touch, hf]
    · rw [hf] at hw
      cases hw
  · simp [ThemeManager.save, hw]

/-- C27: `save(name, path)` with an unregistered `name` and a path that opens registers
`name`: on a fresh manager `save("ghost", path)` returns normally, `list()` then holds
`"ghost"` as well, an empty file is written, and a following `create("ghost")` throws. -/
theorem save_registers_unregistered_name :
    ThemeManager.init.list = ["default".toList] ∧
    (ThemeManager.init.save fsAllWritable "ghost".toList "f".toList).thrown = none ∧
    (ThemeManager.init.save fsAllWritable "ghost".toList "f".toList).state.1.list
      = ["default".toList, "ghost".toList] ∧
    (ThemeManager.init.save fsAllWritable "ghost".toList "f".toList).state.1
      ≠ ThemeManager.init ∧
    (ThemeManager.init.save fsAllWritable "ghost".toList "f".toList).state.2.readable
      "f".toList = some [] ∧
    (ThemeManager.init.create "ghost".toList).thrown = none ∧
    ((ThemeManager.init.save fsAllWritable "ghost".toList "f".toList).state.1.create
      "ghost".toList).thrown = some "Theme already exists: ghost".toList := by
  decide

/-! ## The restricted round trip -/

theorem Table.find_eq_some_iff_mem {κ ν : Type} [DecidableEq κ] (t : Table κ ν)
    (hwf : Table.WF t) (k : κ) (v : ν) : Table.find t k = some v ↔ (k, v) ∈ t := by
  induction t with
  | nil => simp [Table.find]
  | cons e t ih =>
    obtain ⟨k₀, v₀⟩ := e
    have hnd : k₀ ∉ t.map Prod.fst ∧ (t.map Prod.fst).Nodup := by
      simpa [Table.WF] using hwf
    by_cases h : k₀ = k
    · subst h
      constructor
      · intro hf
        simp only [Table.find, if_true, Option.some.injEq] at hf
        subst hf
        exact List.mem_cons_self _ _
      · intro hm
        rcases List.mem_cons.1 hm with heq | hmem
        · cases heq
          simp [Table.find]
        · exact absurd (List.mem_map_of_mem Prod.fst hmem) hnd.1
    · have h' : ¬ ((k, v) = (k₀, v₀)) := by
        intro heq
        cases heq
        exact h rfl
      simp only [Table.find, h, if_false, ih hnd.2, List.mem_cons, h', false_or]

theorem Table.find_perm {κ ν : Type} [DecidableEq κ] (t1 t2 : Table κ ν)
    (hwf : Table.WF t1) (hp : t1.Perm t2) (k : κ) : Table.find t1 k = Table.find t2 k := by
  have hwf2 : Table.WF t2 := (List.Perm.nodup_iff (hp.map Prod.fst)).1 hwf
  cases h1 : Table.find t1 k with
  | some v =>
    have hm : (k, v) ∈ t2 := hp.subset ((Table.find_eq_some_iff_mem t1 hwf k v).1 h1)
    exact ((Table.find_eq_some_iff_mem t2 hwf2 k v).2 hm).symm
  | none =>
    cases h2 : Table.find t2 k with
    | none => rfl
    | some v =>
      have hm : (k, v) ∈ t1 := hp.symm.subset ((Table.find_eq_some_iff_mem t2 hwf2 k v).1 h2)
      rw [(Table.find_eq_some_iff_mem t1 hwf k v).2 hm] at h1
      cases h1

/-- C26: let the char table of a registered theme `t` bind what the table `orig` binds,
with no key `:` or newline and no code containing a newline, and let `save` write its
entries in any order (the char table is any permutation of `orig`). Then `save(t, path)`
on a writable path followed by `load(t2, path)` with `t2` unregistered gives `t2` a char
table that binds every character as `orig` does. Codes may contain `:` or be empty: a
theme with `a -> "X:Y"` and `b -> ""` comes back as it was. -/
theorem restricted_roundtrip_any_order (m : ThemeManager) (fs : FileSystem)
    (t t2 path : Str) (cm : ColorMapping) (orig : Table Char Str)
    (ht : Table.find m.themes t = some cm)
    (ht2 : Table.find m.themes t2 = none)
    (hw : fs.writable path = true)
    (hperm : cm.charToColorCode.Perm orig)
    (hwf : Table.WF orig)
    (hkeys : ∀ e ∈ orig, e.1 ≠ ':' ∧ e.1 ≠ '\n')
    (hcodes : ∀ e ∈ orig, '\n' ∉ e.2) :
    (∃ cm2,
      Table.find ((m.save fs t path).state.1.load (m.save fs t path).state.2 t2
        path).state.themes t2 = some cm2 ∧
      ∀ c, Table.find cm2.charToColorCode c = Table.find orig c) ∧
    (ThemeManager.theme themeWithColonCode "t".toList).charToColorCode
      = [('a', "X:Y".toList), ('b', [])] ∧
    (ThemeManager.theme (roundTrip themeWithColonCode) "t2".toList).charToColorCode
      = [('a', "X:Y".toList), ('b', [])] := by
  refine ⟨?_, by decide, by decide⟩
  have hwf1 : Table.WF cm.charToColorCode :=
    (List.Perm.nodup_iff (hperm.map Prod.fst)).2 hwf
  have hkeys1 : ∀ e ∈ cm.charToColorCode, e.1 ≠ ':' ∧ e.1 ≠ '\n' :=
    fun e he => hkeys e (hperm.subset he)
  have hcodes1 : ∀ e ∈ cm.charToColorCode, '\n' ∉ e.2 :=
    fun e he => hcodes e (hperm.subset he)
  have hsave : m.save fs t path
      = { thrown := none
          state := (m, fs.write path (ThemeManager.writeEntries cm.charToColorCode)) } := by
    simp [ThemeManager.save, hw, ThemeManager.touch, ht, ThemeManager.theme, ColorMapping.get]
  have hlines := getlines_writeEntries cm.charToColorCode (fun e he => (hkeys1 e he).2) hcodes1
  have hload : (m.load (fs.write path (ThemeManager.writeEntries cm.charToColorCode)) t2 path)
      = { thrown := none
          state := (cm.charToColorCode.map (fun e => e.1 :: ':' :: e.2)).foldl
            (fun st line => st.loadLine t2 line)
            { m with themes := Table.assign m.themes t2 ColorMapping.empty } } := by
    simp [ThemeManager.load, FileSystem.write, ThemeManager.create, ht2, hlines]
  rw [hsave]
  simp only [hload]
  refine ⟨_, foldl_loadLine_entries t2 cm.charToColorCode (fun e he => (hkeys1 e he).1) _ _
    (Table.find_assign_self _ _ _), ?_⟩
  intro c
  simp only [ColorMapping.empty]
  have hnone : ∀ e ∈ cm.charToColorCode, Table.find ([] : Table Char Str) e.1 = none :=
    fun _ _ => rfl
  rw [Table.foldl_assign_eq_append _ _ hnone hwf1, List.nil_append]
  exact Table.find_perm _ _ hwf1 hperm c

theorem restricted_roundtrip_any_order_witness :
    ∃ cm2,
      Table.find ((themeWithColonCode.save fsAllWritable "t".toList "f".toList).state.1.load
        (themeWithColonCode.save fsAllWritable "t".toList "f".toList).state.2 "t2".toList
        "f".toList).state.themes "t2".toList = some cm2 ∧
      ∀ c, Table.find cm2.charToColorCode c
        = Table.find [('b', ([] : Str)), ('a', "X:Y".toList)] c :=
  (restricted_roundtrip_any_order themeWithColonCode fsAllWritable "t".toList "t2".toList
    "f".toList ⟨[('a', "X:Y".toList), ('b', [])], [], []⟩
    [('b', []), ('a', "X:Y".toList)] (by decide) (by decide) (by decide)
    (List.Perm.swap _ _ _) (by decide) (by decide) (by decide)).1

/-! ## `set_color` -/

/-- C21: `set_color(stream, r, g, b)` does not obey the global enable flag. Whatever the
global flags are, it writes nothing to a stream on which `enable` was never called (or
`disable` was called last), and it writes `ESC "[38;2;" r ";" g ";" b "m"`, the channels
taken modulo 256 in variable-width decimal, to a stream on which `enable` was called: with
global color enabled `set_color(stream, 255, 0, 0)` on a new stream writes nothing, and
with global color disabled it writes `"\x1b[38;2;255;0;0m"` to an enabled stream. Its twin
`set_background_color` tests the global flags. -/
theorem set_color_ignores_global_flag (gl : Globals) (stream : OStream) (r g b : Nat) :
    set_color gl OStream.fresh r g b = [] ∧
    set_color gl (disable stream) r g b = [] ∧
    set_color gl (enable stream) r g b
      = "\x1b[38;2;".toList ++ decimal (r % 256) ++ ";".toList ++ decimal (g % 256)
        ++ ";".toList ++ decimal (b % 256) ++ "m".toList ∧
    set_color gl (enable stream) r g b ≠ [] ∧
    set_color gl stream r g b = set_color Globals.init stream r g b ∧
    (CHECK_COLOR_AND_THEME Globals.init = true ∧
      set_color Globals.init OStream.fresh 255 0 0 = []) ∧
    (CHECK_COLOR_AND_THEME (disable_global_color Globals.init) = false ∧
      set_color (disable_global_color Globals.init) (enable OStream.fresh) 255 0 0
        = "\x1b[38;2;255;0;0m".toList) ∧
    (set_background_color Globals.init 255 0 0 = "\x1b[48;2;255;0;0m".toList ∧
      set_background_color (disable_global_color Globals.init) 255 0 0 = []) ∧
    set_color gl (enable stream) 300 256 511 = "\x1b[38;2;44;0;255m".toList := by
  refine ⟨?_, ?_, ?_, ?_, rfl, by decide, by decide, by decide, ?_⟩
  · simp [set_color, OStream.fresh, is_stream_colored]
  · simp [set_color, disable, is_stream_colored]
  · simp [set_color, enable, is_stream_colored]
  · simp [set_color, enable, is_stream_colored]
  · show set_color Globals.init (enable OStream.fresh) 300 256 511
      = "\x1b[38;2;44;0;255m".toList
    decide

/-! ## Interactive editing -/

theorem ThemeManager.loadLine_frame (m : ThemeManager) (name line : Str) :
    (m.loadLine name line).currentTheme = m.currentTheme ∧
    (m.loadLine name line).defaultTheme = m.defaultTheme ∧
    (m.loadLine name line).color_enabled = m.color_enabled ∧
    ∀ B, B ≠ name → Table.find (m.loadLine name line).themes B = Table.find m.themes B := by
  unfold ThemeManager.loadLine
  split
  · exact ⟨rfl, rfl, rfl, fun _ _ => rfl⟩
  · split
    · exact ⟨rfl, rfl, rfl, fun _ _ => rfl⟩
    · have ht : ∀ B, B ≠ name → Table.find (m.touch name).themes B = Table.find m.themes B := by
        intro B hB
        unfold ThemeManager.touch
        split
        · rfl
        · exact Table.find_assign_ne _ _ _ _ hB
      have hf : (m.touch name).currentTheme = m.currentTheme ∧
          (m.touch name).defaultTheme = m.defaultTheme ∧
          (m.touch name).color_enabled = m.color_enabled := by
        unfold ThemeManager.touch
        split <;> exact ⟨rfl, rfl, rfl⟩
      refine ⟨hf.1, hf.2.1, hf.2.2, ?_⟩
      intro B hB
      show Table.find (Table.assign (m.touch name).themes name _) B = _
      rw [Table.find_assign_ne _ _ _ _ hB]
      exact ht B hB

theorem ThemeManager.foldl_loadLine_frame (name : Str) (lines : List Str) :
    ∀ m : ThemeManager,
      (lines.foldl (fun st line => st.loadLine name line) m).currentTheme = m.currentTheme ∧
      (lines.foldl (fun st line => st.loadLine name line) m).defaultTheme = m.defaultTheme ∧
      (lines.foldl (fun st line => st.loadLine name line) m).color_enabled
        = m.color_enabled ∧
      ∀ B, B ≠ name →
        Table.find (lines.foldl (fun st line => st.loadLine name line) m).themes B
          = Table.find m.themes B := by
  induction lines with
  | nil => intro m; exact ⟨rfl, rfl, rfl, fun _ _ => rfl⟩
  | cons l rest ih =>
    intro m
    obtain ⟨h1, h2, h3, h4⟩ := ih (m.loadLine name l)
    obtain ⟨g1, g2, g3, g4⟩ := ThemeManager.loadLine_frame m name l
    rw [List.foldl_cons]
    exact ⟨h1.trans g1, h2.trans g2, h3.trans g3, fun B hB => (h4 B hB).trans (g4 B hB)⟩

theorem ThemeManager.editLoopStdin_done (name : Str) (pre post : List Str)
    (hpre : "done".toList ∉ pre) :
    ∀ m : ThemeManager,
      ThemeManager.editLoopStdin name m (pre ++ "done".toList :: post)
        = some (pre.foldl (fun st line => st.loadLine name line) m, post) := by
  induction pre with
  | nil => intro m; simp [ThemeManager.editLoopStdin]
  | cons l rest ih =>
    intro m
    have hl : l ≠ "done".toList := fun e => hpre (e ▸ List.mem_cons_self _ _)
    have hrest : "done".toList ∉ rest := fun h => hpre (List.mem_cons_of_mem _ h)
    rw [List.cons_append, ThemeManager.editLoopStdin, if_neg hl, ih hrest]
    rfl

theorem ThemeManager.editLoop_eq_stdin (name : Str) (input : List Str) :
    ∀ m : ThemeManager,
      ThemeManager.editLoop name m input
        = (ThemeManager.editLoopStdin name m input).map Prod.fst := by
  induction input with
  | nil => intro m; rfl
  | cons l rest ih =>
    intro m
    unfold ThemeManager.editLoop ThemeManager.editLoopStdin
    split
    · rfl
    · exact ih _

theorem processLines_skip (t : Table Char Str) (l1 l2 : List Str) (line : Str)
    (hline : ':' ∉ line) :
    processLines lineBinding t (l1 ++ line :: l2) = processLines lineBinding t (l1 ++ l2) := by
  have hb : lineBinding line = none := by simp [lineBinding, hline]
  simp [processLines, List.foldl_append, hb]

/-- C22 (as amended): `interactive_edit_theme(name)` throws without consuming any input
when `name` is not registered; otherwise, for input lines `pre`, then `"done"`, then `post`,
with no `"done"` in `pre`, it returns after consuming the lines up to and including that
`"done"`, and theme `name`, current or not, gets the char table obtained from its old one
by processing the lines `pre` in order, where a line with a `:` binds the first character
of the line to the text after its first `:` and a line without `:` changes nothing and
does not stop the processing; nothing else in the manager changes. -/
theorem interactive_edit_theme_lines (m : ThemeManager) (name : Str) (input : List Str) :
    (name ∉ m.list →
      m.interactive_edit_theme_stdin name input
        = some ({ thrown := some ("Theme does not exist: ".toList ++ name), state := m },
            input)) ∧
    (∀ (cm : ColorMapping) (pre post : List Str), Table.find m.themes name = some cm →
      "done".toList ∉ pre → input = pre ++ "done".toList :: post →
      ∃ m1, m.interactive_edit_theme_stdin name input
          = some ({ thrown := none, state := m1 }, post) ∧
        Table.find m1.themes name
          = some { cm with
              charToColorCode := processLines lineBinding cm.charToColorCode pre } ∧
        (∀ B, B ≠ name → Table.find m1.themes B = Table.find m.themes B) ∧
        m1.currentTheme = m.currentTheme ∧ m1.defaultTheme = m.defaultTheme ∧
        m1.color_enabled = m.color_enabled) ∧
    (∀ (t : Table Char Str) (l1 l2 : List Str) (line : Str), ':' ∉ line →
      processLines lineBinding t (l1 ++ line :: l2) = processLines lineBinding t (l1 ++ l2)) ∧
    m.interactive_edit_theme name input
      = (m.interactive_edit_theme_stdin name input).map Prod.fst := by
  refine ⟨?_, ?_, processLines_skip, ?_⟩
  · intro hn
    have hnone : Table.find m.themes name = none := by
      by_contra hne
      exact hn ((ThemeManager.mem_list_iff m name).2 hne)
    simp [ThemeManager.interactive_edit_theme_stdin, hnone]
  · intro cm pre post hcm hpre hinput
    subst hinput
    refine ⟨pre.foldl (fun st line => st.loadLine name line) m, ?_,
      foldl_loadLine_processLines name pre m cm hcm, ?_⟩
    · unfold ThemeManager.interactive_edit_theme_stdin
      rw [hcm, ThemeManager.editLoopStdin_done name pre post hpre m]
      rfl
    · obtain ⟨h1, h2, h3, h4⟩ := ThemeManager.foldl_loadLine_frame name pre m
      exact ⟨h4, h1, h2, h3⟩
  · unfold ThemeManager.interactive_edit_theme ThemeManager.interactive_edit_theme_stdin
    split
    · rfl
    · rw [ThemeManager.editLoop_eq_stdin]
      cases ThemeManager.editLoopStdin name m input <;> rfl

theorem interactive_edit_theme_lines_counterexample :
    (ThemeManager.init.interactive_edit_theme "default".toList
      ["ab:X".toList, "done".toList]).map
        (fun r => (r.state.theme "default".toList).charToColorCode)
      = some [('a', "X".toList)] ∧
    processLines lineBindingStated [] ["ab:X".toList] = [('b', "X".toList)] ∧
    (ThemeManager.init.interactive_edit_theme "default".toList
      ["ab:X".toList, "done".toList]).map
        (fun r => (r.state.theme "default".toList).inspect_color 'b') = some none ∧
    (ThemeManager.init.interactive_edit_theme "default".toList
      [":X".toList, "done".toList]).map
        (fun r => (r.state.theme "default".toList).charToColorCode)
      = some [(':', "X".toList)] ∧
    processLines lineBindingStated [] [":X".toList] = [] := by
  decide

theorem interactive_edit_theme_lines_witness :
    "ghost".toList ∉ ThemeManager.init.list ∧
    ThemeManager.init.interactive_edit_theme_stdin "ghost".toList ["a:b".toList]
      = some ({ thrown := some ("Theme does not exist: ".toList ++ "ghost".toList)
                state := ThemeManager.init }, ["a:b".toList]) ∧
    ∃ m1, ThemeManager.init.interactive_edit_theme_stdin "default".toList
        ["[:\x1b[1m".toList, "oops".toList, "done".toList, "x:y".toList]
          = some ({ thrown := none, state := m1 }, ["x:y".toList]) ∧
      Table.find m1.themes "default".toList
        = some { ColorMapping.empty with
            charToColorCode := processLines lineBinding ColorMapping.empty.charToColorCode
              ["[:\x1b[1m".toList, "oops".toList] } :=
  ⟨by decide,
    (interactive_edit_theme_lines ThemeManager.init "ghost".toList ["a:b".toList]).1
      (by decide),
    (((interactive_edit_theme_lines ThemeManager.init "default".toList
      ["[:\x1b[1m".toList, "oops".toList, "done".toList, "x:y".toList]).2.1
      ColorMapping.empty ["[:\x1b[1m".toList, "oops".toList] ["x:y".toList]
      (by decide) (by decide) rfl).imp (fun _ h => ⟨h.1, h.2.1⟩))⟩

/-! ## Searching and replacing -/

theorem findFrom_none (pat : Str) (s : Str) (h : findFrom pat s = none) :
    ∀ j, ¬ pat <+: s.drop j := by
  induction s with
  | nil =>
    intro j hp
    by_cases hpat : pat = []
    · simp [findFrom, hpat] at h
    · simp only [List.drop_nil, List.prefix_nil] at hp
      exact hpat hp
  | cons c cs ih =>
    unfold findFrom at h
    split at h
    · cases h
    · rename_i hpre
      have hnone : findFrom pat cs = none := by
        cases hf : findFrom pat cs with
        | none => rfl
        | some i => simp [hf] at h
      intro j hp
      cases j with
      | zero => exact hpre (List.isPrefixOf_iff_prefix.2 hp)
      | succ j => exact ih hnone j hp

theorem findFrom_some (pat : Str) (s : Str) :
    ∀ i, findFrom pat s = some i →
      i ≤ s.length ∧ pat <+: s.drop i ∧ ∀ j, j < i → ¬ pat <+: s.drop j := by
  induction s with
  | nil =>
    intro i h
    by_cases hpat : pat = []
    · simp only [findFrom, hpat, if_true, Option.some.injEq] at h
      subst h
      subst hpat
      exact ⟨Nat.le_refl _, List.nil_prefix, fun j hj => absurd hj (Nat.not_lt_zero j)⟩
    · simp [findFrom, hpat] at h
  | cons c cs ih =>
    intro i h
    unfold findFrom at h
    split at h
    · rename_i hpre
      cases h
      exact ⟨Nat.zero_le _, List.isPrefixOf_iff_prefix.1 hpre,
        fun j hj => absurd hj (Nat.not_lt_zero j)⟩
    · rename_i hpre
      cases hf : findFrom pat cs with
      | none => simp [hf] at h
      | some i2 =>
        simp only [hf, Option.map_some', Option.some.injEq] at h
        subst h
        obtain ⟨h1, h2, h3⟩ := ih i2 hf
        refine ⟨Nat.succ_le_succ h1, h2, ?_⟩
        intro j hj hp
        cases j with
        | zero => exact hpre (List.isPrefixOf_iff_prefix.2 hp)
        | succ j => exact h3 j (Nat.lt_of_succ_lt_succ hj) hp

theorem findFrom_some_split (pat s : Str) (i : Nat) (h : findFrom pat s = some i) :
    s = s.take i ++ pat ++ s.drop (i + pat.length) ∧ (s.take i).length = i ∧
      i + pat.length ≤ s.length := by
  obtain ⟨h1, h2, _⟩ := findFrom_some pat s i h
  have hd : s.drop i = pat ++ s.drop (i + pat.length) := by
    have := List.prefix_iff_eq_append.1 h2
    rw [List.drop_drop] at this
    exact this.symm
  have hlen : pat.length ≤ (s.drop i).length := h2.length_le
  rw [List.length_drop] at hlen
  refine ⟨?_, List.length_take_of_le h1, by omega⟩
  conv_lhs => rw [← List.take_append_drop i s, hd]
  rw [List.append_assoc]

theorem strFind_append (done rest pat : Str) :
    strFind (done ++ rest) pat done.length
      = (findFrom pat rest).map (fun i => i + done.length) := by
  simp [strFind]

theorem strReplace_append (done rest to_ : Str) (i len : Nat) :
    strReplace (done ++ rest) (i + done.length) len to_
      = (done ++ rest.take i ++ to_) ++ rest.drop (i + len) := by
  unfold strReplace
  have h1 : (done ++ rest).take (i + done.length) = done ++ rest.take i := by
    rw [Nat.add_comm, List.take_append]
  have h2 : (done ++ rest).drop (i + done.length + len) = rest.drop (i + len) := by
    have : i + done.length + len = done.length + (i + len) := by omega
    rw [this, List.drop_append]
  rw [h1, h2]

theorem replaceLoop_prefix (from_ to_ : Str) (fuel : Nat) :
    ∀ (done rest : Str),
      replaceLoop from_ to_ fuel (done ++ rest) done.length
        = (replaceLoop from_ to_ fuel rest 0).map (fun r => (done ++ r.1, r.2)) := by
  induction fuel with
  | zero => intro done rest; rfl
  | succ fuel ih =>
    intro done rest
    have h0 : strFind rest from_ 0 = findFrom from_ rest := by
      simp [strFind]
    unfold replaceLoop
    rw [strFind_append, h0]
    cases hf : findFrom from_ rest with
    | none => rfl
    | some i =>
      obtain ⟨_, hlen, hle⟩ := findFrom_some_split from_ rest i hf
      simp only [Option.map_some']
      have e1 := strReplace_append done rest to_ i from_.length
      have e2 := strReplace_append [] rest to_ i from_.length
      simp only [List.nil_append, List.length_nil, Nat.add_zero] at e2
      have l1 : i + done.length + to_.length = (done ++ rest.take i ++ to_).length := by
        simp [hlen]; omega
      have l2 : i + to_.length = (rest.take i ++ to_).length := by
        simp [hlen]
      rw [e1, l1, ih, e2, l2, ih]
      cases replaceLoop from_ to_ fuel (rest.drop (i + from_.length)) 0 with
      | none => rfl
      | some r => simp

theorem replaceLoop_unfold (from_ to_ : Str) (fuel : Nat) (rest : Str) :
    replaceLoop from_ to_ (fuel + 1) rest 0
      = match findFrom from_ rest with
        | none => some (rest, 0)
        | some i =>
          (replaceLoop from_ to_ fuel (rest.drop (i + from_.length)) 0).map
            (fun r => (rest.take i ++ to_ ++ r.1, r.2 + 1)) := by
  have h0 : strFind rest from_ 0 = findFrom from_ rest := by
    simp [strFind]
  rw [replaceLoop, h0]
  cases hf : findFrom from_ rest with
  | none => rfl
  | some i =>
    obtain ⟨_, hlen, hle⟩ := findFrom_some_split from_ rest i hf
    have e2 := strReplace_append [] rest to_ i from_.length
    simp only [List.nil_append, List.length_nil, Nat.add_zero] at e2
    have l2 : i + to_.length = (rest.take i ++ to_).length := by
      simp [hlen]
    simp only []
    rw [e2, l2, replaceLoop_prefix]
    cases replaceLoop from_ to_ fuel (rest.drop (i + from_.length)) 0 with
    | none => rfl
    | some r => simp

theorem replaceLoop_terminates (from_ to_ : Str) (hfrom : from_ ≠ []) (fuel : Nat) :
    ∀ rest : Str, rest.length < fuel →
      ∃ r, replaceLoop from_ to_ fuel rest 0 = some r ∧ r.2 ≤ rest.length := by
  induction fuel with
  | zero => intro rest h; exact absurd h (Nat.not_lt_zero _)
  | succ fuel ih =>
    intro rest hlt
    rw [replaceLoop_unfold]
    cases hf : findFrom from_ rest with
    | none => exact ⟨(rest, 0), rfl, Nat.zero_le _⟩
    | some i =>
      obtain ⟨_, _, hle⟩ := findFrom_some_split from_ rest i hf
      have hpos : 0 < from_.length := List.length_pos.2 hfrom
      have hdl : (rest.drop (i + from_.length)).length < fuel := by
        rw [List.length_drop]; omega
      obtain ⟨r, hr, hcount⟩ := ih _ hdl
      refine ⟨(rest.take i ++ to_ ++ r.1, r.2 + 1), by simp [hr], ?_⟩
      rw [List.length_drop] at hcount
      show r.2 + 1 ≤ rest.length
      omega

theorem replaceLoop_empty_from (to_ : Str) (fuel : Nat) :
    ∀ (result : Str) (start_pos : Nat), start_pos ≤ result.length →
      replaceLoop [] to_ fuel result start_pos = none := by
  induction fuel with
  | zero => intro result start_pos _; rfl
  | succ fuel ih =>
    intro result start_pos hle
    have hfind : strFind result [] start_pos = some start_pos := by
      have h0 : ∀ s : Str, findFrom [] s = some 0 := by
        intro s
        cases s <;> simp [findFrom, List.isPrefixOf]
      simp [strFind, Nat.not_lt.2 hle, h0]
    rw [replaceLoop, hfind]
    simp only []
    rw [ih]
    · rfl
    · simp only [strReplace, List.length_append, List.length_take, List.length_drop,
        List.length_nil]
      omega

theorem custom_regex_replace_terminates (str from_ to_ : Str) (hfrom : from_ ≠ [])
    (fuel : Nat) (hfuel : str.length < fuel) :
    ∃ r, replaceLoop from_ to_ fuel str 0 = some r ∧ r.2 ≤ str.length ∧
      custom_regex_replace fuel str from_ to_ = some r.1 := by
  obtain ⟨r, hr, hc⟩ := replaceLoop_terminates from_ to_ hfrom fuel str hfuel
  exact ⟨r, hr, hc, by simp [custom_regex_replace, hr]⟩

/-- C28: with an empty `from`, `custom_regex_replace(str, from, to)` does not return: for
every `str` and `to` the loop has not exited after any number of iterations, since
`find("", start_pos)` succeeds at `start_pos` each time and `to` is inserted there; so
`highlight_pattern` with an empty pattern, colors being enabled, does not return either. -/
theorem custom_regex_replace_empty_from_diverges (fuel : Nat) (str to_ text : Str)
    (r g b : Nat) :
    replaceLoop [] to_ fuel str 0 = none ∧
    custom_regex_replace fuel str [] to_ = none ∧
    highlight_pattern Globals.init fuel text [] r g b = none := by
  have h : ∀ (s t : Str), replaceLoop [] t fuel s 0 = none :=
    fun s t => replaceLoop_empty_from t fuel s 0 (Nat.zero_le _)
  refine ⟨h str to_, by simp [custom_regex_replace, h], ?_⟩
  unfold highlight_pattern
  rw [if_pos (by rfl)]
  simp [custom_regex_replace, h]

/-! ## Rendering of escape codes -/

theorem colorReplaceLoop_eq (from_ to_ : Str) (fuel : Nat) :
    ∀ (result : Str) (start : Nat),
      colorReplaceLoop from_ to_ fuel result (strFind result from_ start)
        = (replaceLoop from_ to_ fuel result start).map Prod.fst := by
  induction fuel with
  | zero =>
    intro result start
    cases strFind result from_ start <;> rfl
  | succ fuel ih =>
    intro result start
    rw [replaceLoop]
    cases hf : strFind result from_ start with
    | none => rfl
    | some p =>
      rw [colorReplaceLoop, ih]
      simp only [Option.map_map]
      rfl

theorem prefix_within_of_head_unique (e : Char) (P' X Y : Str) (he : e ∉ P') (hX : X ≠ [])
    (h : (e :: P') <+: X ++ e :: Y) : (e :: P') <+: X := by
  by_cases hlen : (e :: P').length ≤ X.length
  · exact List.prefix_of_prefix_length_le h (List.prefix_append _ _) hlen
  · exfalso
    have h2 : X ++ [e] <+: X ++ e :: Y := by simp
    have h3 : X ++ [e] <+: e :: P' :=
      List.prefix_of_prefix_length_le h2 h (by
        simp only [List.length_append, List.length_singleton]
        omega)
    obtain ⟨Z, hZ⟩ := h3
    cases X with
    | nil => exact hX rfl
    | cons x X' =>
      simp only [List.cons_append, List.append_assoc, List.cons.injEq] at hZ
      exact he (hZ.2 ▸ by simp)

theorem no_occurrence_after_tail (e : Char) (P' R : Str)
    (hR : ∀ j, ¬ (e :: P') <+: R.drop j) :
    ∀ S : Str, e ∉ S → ∀ j, ¬ (e :: P') <+: (S ++ R).drop j := by
  intro S
  induction S with
  | nil => intro _ j; exact hR j
  | cons c S ih =>
    intro hS j
    cases j with
    | zero =>
      intro h
      rw [List.drop_zero, List.cons_append, List.cons_prefix_cons] at h
      exact hS (h.1 ▸ List.mem_cons_self _ _)
    | succ j =>
      simpa using ih (fun hm => hS (List.mem_cons_of_mem _ hm)) j

theorem no_occurrence_step (e : Char) (P' T' R : Str) (heP : e ∉ P') (heT : e ∉ T')
    (hlen : P'.length = T'.length) (hne : P' ≠ T')
    (hR : ∀ j, ¬ (e :: P') <+: R.drop j) :
    ∀ (pre rest : Str),
      (∀ j, j < pre.length → ¬ (e :: P') <+: (pre ++ (e :: P') ++ rest).drop j) →
      ∀ j, ¬ (e :: P') <+: (pre ++ (e :: T') ++ R).drop j := by
  intro pre
  induction pre with
  | nil =>
    intro rest _ j
    cases j with
    | zero =>
      intro h
      simp only [List.nil_append, List.drop_zero, List.cons_append,
        List.cons_prefix_cons, true_and] at h
      have h1 : P' <+: T' :=
        List.prefix_of_prefix_length_le h (List.prefix_append _ _) (le_of_eq hlen)
      exact hne (h1.eq_of_length hlen)
    | succ j =>
      have := no_occurrence_after_tail e P' R hR T' heT j
      simpa using this
  | cons c pre ih =>
    intro rest hpre j
    cases j with
    | zero =>
      intro h
      have h1 : (e :: P') <+: (c :: pre) :=
        prefix_within_of_head_unique e P' (c :: pre) (T' ++ R) heP (by simp)
          (by simpa using h)
      exact hpre 0 (by simp) (by simpa using h1.trans (List.prefix_append _ _))
    | succ j =>
      have := ih rest (fun j hj => by simpa using hpre (j + 1) (by simpa using hj)) j
      simpa using this

theorem differs_step (P T pre rest R : Str) (hlen : P.length = T.length)
    (hR : ∀ k, R[k]? ≠ rest[k]? → ∃ p, p ≤ k ∧ k < p + P.length ∧ P <+: rest.drop p) :
    ∀ k, (pre ++ T ++ R)[k]? ≠ (pre ++ P ++ rest)[k]? →
      ∃ p, p ≤ k ∧ k < p + P.length ∧ P <+: (pre ++ P ++ rest).drop p := by
  intro k hk
  by_cases h1 : k < pre.length
  · exfalso
    apply hk
    rw [List.append_assoc, List.append_assoc, List.getElem?_append_left h1,
      List.getElem?_append_left h1]
  · by_cases h2 : k < pre.length + P.length
    · refine ⟨pre.length, by omega, h2, ?_⟩
      rw [List.append_assoc, List.drop_left]
      exact List.prefix_append _ _
    · have hk2 : R[k - (pre ++ P).length]? ≠ rest[k - (pre ++ P).length]? := by
        intro e
        apply hk
        rw [List.getElem?_append_right (by simp only [List.length_append]; omega),
          List.getElem?_append_right (by simp only [List.length_append]; omega)]
        simp only [List.length_append] at e ⊢
        rw [← hlen, e]
      obtain ⟨p, hp1, hp2, hp3⟩ := hR _ hk2
      simp only [List.length_append] at hp1 hp2
      refine ⟨(pre ++ P).length + p, by simp only [List.length_append]; omega,
        by simp only [List.length_append]; omega, ?_⟩
      rw [List.drop_append]
      exact hp3

theorem findFrom_some_parts (pat s : Str) (i : Nat) (h : findFrom pat s = some i) :
    ∃ pre tl, s = pre ++ pat ++ tl ∧ pre.length = i ∧ s.take i = pre ∧
      s.drop (i + pat.length) = tl :=
  ⟨s.take i, s.drop (i + pat.length), (findFrom_some_split pat s i h).1,
    (findFrom_some_split pat s i h).2.1, rfl, rfl⟩

theorem replaceLoop_same_length (e : Char) (P' T' : Str) (heP : e ∉ P') (heT : e ∉ T')
    (hlen : P'.length = T'.length) (fuel : Nat) :
    ∀ rest : Str, rest.length < fuel →
      ∃ r, replaceLoop (e :: P') (e :: T') fuel rest 0 = some r ∧
        r.1.length = rest.length ∧
        (findFrom (e :: P') rest = none → r.1 = rest) ∧
        (∀ k, r.1[k]? ≠ rest[k]? →
          ∃ p, p ≤ k ∧ k < p + (e :: P').length ∧ (e :: P') <+: rest.drop p) ∧
        (P' ≠ T' → ∀ j, ¬ (e :: P') <+: r.1.drop j) := by
  induction fuel with
  | zero => intro rest h; exact absurd h (Nat.not_lt_zero _)
  | succ fuel ih =>
    intro rest hlt
    rw [replaceLoop_unfold]
    cases hf : findFrom (e :: P') rest with
    | none =>
      exact ⟨(rest, 0), rfl, rfl, fun _ => rfl, fun k hk => absurd rfl hk,
        fun _ j => findFrom_none (e :: P') rest hf j⟩
    | some i =>
      obtain ⟨_, _, hfirst⟩ := findFrom_some (e :: P') rest i hf
      obtain ⟨pre, tl, hsplit, hprelen, htake, hdrop⟩ := findFrom_some_parts (e :: P') rest i hf
      simp only []
      rw [htake, hdrop]
      subst hsplit
      have htl : tl.length < fuel := by
        simp only [List.length_append, List.length_cons] at hlt
        omega
      obtain ⟨r, hr, hrlen, _, hrdiff, hrno⟩ := ih tl htl
      rw [hr]
      refine ⟨_, rfl, ?_, ?_, ?_, ?_⟩
      · simp only [List.length_append, List.length_cons, hrlen, hlen]
      · intro hnone
        exact absurd hnone (by simp)
      · exact differs_step (e :: P') (e :: T') pre tl r.1
          (by simp only [List.length_cons, hlen]) hrdiff
      · intro hne
        exact no_occurrence_step e P' T' r.1 heP heT hlen hne (hrno hne) pre tl
          (fun j hj => hfirst j (hprelen ▸ hj))

set_option maxRecDepth 100000 in
theorem ESC_not_mem_decimal3 : ∀ n, n < 256 → ESC ∉ decimal3 n := by
  decide

theorem rgb_sequence_shape (gl : Globals) (r g b : Nat)
    (hc : CHECK_COLOR_AND_THEME gl = true) (hr : r < 256) (hg : g < 256) (hb : b < 256) :
    ∃ P', APPLY_RGB_COLOR_MACRO_TO_STRING gl [] r g b '3' = ESC :: P' ∧ ESC ∉ P' ∧
      P'.length = 18 := by
  rw [APPLY_RGB_COLOR_MACRO_TO_STRING_eq gl [] r g b '3' hc hr hg hb]
  refine ⟨['[', '3'] ++ "8;2;".toList ++ decimal3 r ++ ";".toList ++ decimal3 g
    ++ ";".toList ++ decimal3 b ++ "m".toList, rfl, ?_, ?_⟩
  · have h1 := ESC_not_mem_decimal3 r hr
    have h2 := ESC_not_mem_decimal3 g hg
    have h3 := ESC_not_mem_decimal3 b hb
    simp only [List.mem_append, not_or]
    refine ⟨⟨⟨⟨⟨⟨⟨?_, ?_⟩, h1⟩, ?_⟩, h2⟩, ?_⟩, h3⟩, ?_⟩ <;> decide
  · simp [(decimal3_digits r hr).1, (decimal3_digits g hg).1, (decimal3_digits b hb).1]

theorem rgb_sequence_injective (gl : Globals) (r g b r2 g2 b2 : Nat)
    (hc : CHECK_COLOR_AND_THEME gl = true) (hr : r < 256) (hg : g < 256) (hb : b < 256)
    (hr2 : r2 < 256) (hg2 : g2 < 256) (hb2 : b2 < 256)
    (h : APPLY_RGB_COLOR_MACRO_TO_STRING gl [] r g b '3'
      = APPLY_RGB_COLOR_MACRO_TO_STRING gl [] r2 g2 b2 '3') :
    r = r2 ∧ g = g2 ∧ b = b2 := by
  have hlen3 : ∀ k, k < 256 → (decimal3 k).length = 3 := fun k hk => (decimal3_digits k hk).1
  rw [APPLY_RGB_COLOR_MACRO_TO_STRING_eq gl [] r g b '3' hc hr hg hb,
    APPLY_RGB_COLOR_MACRO_TO_STRING_eq gl [] r2 g2 b2 '3' hc hr2 hg2 hb2] at h
  have h0 : decimal3 r ++ (';' :: (decimal3 g ++ (';' :: (decimal3 b ++ ['m']))))
      = decimal3 r2 ++ (';' :: (decimal3 g2 ++ (';' :: (decimal3 b2 ++ ['m'])))) := by
    simpa using h
  have h1 := List.append_inj h0 (by rw [hlen3 r hr, hlen3 r2 hr2])
  have h2 := List.append_inj (List.cons.inj h1.2).2 (by rw [hlen3 g hg, hlen3 g2 hg2])
  have h3 := List.append_inj (List.cons.inj h2.2).2 (by rw [hlen3 b hb, hlen3 b2 hb2])
  exact ⟨decimal3_injective r r2 hr hr2 h1.1, decimal3_injective g g2 hg hg2 h2.1,
    decimal3_injective b b2 hb hb2 h3.1⟩

theorem infix_iff_prefix_drop (P L : Str) : P <:+: L ↔ ∃ j, P <+: L.drop j := by
  constructor
  · rintro ⟨s, t, rfl⟩
    exact ⟨s.length, by
      rw [List.append_assoc, List.drop_left]
      exact List.prefix_append _ _⟩
  · rintro ⟨j, hj⟩
    exact hj.isInfix.trans (List.drop_suffix j L).isInfix

/-- C24: for RGB triples `from` and `to` with every channel in 0..255 and colors enabled,
`replace_color_all_instances(text, from, to)` returns a result of the same length as
`text`, which equals `text` when `text` contains no occurrence of the 24-bit foreground
sequence of `from`, differs from `text` only at positions inside an occurrence of that
sequence, and contains no occurrence of it when `from` differs from `to`; it is the result
of `custom_regex_replace` on the two sequences. With colors disabled the result is
`text`. -/
theorem replace_color_all_instances_ok (gl : Globals) (fuel : Nat) (text : Str)
    (fr fg fb tr tg tb : Nat) :
    (CHECK_COLOR_AND_THEME gl = true → fr < 256 → fg < 256 → fb < 256 →
      tr < 256 → tg < 256 → tb < 256 → text.length < fuel →
      ∃ result, replace_color_all_instances gl fuel text fr fg fb tr tg tb = some result ∧
        custom_regex_replace fuel text (APPLY_RGB_COLOR_MACRO_TO_STRING gl [] fr fg fb '3')
          (APPLY_RGB_COLOR_MACRO_TO_STRING gl [] tr tg tb '3') = some result ∧
        result.length = text.length ∧
        (¬ APPLY_RGB_COLOR_MACRO_TO_STRING gl [] fr fg fb '3' <:+: text → result = text) ∧
        (∀ k, result[k]? ≠ text[k]? →
          ∃ p, p ≤ k ∧ k < p + 19 ∧
            APPLY_RGB_COLOR_MACRO_TO_STRING gl [] fr fg fb '3' <+: text.drop p) ∧
        ((fr, fg, fb) ≠ (tr, tg, tb) →
          ¬ APPLY_RGB_COLOR_MACRO_TO_STRING gl [] fr fg fb '3' <:+: result)) ∧
    (CHECK_COLOR_AND_THEME gl = false →
      replace_color_all_instances gl fuel text fr fg fb tr tg tb = some text) := by
  constructor
  · intro hc hfr hfg hfb htr htg htb hfuel
    obtain ⟨P', hP, heP, hPlen⟩ := rgb_sequence_shape gl fr fg fb hc hfr hfg hfb
    obtain ⟨T', hT, heT, hTlen⟩ := rgb_sequence_shape gl tr tg tb hc htr htg htb
    have hinj := rgb_sequence_injective gl fr fg fb tr tg tb hc hfr hfg hfb htr htg htb
    obtain ⟨r, hr, hrlen, hreq, hrdiff, hrno⟩ :=
      replaceLoop_same_length ESC P' T' heP heT (hPlen.trans hTlen.symm) fuel text hfuel
    have hrun : replace_color_all_instances gl fuel text fr fg fb tr tg tb = some r.1 := by
      unfold replace_color_all_instances
      rw [if_pos hc, colorReplaceLoop_eq, hP, hT, hr]
      rfl
    rw [hP, hT] at hinj
    rw [hrun, hP, hT]
    refine ⟨r.1, rfl, by simp [custom_regex_replace, hr], hrlen, ?_, ?_, ?_⟩
    · intro hno
      apply hreq
      cases hf : findFrom (ESC :: P') text with
      | none => rfl
      | some i =>
        exact absurd ((infix_iff_prefix_drop _ _).2 ⟨i, (findFrom_some _ _ i hf).2.1⟩) hno
    · intro k hk
      obtain ⟨p, h1, h2, h3⟩ := hrdiff k hk
      exact ⟨p, h1, by simpa [hPlen] using h2, h3⟩
    · intro hne hinf
      obtain ⟨j, hj⟩ := (infix_iff_prefix_drop _ _).1 hinf
      refine hrno (fun hPT => hne ?_) j hj
      obtain ⟨h1, h2, h3⟩ := hinj (by rw [hPT])
      rw [h1, h2, h3]
  · intro hc
    unfold replace_color_all_instances
    rw [if_neg (by simp [hc])]

theorem replace_color_all_instances_ok_witness :
    (CHECK_COLOR_AND_THEME Globals.init = true ∧ "a\x1b[38;2;255;000;000mb".toList.length < 30) ∧
    (∃ result, replace_color_all_instances Globals.init 30
        "a\x1b[38;2;255;000;000mb".toList 255 0 0 0 128 255 = some result ∧
      result.length = "a\x1b[38;2;255;000;000mb".toList.length ∧
      ¬ APPLY_RGB_COLOR_MACRO_TO_STRING Globals.init [] 255 0 0 '3' <:+: result) ∧
    replace_color_all_instances Globals.init 30 "a\x1b[38;2;255;000;000mb".toList
      255 0 0 0 128 255 = some "a\x1b[38;2;000;128;255mb".toList ∧
    replace_color_all_instances (disable_global_color Globals.init) 30
      "a\x1b[38;2;255;000;000mb".toList 255 0 0 0 128 255
      = some "a\x1b[38;2;255;000;000mb".toList := by
  obtain ⟨result, h1, _, h3, _, _, h6⟩ :=
    (replace_color_all_instances_ok Globals.init 30 "a\x1b[38;2;255;000;000mb".toList
      255 0 0 0 128 255).1 (by decide) (by decide) (by decide) (by decide) (by decide)
      (by decide) (by decide) (by decide)
  exact ⟨⟨by decide, by decide⟩, ⟨result, h1, h3, h6 (by decide)⟩, by decide,
    (replace_color_all_instances_ok (disable_global_color Globals.init) 30
      "a\x1b[38;2;255;000;000mb".toList 255 0 0 0 128 255).2 (by decide)⟩

end colorterm
